import Mathlib

/-!
A shallow embedding of swag `parser/operation.go`.

The Go source parses one documentation-comment line at a time into an
`Operation` record.  Go strings are modelled as lists of Unicode code points
(`Str`), i.e. valid UTF-8 is assumed; the regular expressions of the source are
written in a small abstract syntax and run by a backtracking matcher with the
leftmost-first preference order of Go's `regexp` package.
-/

namespace Swag

/-- A Go string, as its sequence of code points. -/
abbrev Str := List Char

/-! ## Character classes -/

/-- Regexp class `\d`: ASCII decimal digits. -/
def isDigit (c : Char) : Bool := 48 ≤ c.toNat && c.toNat ≤ 57

/-- Regexp class `\w`: `[0-9A-Za-z_]`. -/
def isWord (c : Char) : Bool :=
  isDigit c || (65 ≤ c.toNat && c.toNat ≤ 90) || (97 ≤ c.toNat && c.toNat ≤ 122) || c.toNat == 95

/-- Regexp class `\s`: `[\t\n\f\r ]`. -/
def isReSpace (c : Char) : Bool :=
  c.toNat == 9 || c.toNat == 10 || c.toNat == 12 || c.toNat == 13 || c.toNat == 32

/-- Go `unicode.IsSpace`: the white-space code points used by `strings.TrimSpace`
and `strings.Fields`. -/
def unicode_IsSpace (c : Char) : Bool :=
  (9 ≤ c.toNat && c.toNat ≤ 13) || c.toNat == 32 || c.toNat == 0x85 || c.toNat == 0xA0 ||
  c.toNat == 0x1680 || (0x2000 ≤ c.toNat && c.toNat ≤ 0x200a) || c.toNat == 0x2028 ||
  c.toNat == 0x2029 || c.toNat == 0x202f || c.toNat == 0x205f || c.toNat == 0x3000

/-- Class `[-\w]` of the name field of a parameter line. -/
def isNameChar (c : Char) : Bool := c == '-' || isWord c

/-- Class `[\S.]` of the type field of a parameter line (the dot is already in `\S`). -/
def isTypeChar (c : Char) : Bool := !isReSpace c || c == '.'

/-- Class `[^"]`. -/
def isNotQuote (c : Char) : Bool := !(c == '"')

/-- Class `[\w\.\/\-{}]` of the path of a router line. -/
def isPathChar (c : Char) : Bool :=
  isWord c || c == '.' || c == '/' || c == '-' || c == '{' || c == '}'

/-- Class `[^\[]`. -/
def isNotLBracket (c : Char) : Bool := !(c == '[')

/-- Class `[^\]]`. -/
def isNotRBracket (c : Char) : Bool := !(c == ']')

/-- Class `[\w\{\}]` of the schema-kind token of a response line. -/
def isKindChar (c : Char) : Bool := isWord c || c == '{' || c == '}'

/-- Class `[\w\-\.\/]` of the type-reference token of a response line. -/
def isRefChar (c : Char) : Bool := isWord c || c == '-' || c == '.' || c == '/'

/-- Regexp `.`: any code point but the newline. -/
def isDot (c : Char) : Bool := !(c.toNat == 10)

/-! ## The `strings` and `strconv` functions the source calls -/

/-- The behaviour of the libraries the source calls that is not part of this
repository, taken as a parameter: the Unicode case tables behind
`strings.ToUpper` and `strings.ToLower`, and `jsonreference.MustCreateRef`, which
either panics with a message (`Except.error`) or creates a reference, identified
here with the string the reference renders as (`Except.ok`). -/
structure Libraries where
  upper : Char → Char
  lower : Char → Char
  MustCreateRef : Str → Except Str Str

/-- Hexadecimal digits. -/
def isHexDigit (c : Char) : Bool :=
  isDigit c || (65 ≤ c.toNat && c.toNat ≤ 70) || (97 ≤ c.toNat && c.toNat ≤ 102)

/-- Some `%` of the string is not followed by two hexadecimal digits. -/
def hasBadEscape : Str → Bool
  | [] => false
  | c :: rest =>
    if c = '%' then
      match rest with
      | a :: b :: rest2 => !(isHexDigit a && isHexDigit b) || hasBadEscape rest2
      | _ => true
    else hasBadEscape rest

/-- A sample of the libraries, for evaluation on concrete lines: the case tables
restricted to ASCII letters (Go agrees with them on ASCII), and a reference
library that, like `jsonreference` through `net/url`, refuses a string with a
`%` not followed by two hexadecimal digits (the message of the panic is
shortened to the kind of error); every other string is taken to render
unchanged, which the real library does for ASCII identifiers. -/
def sampleLibraries : Libraries where
  upper := fun c => if 97 ≤ c.toNat && c.toNat ≤ 122 then Char.ofNat (c.toNat - 32) else c
  lower := fun c => if 65 ≤ c.toNat && c.toNat ≤ 90 then Char.ofNat (c.toNat + 32) else c
  MustCreateRef := fun s =>
    if hasBadEscape s then Except.error "invalid URL escape".toList else Except.ok s

/-- Go `strings.ToUpper`. -/
def strings_ToUpper (U : Libraries) (s : Str) : Str := s.map U.upper

/-- Go `strings.ToLower`. -/
def strings_ToLower (U : Libraries) (s : Str) : Str := s.map U.lower

/-- Go `strings.TrimLeft(s, cutset)`. -/
def strings_TrimLeft (s cutset : Str) : Str := s.dropWhile (fun c => cutset.contains c)

/-- Go `strings.TrimRight(s, cutset)`. -/
def strings_TrimRight (s cutset : Str) : Str :=
  (s.reverse.dropWhile (fun c => cutset.contains c)).reverse

/-- Go `strings.Trim(s, cutset)`. -/
def strings_Trim (s cutset : Str) : Str := strings_TrimRight (strings_TrimLeft s cutset) cutset

/-- Go `strings.TrimSpace`. -/
def strings_TrimSpace (s : Str) : Str :=
  ((s.dropWhile unicode_IsSpace).reverse.dropWhile unicode_IsSpace).reverse

/-- The loop of `strings.Fields`: `cur` is the field being read, reversed. -/
def fieldsLoop : Str → Str → List Str
  | [], cur => if cur = [] then [] else [cur.reverse]
  | c :: cs, cur =>
    if unicode_IsSpace c then
      (if cur = [] then fieldsLoop cs [] else cur.reverse :: fieldsLoop cs [])
    else fieldsLoop cs (c :: cur)

/-- Go `strings.Fields`. -/
def strings_Fields (s : Str) : List Str := fieldsLoop s []

/-- Go `strings.Split(s, sep)` for a separator of one code point. -/
def strings_Split : Str → Char → List Str
  | [], _ => [[]]
  | c :: cs, sep =>
    if c = sep then [] :: strings_Split cs sep
    else
      match strings_Split cs sep with
      | [] => [[c]]
      | h :: t => (c :: h) :: t

/-- Value of a string of decimal digits. -/
def digitsValue (s : Str) : Nat := s.foldl (fun n c => 10 * n + (c.toNat - 48)) 0

/-- Width in bits of Go's `int` on the 64-bit targets. -/
def intSize : Nat := 64

/-- Go `strconv.Atoi`: `none` is the error result (syntax or range). -/
def strconv_Atoi (s : Str) : Option Int :=
  let neg : Bool := s.head? == some '-'
  let ds : Str := if s.head? = some '-' ∨ s.head? = some '+' then s.tail else s
  if ds = [] then none
  else if !ds.all isDigit then none
  else if neg then
    (if digitsValue ds ≤ 2 ^ (intSize - 1) then some (-(digitsValue ds : Int)) else none)
  else
    (if digitsValue ds < 2 ^ (intSize - 1) then some (digitsValue ds : Int) else none)

/-! ## Regular expressions -/

/-- The fragment of regexp syntax used by the three patterns of the source. -/
inductive RE where
  | chr (c : Char)
  | plus (p : Char → Bool)
  | star (p : Char → Bool)
  | group (n : Nat) (r : RE)
  | seq (r s : RE)
  | opt (r : RE)

/-- Greedy iteration of a character class: consume while the class matches,
giving back one code point at a time when the continuation fails. -/
def starLoop (p : Char → Bool) (k : Str → Option (List Str)) : Str → Option (List Str)
  | [] => k []
  | c :: cs =>
    if p c then (starLoop p k cs).orElse (fun _ => k (c :: cs)) else k (c :: cs)

/-- Backtracking matcher in continuation-passing style: `caps` are the capture
groups so far, `k` matches what follows.  Alternatives are tried in the
leftmost-first order (greedy operators first try to consume). -/
def matchRE : RE → List Str → Str → (List Str → Str → Option (List Str)) → Option (List Str)
  | RE.chr c, caps, xs, k =>
    match xs with
    | [] => none
    | x :: rest => if x = c then k caps rest else none
  | RE.plus p, caps, xs, k =>
    match xs with
    | [] => none
    | x :: rest => if p x then starLoop p (k caps) rest else none
  | RE.star p, caps, xs, k => starLoop p (k caps) xs
  | RE.group n r, caps, xs, k =>
    matchRE r caps xs (fun caps1 ys => k (caps1.set n (xs.take (xs.length - ys.length))) ys)
  | RE.seq r s, caps, xs, k =>
    matchRE r caps xs (fun caps1 ys => matchRE s caps1 ys k)
  | RE.opt r, caps, xs, k =>
    (matchRE r caps xs k).orElse (fun _ => k caps xs)

/-- Number of capture groups of a pattern. -/
def RE.numSubexp : RE → Nat
  | RE.chr _ => 0
  | RE.plus _ => 0
  | RE.star _ => 0
  | RE.group n r => max n r.numSubexp
  | RE.seq r s => max r.numSubexp s.numSubexp
  | RE.opt r => r.numSubexp

/-- Match anchored at the start of `xs`; entry 0 of the result is the whole match. -/
def matchAt (re : RE) (xs : Str) : Option (List Str) :=
  matchRE re (List.replicate (re.numSubexp + 1) []) xs
    (fun caps ys => some (caps.set 0 (xs.take (xs.length - ys.length))))

/-- Leftmost search: the first start position with a match wins. -/
def searchFrom (re : RE) : Str → Option (List Str)
  | [] => matchAt re []
  | c :: cs => (matchAt re (c :: cs)).orElse (fun _ => searchFrom re cs)

/-- Go `(*Regexp).FindStringSubmatch`: the empty list stands for `nil`. -/
def FindStringSubmatch (re : RE) (s : Str) : List Str :=
  match searchFrom re s with
  | none => []
  | some m => m

/-! ## The three patterns of the source -/

/-- Pattern of `ParseParamComment`:
`([-\w]+)[\s]+([\w]+)[\s]+([\S.]+)[\s]+([\w]+)[\s]+"([^"]+)"`. -/
def paramRE : RE :=
  RE.seq (RE.group 1 (RE.plus isNameChar)) <|
  RE.seq (RE.plus isReSpace) <|
  RE.seq (RE.group 2 (RE.plus isWord)) <|
  RE.seq (RE.plus isReSpace) <|
  RE.seq (RE.group 3 (RE.plus isTypeChar)) <|
  RE.seq (RE.plus isReSpace) <|
  RE.seq (RE.group 4 (RE.plus isWord)) <|
  RE.seq (RE.plus isReSpace) <|
  RE.seq (RE.chr '"') <|
  RE.seq (RE.group 5 (RE.plus isNotQuote)) (RE.chr '"')

/-- Pattern of `ParseRouterComment`: `([\w\.\/\-{}]+)[^\[]+\[([^\]]+)`. -/
def routerRE : RE :=
  RE.seq (RE.group 1 (RE.plus isPathChar)) <|
  RE.seq (RE.plus isNotLBracket) <|
  RE.seq (RE.chr '[') (RE.group 2 (RE.plus isNotRBracket))

/-- Pattern of `ParseResponseComment`:
`([\d]+)[\s]+([\w\{\}]+)[\s]+([\w\-\.\/]+)[^"]*(.*)?`. -/
def responseRE : RE :=
  RE.seq (RE.group 1 (RE.plus isDigit)) <|
  RE.seq (RE.plus isReSpace) <|
  RE.seq (RE.group 2 (RE.plus isKindChar)) <|
  RE.seq (RE.plus isReSpace) <|
  RE.seq (RE.group 3 (RE.plus isRefChar)) <|
  RE.seq (RE.star isNotQuote) (RE.opt (RE.group 4 (RE.star isDot)))

/-! ## Data model -/

/-- A `*ast.TypeSpec`: only its identity matters here. -/
abbrev TypeSpec := Nat

/-- The properties of a `spec.Schema` that the source sets on an items schema.
`Ref` is the reference, identified with the string it renders as, `none` when
unset. -/
structure SchemaProps where
  Type_ : List Str
  Ref : Option Str
deriving DecidableEq

/-- A `spec.Schema`, with the fields the source sets. -/
structure Schema where
  Type_ : List Str
  Ref : Option Str
  Items : Option SchemaProps
deriving DecidableEq

/-- A `spec.Parameter`: `ParamProps` and the `Type` of its `SimpleSchema`. -/
structure Parameter where
  Name : Str
  Description : Str
  Required : Bool
  In : Str
  Schema : Option Schema
  Type_ : Str
deriving DecidableEq

/-- A `spec.Response`. -/
structure Response where
  Description : Str
  Schema : Option Schema
deriving DecidableEq

/-- The shared parser context: the two maps of `Parser` the source touches. -/
structure Parser where
  TypeDefinitions : Str → Option (Str → Option TypeSpec)
  registerTypes : Str → Option TypeSpec

/-- The `Operation` record; `Responses` is `Responses.StatusCodeResponses`,
`parser` is the object behind the pointer (`none` for `nil`). -/
structure Operation where
  HttpMethod : Str
  Path : Str
  Summary : Str
  Description : Str
  Consumes : List Str
  Produces : List Str
  Parameters : List Parameter
  Responses : Int → Option Response
  parser : Option Parser

/-- How a call ends: a `nil` error, a returned error, or a panic. -/
inductive Status where
  | ok
  | error (msg : Str)
  | panic (msg : Str)
deriving DecidableEq

/-- Result of a method call: the record after the call and how the call ended. -/
structure Outcome where
  op : Operation
  status : Status

/-- Go map assignment `m[k] = v`. -/
def mapSet {κ β : Type} [DecidableEq κ] (m : κ → Option β) (k : κ) (v : β) : κ → Option β :=
  fun x => if x = k then some v else m x

/-- Go lookup `TypeDefinitions[pkgName][typeName]` (a missing inner map reads as empty). -/
def lookupType (P : Parser) (pkgName typeName : Str) : Option TypeSpec :=
  match P.TypeDefinitions pkgName with
  | none => none
  | some inner => inner typeName

/-- Message of a nil-pointer dereference. -/
def nilDeref : Str := "runtime error: invalid memory address or nil pointer dereference".toList

/-! ## Operations -/

/-- Source: `NewOperation`. -/
def NewOperation : Operation where
  HttpMethod := "get".toList
  Path := []
  Summary := []
  Description := []
  Consumes := []
  Produces := []
  Parameters := []
  Responses := fun _ => none
  parser := none

/-- Source: `createParameter`. -/
def createParameter (paramType description paramName schemaType : Str) (required : Bool) :
    Parameter :=
  if paramType = "body".toList then
    { Name := paramName, Description := description, Required := required, In := paramType,
      Schema := some { Type_ := [schemaType], Ref := none, Items := none }, Type_ := [] }
  else
    { Name := paramName, Description := description, Required := required, In := paramType,
      Schema := none, Type_ := schemaType }

/-- The zero value of `spec.Parameter` (`var param spec.Parameter`). -/
def zeroParameter : Parameter :=
  { Name := [], Description := [], Required := false, In := [], Schema := none, Type_ := [] }

/-- The statement `operation.Operation.Parameters = append(..., param)` and `return nil`. -/
def appendParam (operation : Operation) (param : Parameter) : Outcome :=
  ⟨{ operation with Parameters := operation.Parameters ++ [param] }, Status.ok⟩

/-- Source: `ParseParamComment`.  The type token of a body parameter is any run
outside `\s`, so `jsonreference.MustCreateRef` is called on text the pattern
does not constrain: the call goes through the library parameter, and a panic of
the library comes after the write to `registerTypes`. -/
def ParseParamComment (U : Libraries) (operation : Operation) (commentLine : Str) : Outcome :=
  let paramString := commentLine
  let submatch := FindStringSubmatch paramRE paramString
  if submatch.length != 6 then
    ⟨operation, Status.error
      ("Can not parse param comment \"".toList ++ paramString ++ "\", skipped.".toList)⟩
  else
    let name := submatch.getD 1 []
    let paramType := submatch.getD 2 []
    let schemaType := submatch.getD 3 []
    let requiredText := strings_ToLower U (submatch.getD 4 [])
    let required : Bool := requiredText == "true".toList || requiredText == "required".toList
    let description := submatch.getD 5 []
    if paramType = "query".toList ∨ paramType = "path".toList then
      appendParam operation (createParameter paramType description name schemaType required)
    else if paramType = "body".toList then
      let param := createParameter paramType description name "object".toList required
      let refSplit := strings_Split schemaType '.'
      if refSplit.length == 2 then
        let pkgName := refSplit.getD 0 []
        let typeName := refSplit.getD 1 []
        match operation.parser with
        | none => ⟨operation, Status.panic nilDeref⟩
        | some P =>
          match lookupType P pkgName typeName with
          | some typeSpec =>
            let operation1 : Operation :=
              { operation with
                parser := some { P with registerTypes := mapSet P.registerTypes schemaType typeSpec } }
            match U.MustCreateRef ("#/definitions/".toList ++ schemaType) with
            | Except.error msg => ⟨operation1, Status.panic msg⟩
            | Except.ok ref =>
              match param.Schema with
              | none => ⟨operation1, Status.panic nilDeref⟩
              | some sch =>
                appendParam operation1 { param with Schema := some { sch with Ref := some ref } }
          | none =>
            ⟨operation, Status.error
              ("Can not find ref type:\"".toList ++ schemaType ++ "\".".toList)⟩
      else appendParam operation param
    else if paramType = "Header".toList then
      ⟨operation, Status.panic "not supported Header paramType yet.".toList⟩
    else if paramType = "Form".toList then
      ⟨operation, Status.panic "not supported Form paramType yet.".toList⟩
    else appendParam operation zeroParameter

/-- One iteration of the loop of `ParseAcceptComment`: its `switch`. -/
def acceptStep (operation : Operation) (a : Str) : Operation :=
  if a = "json".toList ∨ a = "application/json".toList then
    { operation with Consumes := operation.Consumes ++ ["application/json".toList] }
  else if a = "xml".toList ∨ a = "text/xml".toList then
    { operation with Consumes := operation.Consumes ++ ["text/xml".toList] }
  else if a = "plain".toList ∨ a = "text/plain".toList then
    { operation with Consumes := operation.Consumes ++ ["text/plain".toList] }
  else if a = "html".toList ∨ a = "text/html".toList then
    { operation with Consumes := operation.Consumes ++ ["text/html".toList] }
  else if a = "mpfd".toList ∨ a = "multipart/form-data".toList then
    { operation with Consumes := operation.Consumes ++ ["multipart/form-data".toList] }
  else operation

/-- Source: `ParseAcceptComment`. -/
def ParseAcceptComment (operation : Operation) (commentLine : Str) : Outcome :=
  let accepts := strings_Split commentLine ','
  ⟨accepts.foldl acceptStep operation, Status.ok⟩

/-- One iteration of the loop of `ParseProduceComment`: its `switch`. -/
def produceStep (operation : Operation) (a : Str) : Operation :=
  if a = "json".toList ∨ a = "application/json".toList then
    { operation with Produces := operation.Produces ++ ["application/json".toList] }
  else if a = "xml".toList ∨ a = "text/xml".toList then
    { operation with Produces := operation.Produces ++ ["text/xml".toList] }
  else if a = "plain".toList ∨ a = "text/plain".toList then
    { operation with Produces := operation.Produces ++ ["text/plain".toList] }
  else if a = "html".toList ∨ a = "text/html".toList then
    { operation with Produces := operation.Produces ++ ["text/html".toList] }
  else if a = "mpfd".toList ∨ a = "multipart/form-data".toList then
    { operation with Produces := operation.Produces ++ ["multipart/form-data".toList] }
  else operation

/-- Source: `ParseProduceComment`. -/
def ParseProduceComment (operation : Operation) (commentLine : Str) : Outcome :=
  let produces := strings_Split commentLine ','
  ⟨produces.foldl produceStep operation, Status.ok⟩

/-- Source: `ParseRouterComment`. -/
def ParseRouterComment (U : Libraries) (operation : Operation) (commentLine : Str) : Outcome :=
  let submatch := FindStringSubmatch routerRE commentLine
  if submatch.length != 3 then
    ⟨operation, Status.error
      ("Can not parse router comment \"".toList ++ commentLine ++ "\", skipped.".toList)⟩
  else
    let path := submatch.getD 1 []
    let httpMethod := submatch.getD 2 []
    ⟨{ operation with Path := path, HttpMethod := strings_ToUpper U httpMethod }, Status.ok⟩

/-- The schema built by `ParseResponseComment` (source lines 268-285): the type is
the schema kind; `object` sets the reference, `array` sets the items schema.
Here `jsonreference.MustCreateRef` is only called on `#/definitions/` followed
by characters of `[\w\-./]`, the third group of the pattern, on which the
library neither panics nor changes the string: the reference is that string. -/
def responseSchema (schemaType refType : Str) : Schema :=
  let schema0 : Schema := { Type_ := [schemaType], Ref := none, Items := none }
  let schema1 : Schema :=
    if schemaType = "object".toList then
      { schema0 with Ref := some ("#/definitions/".toList ++ refType) }
    else schema0
  if schemaType = "array".toList then
    { schema1 with
      Items := some { Type_ := [], Ref := some ("#/definitions/".toList ++ refType) } }
  else schema1

/-- The tail of `ParseResponseComment` (source lines 268-289): build the schema,
store the response under `code`, return `nil`. -/
def storeResponse (operation : Operation) (code : Int) (description schemaType refType : Str) :
    Outcome :=
  let response : Response :=
    { Description := description, Schema := some (responseSchema schemaType refType) }
  ⟨{ operation with Responses := mapSet operation.Responses code response }, Status.ok⟩

/-- Source: `ParseResponseComment` (the `fmt.Println` on the failure path only
writes to standard output and is left out). -/
def ParseResponseComment (operation : Operation) (commentLine : Str) : Outcome :=
  let submatch := FindStringSubmatch responseRE commentLine
  if submatch.length != 5 then
    ⟨operation, Status.error
      ("Can not parse response comment \"".toList ++ commentLine ++ "\", skipped.".toList)⟩
  else
    match strconv_Atoi (submatch.getD 1 []) with
    | none => ⟨operation, Status.error "Success http code must be int".toList⟩
    | some code =>
      let description := strings_Trim (submatch.getD 4 []) ['"']
      let schemaType := strings_Trim (submatch.getD 2 []) ['{', '}']
      let refType := submatch.getD 3 []
      match operation.parser with
      | none => storeResponse operation code description schemaType refType
      | some P =>
        let refSplit := strings_Split refType '.'
        if refSplit.length == 2 then
          let pkgName := refSplit.getD 0 []
          let typeName := refSplit.getD 1 []
          match lookupType P pkgName typeName with
          | some typeSpec =>
            storeResponse
              { operation with
                parser := some { P with registerTypes := mapSet P.registerTypes refType typeSpec } }
              code description schemaType refType
          | none =>
            ⟨operation, Status.error
              ("Can not find ref type:\"".toList ++ refType ++ "\".".toList)⟩
        else storeResponse operation code description schemaType refType

/-- Message of an index expression on an empty slice. -/
def indexOutOfRange : Str := "runtime error: index out of range [0] with length 0".toList

/-- Source: `ParseComment`. -/
def ParseComment (U : Libraries) (operation : Operation) (comment : Str) : Outcome :=
  let commentLine := strings_TrimSpace (strings_TrimLeft comment ['/', '/'])
  if commentLine.length == 0 then ⟨operation, Status.ok⟩
  else
    match strings_Fields commentLine with
    | [] => ⟨operation, Status.panic indexOutOfRange⟩
    | attr :: _ =>
      let rest := strings_TrimSpace (commentLine.drop attr.length)
      let key := strings_ToLower U attr
      if key = "@router".toList then ParseRouterComment U operation rest
      else if key = "@summary".toList then ⟨{ operation with Summary := rest }, Status.ok⟩
      else if key = "@description".toList then
        ⟨{ operation with Description := rest }, Status.ok⟩
      else if key = "@success".toList ∨ key = "@failure".toList then
        ParseResponseComment operation rest
      else if key = "@param".toList then ParseParamComment U operation rest
      else if key = "@accept".toList ∨ key = "@consume".toList then
        ParseAcceptComment operation rest
      else if key = "@produce".toList then ParseProduceComment operation rest
      else ⟨operation, Status.ok⟩

/-! ## The matcher commits to its first alternative when that one succeeds -/

/-- `Commits r caps a ys caps1`: whatever follows, when the continuation accepts
the rest `ys` with captures `caps1`, the matcher run on `a ++ ys` consumes
exactly `a` for `r` and returns the result of the continuation. -/
def Commits (r : RE) (caps : List Str) (a ys : Str) (caps1 : List Str) : Prop :=
  ∀ (k : List Str → Str → Option (List Str)) (v : List Str),
    k caps1 ys = some v → matchRE r caps (a ++ ys) k = some v

/-- `StopsAt p ys`: the class `p` cannot consume the first code point of `ys`. -/
def StopsAt (p : Char → Bool) (ys : Str) : Prop := ∀ c ∈ ys.head?, p c = false

/-! ## The media-type table, as the specification words it -/

/-- The fixed table of media-type tokens: each alias and each full name maps to
the full name. -/
def mediaTable : List (Str × Str) :=
  [("json".toList, "application/json".toList),
   ("application/json".toList, "application/json".toList),
   ("xml".toList, "text/xml".toList), ("text/xml".toList, "text/xml".toList),
   ("plain".toList, "text/plain".toList), ("text/plain".toList, "text/plain".toList),
   ("html".toList, "text/html".toList), ("text/html".toList, "text/html".toList),
   ("mpfd".toList, "multipart/form-data".toList),
   ("multipart/form-data".toList, "multipart/form-data".toList)]

/-- Image of a token under the table, `none` for a token outside it. -/
def mediaOf (a : Str) : Option Str := (mediaTable.find? (fun e => decide (e.1 = a))).map (·.2)

/-- Images of the comma-separated tokens of a line, in order, duplicates kept,
tokens outside the table dropped. -/
def mediaTypesOf (line : Str) : List Str := (strings_Split line ',').filterMap mediaOf

/-! ## Shapes of well-formed lines -/

/-- A parameter line `<name> <location> <type> <required> "<description>"`, the
fields separated by the runs `ws1` .. `ws4`. -/
def paramLine (name ws1 loc ws2 ty ws3 req ws4 desc : Str) : Str :=
  name ++ (ws1 ++ (loc ++ (ws2 ++ (ty ++ (ws3 ++ (req ++ (ws4 ++ ('"' :: (desc ++ ['"'])))))))))

/-- A non-empty run of code points of the class `p`. -/
def IsRun (p : Char → Bool) (s : Str) : Prop := s ≠ [] ∧ ∀ c ∈ s, p c = true

instance (p : Char → Bool) (s : Str) : Decidable (IsRun p s) :=
  inferInstanceAs (Decidable (s ≠ [] ∧ ∀ c ∈ s, p c = true))

/-- The five fields and four separators of a parameter line are well formed: name
over `[-\w]`, location and required over `\w`, type a run outside `\s`,
separators runs of `\s`, description non-empty without a double quote. -/
def ParamFields (name ws1 loc ws2 ty ws3 req ws4 desc : Str) : Prop :=
  IsRun isNameChar name ∧ IsRun isReSpace ws1 ∧ IsRun isWord loc ∧ IsRun isReSpace ws2 ∧
  IsRun (fun c => !isReSpace c) ty ∧ IsRun isReSpace ws3 ∧ IsRun isWord req ∧
  IsRun isReSpace ws4 ∧ IsRun isNotQuote desc

instance (name ws1 loc ws2 ty ws3 req ws4 desc : Str) :
    Decidable (ParamFields name ws1 loc ws2 ty ws3 req ws4 desc) :=
  inferInstanceAs (Decidable (IsRun isNameChar name ∧ IsRun isReSpace ws1 ∧ IsRun isWord loc ∧
    IsRun isReSpace ws2 ∧ IsRun (fun c => !isReSpace c) ty ∧ IsRun isReSpace ws3 ∧
    IsRun isWord req ∧ IsRun isReSpace ws4 ∧ IsRun isNotQuote desc))

/-- A response line `<code> <kind> <ref><rest>`, the first three fields separated
by the runs `ws1` and `ws2`. -/
def responseLine (code ws1 kind ws2 ref rest : Str) : Str :=
  code ++ (ws1 ++ (kind ++ (ws2 ++ (ref ++ rest))))

/-- The fields of a response line are well formed: code a run of digits, kind a
run over `[\w{}]`, reference a run over `[\w\-./]` that ends where `rest`
starts, separators runs of `\s`. -/
def ResponseFields (code ws1 kind ws2 ref rest : Str) : Prop :=
  IsRun isDigit code ∧ IsRun isReSpace ws1 ∧ IsRun isKindChar kind ∧ IsRun isReSpace ws2 ∧
  IsRun isRefChar ref ∧ ∀ c ∈ rest.head?, isRefChar c = false

instance (code ws1 kind ws2 ref rest : Str) :
    Decidable (ResponseFields code ws1 kind ws2 ref rest) :=
  inferInstanceAs (Decidable (IsRun isDigit code ∧ IsRun isReSpace ws1 ∧ IsRun isKindChar kind ∧
    IsRun isReSpace ws2 ∧ IsRun isRefChar ref ∧ ∀ c ∈ rest.head?, isRefChar c = false))

/-- What the response pattern captures as its fourth group on `rest`: from the
first double quote up to the end of the line. -/
def quotedTail (rest : Str) : Str := (rest.dropWhile isNotQuote).takeWhile isDot

/-- The text after the reference token of a response line whose quoted
description ends the line: a quote-free run `sep`, then `"desc"`. -/
def quotedRest (sep desc : Str) : Str := sep ++ ('"' :: (desc ++ ['"']))

/-- A parser context whose registry holds the single type `model.User`, defined
as `7`, and whose `registerTypes` is still empty. -/
def userParser : Parser where
  TypeDefinitions := fun ns =>
    if ns = "model".toList then some (fun t => if t = "User".toList then some 7 else none)
    else none
  registerTypes := fun _ => none

/-- A parser context with an empty registry. -/
def emptyParser : Parser where
  TypeDefinitions := fun _ => none
  registerTypes := fun _ => none

/-- The required flag of a parameter line: the lower-cased token is `true` or
`required`. -/
def isRequired (U : Libraries) (req : Str) : Bool :=
  decide (strings_ToLower U req = "true".toList ∨ strings_ToLower U req = "required".toList)

/-- A body parameter: location `body`, schema of type `object` with the optional
reference `ref`. -/
def bodyParameter (name desc : Str) (required : Bool) (ref : Option Str) : Parameter :=
  { Name := name, Description := desc, Required := required, In := "body".toList,
    Schema := some { Type_ := ["object".toList], Ref := ref, Items := none }, Type_ := [] }

/-- What `ParseResponseComment` does on a well-formed line whose code fits an `int`. -/
def responseOutcome (operation : Operation) (code kind ref rest : Str) : Outcome :=
  match operation.parser with
  | none =>
    storeResponse operation (digitsValue code) (strings_Trim (quotedTail rest) ['"'])
      (strings_Trim kind ['{', '}']) ref
  | some P =>
    if (strings_Split ref '.').length = 2 then
      match lookupType P ((strings_Split ref '.').getD 0 [])
          ((strings_Split ref '.').getD 1 []) with
      | some typeSpec =>
        storeResponse
          { operation with
            parser := some { P with registerTypes := mapSet P.registerTypes ref typeSpec } }
          (digitsValue code) (strings_Trim (quotedTail rest) ['"'])
          (strings_Trim kind ['{', '}']) ref
      | none =>
        ⟨operation, Status.error
          ("Can not find ref type:\"".toList ++ ref ++ "\".".toList)⟩
    else
      storeResponse operation (digitsValue code) (strings_Trim (quotedTail rest) ['"'])
        (strings_Trim kind ['{', '}']) ref

/-- The content of the first double-quoted substring of a text: the code points
strictly between its first double quote and the next one; empty without quote. -/
def firstQuoted (rest : Str) : Str := ((rest.dropWhile isNotQuote).drop 1).takeWhile isNotQuote

/-- The response stored for a primitive schema kind: the kind as schema type, no
reference, no items. -/
def primitiveResponse (description schemaType : Str) : Response :=
  { Description := description,
    Schema := some { Type_ := [schemaType], Ref := none, Items := none } }

/-- The directive keywords the dispatcher recognises, in lower case. -/
def directiveKeywords : List Str :=
  ["@router".toList, "@summary".toList, "@description".toList, "@success".toList,
   "@failure".toList, "@param".toList, "@accept".toList, "@consume".toList, "@produce".toList]

/-- A raw comment line after stripping the comment marker and the surrounding
white space. -/
def strippedLine (comment : Str) : Str :=
  strings_TrimSpace (strings_TrimLeft comment ['/', '/'])

/-! ## The dispatcher, cut into its decisions -/

/-- The handlers the dispatcher routes to. -/
inductive Handler where
  | router
  | summary
  | description
  | response
  | param
  | accept
  | produce
deriving DecidableEq

/-- The `switch` of `ParseComment` on the lower-cased keyword. -/
def keyHandler (key : Str) : Option Handler :=
  if key = "@router".toList then some Handler.router
  else if key = "@summary".toList then some Handler.summary
  else if key = "@description".toList then some Handler.description
  else if key = "@success".toList ∨ key = "@failure".toList then some Handler.response
  else if key = "@param".toList then some Handler.param
  else if key = "@accept".toList ∨ key = "@consume".toList then some Handler.accept
  else if key = "@produce".toList then some Handler.produce
  else none

/-- The handler a raw comment line is routed to, `none` for a line that is empty
or starts with no directive keyword. -/
def handlerOf (U : Libraries) (comment : Str) : Option Handler :=
  match strings_Fields (strippedLine comment) with
  | [] => none
  | attr :: _ => keyHandler (strings_ToLower U attr)

/-- The text handed to the handler: what follows the first token, trimmed. -/
def directiveRest (comment : Str) : Str :=
  match strings_Fields (strippedLine comment) with
  | [] => []
  | attr :: _ => strings_TrimSpace ((strippedLine comment).drop attr.length)

/-- The body of one `case` of the `switch` of `ParseComment`. -/
def runHandler (U : Libraries) (h : Handler) (operation : Operation) (rest : Str) : Outcome :=
  match h with
  | Handler.router => ParseRouterComment U operation rest
  | Handler.summary => ⟨{ operation with Summary := rest }, Status.ok⟩
  | Handler.description => ⟨{ operation with Description := rest }, Status.ok⟩
  | Handler.response => ParseResponseComment operation rest
  | Handler.param => ParseParamComment U operation rest
  | Handler.accept => ParseAcceptComment operation rest
  | Handler.produce => ParseProduceComment operation rest

/-- `IsCaseVariant U k1 k`: the token `k1` (no white space, not starting with the
comment marker) lower-cases to `k`. -/
def IsCaseVariant (U : Libraries) (k1 k : Str) : Prop :=
  strings_ToLower U k1 = k ∧ (∀ c ∈ k1, unicode_IsSpace c = false) ∧ ∀ c ∈ k1.head?, c ≠ '/'

instance (U : Libraries) (k1 k : Str) : Decidable (IsCaseVariant U k1 k) :=
  inferInstanceAs (Decidable (strings_ToLower U k1 = k ∧
    (∀ c ∈ k1, unicode_IsSpace c = false) ∧ ∀ c ∈ k1.head?, c ≠ '/'))

/-! ## Handlers as effects on the record

Each handler is restated as a function of the line and of the registry alone,
giving the writes it makes to the record; `runHandler_effect` and
`ParseComment_effect` below prove the restatement equal to the handlers as
translated from the source. -/

/-- The registry map of a parser context. -/
abbrev TypeDefs := Str → Option (Str → Option TypeSpec)

/-- Lookup `TypeDefinitions[pkgName][typeName]` in a registry map. -/
def lookupIn (TD : TypeDefs) (pkgName typeName : Str) : Option TypeSpec :=
  match TD pkgName with
  | none => none
  | some inner => inner typeName

/-- The part of the record a handler reads: the registry of the attached parser
context, `none` without parser context. -/
def registryOf (operation : Operation) : Option TypeDefs :=
  operation.parser.map (fun P => P.TypeDefinitions)

/-- What one handler call does to the record: how it ends, the path and method
it sets, the summary and description it sets, what it appends to `Consumes`,
`Produces` and `Parameters`, the response it stores, the type it registers. -/
structure Effect where
  status : Status
  route : Option (Str × Str)
  summary : Option Str
  description : Option Str
  consumes : List Str
  produces : List Str
  parameters : List Parameter
  response : Option (Int × Response)
  register : Option (Str × TypeSpec)

/-- Store an optional entry in a map. -/
def setEntry {κ β : Type} [DecidableEq κ] (m : κ → Option β) (e : Option (κ × β)) : κ → Option β :=
  match e with
  | none => m
  | some (k, v) => mapSet m k v

/-- Register an optional type in the parser context, when there is one. -/
def registerIn (p : Option Parser) (e : Option (Str × TypeSpec)) : Option Parser :=
  match e with
  | none => p
  | some (r, d) => p.map (fun P => { P with registerTypes := mapSet P.registerTypes r d })

/-- The record after an effect. -/
def applyEffect (e : Effect) (operation : Operation) : Operation :=
  { HttpMethod := (e.route.map Prod.snd).getD operation.HttpMethod,
    Path := (e.route.map Prod.fst).getD operation.Path,
    Summary := e.summary.getD operation.Summary,
    Description := e.description.getD operation.Description,
    Consumes := operation.Consumes ++ e.consumes,
    Produces := operation.Produces ++ e.produces,
    Parameters := operation.Parameters ++ e.parameters,
    Responses := setEntry operation.Responses e.response,
    parser := registerIn operation.parser e.register }

/-- Result of the router handler: status, and the path and method it sets. -/
def routerResult (U : Libraries) (commentLine : Str) : Status × Option (Str × Str) :=
  let submatch := FindStringSubmatch routerRE commentLine
  if submatch.length != 3 then
    (Status.error
      ("Can not parse router comment \"".toList ++ commentLine ++ "\", skipped.".toList), none)
  else (Status.ok, some (submatch.getD 1 [], strings_ToUpper U (submatch.getD 2 [])))

/-- Result of the response handler for a given registry: status, the response it
stores with its code, the type it registers. -/
def responseResult (reg : Option TypeDefs) (commentLine : Str) :
    Status × Option (Int × Response) × Option (Str × TypeSpec) :=
  let submatch := FindStringSubmatch responseRE commentLine
  if submatch.length != 5 then
    (Status.error
      ("Can not parse response comment \"".toList ++ commentLine ++ "\", skipped.".toList),
      none, none)
  else
    match strconv_Atoi (submatch.getD 1 []) with
    | none => (Status.error "Success http code must be int".toList, none, none)
    | some code =>
      let refType := submatch.getD 3 []
      let response : Response :=
        { Description := strings_Trim (submatch.getD 4 []) ['"'],
          Schema := some (responseSchema (strings_Trim (submatch.getD 2 []) ['{', '}']) refType) }
      match reg with
      | none => (Status.ok, some (code, response), none)
      | some TD =>
        if (strings_Split refType '.').length == 2 then
          match lookupIn TD ((strings_Split refType '.').getD 0 [])
              ((strings_Split refType '.').getD 1 []) with
          | some typeSpec => (Status.ok, some (code, response), some (refType, typeSpec))
          | none =>
            (Status.error ("Can not find ref type:\"".toList ++ refType ++ "\".".toList),
              none, none)
        else (Status.ok, some (code, response), none)

/-- Result of the parameter handler for a given registry: status, the parameters
it appends, the type it registers. -/
def paramResult (U : Libraries) (reg : Option TypeDefs) (commentLine : Str) :
    Status × List Parameter × Option (Str × TypeSpec) :=
  let submatch := FindStringSubmatch paramRE commentLine
  if submatch.length != 6 then
    (Status.error
      ("Can not parse param comment \"".toList ++ commentLine ++ "\", skipped.".toList),
      [], none)
  else
    let name := submatch.getD 1 []
    let paramType := submatch.getD 2 []
    let schemaType := submatch.getD 3 []
    let required : Bool := isRequired U (submatch.getD 4 [])
    let description := submatch.getD 5 []
    if paramType = "query".toList ∨ paramType = "path".toList then
      (Status.ok, [createParameter paramType description name schemaType required], none)
    else if paramType = "body".toList then
      if (strings_Split schemaType '.').length == 2 then
        match reg with
        | none => (Status.panic nilDeref, [], none)
        | some TD =>
          match lookupIn TD ((strings_Split schemaType '.').getD 0 [])
              ((strings_Split schemaType '.').getD 1 []) with
          | some typeSpec =>
            match U.MustCreateRef ("#/definitions/".toList ++ schemaType) with
            | Except.error msg => (Status.panic msg, [], some (schemaType, typeSpec))
            | Except.ok ref =>
              (Status.ok, [bodyParameter name description required (some ref)],
                some (schemaType, typeSpec))
          | none =>
            (Status.error ("Can not find ref type:\"".toList ++ schemaType ++ "\".".toList),
              [], none)
      else (Status.ok, [bodyParameter name description required none], none)
    else if paramType = "Header".toList then
      (Status.panic "not supported Header paramType yet.".toList, [], none)
    else if paramType = "Form".toList then
      (Status.panic "not supported Form paramType yet.".toList, [], none)
    else (Status.ok, [zeroParameter], none)

/-- The effect of a handler on a line, given the registry it can read. -/
def handlerEffect (U : Libraries) (reg : Option TypeDefs) (h : Handler) (rest : Str) :
    Effect :=
  match h with
  | Handler.router =>
    ⟨(routerResult U rest).1, (routerResult U rest).2, none, none, [], [], [], none, none⟩
  | Handler.summary => ⟨Status.ok, none, some rest, none, [], [], [], none, none⟩
  | Handler.description => ⟨Status.ok, none, none, some rest, [], [], [], none, none⟩
  | Handler.response =>
    ⟨(responseResult reg rest).1, none, none, none, [], [], [],
      (responseResult reg rest).2.1, (responseResult reg rest).2.2⟩
  | Handler.param =>
    ⟨(paramResult U reg rest).1, none, none, none, [], [],
      (paramResult U reg rest).2.1, none, (paramResult U reg rest).2.2⟩
  | Handler.accept => ⟨Status.ok, none, none, none, mediaTypesOf rest, [], [], none, none⟩
  | Handler.produce => ⟨Status.ok, none, none, none, [], mediaTypesOf rest, [], none, none⟩

/-- The effect of a raw comment line: that of its handler, none for a line that
is no directive. -/
def commentEffect (U : Libraries) (reg : Option TypeDefs) (comment : Str) : Effect :=
  match handlerOf U comment with
  | none => ⟨Status.ok, none, none, none, [], [], [], none, none⟩
  | some h => handlerEffect U reg h (directiveRest comment)

/-- `Registered reg r d`: the registry `reg` resolves the two-segment reference
`r` to the definition `d`. -/
def Registered (reg : Option TypeDefs) (r : Str) (d : TypeSpec) : Prop :=
  ∃ TD, reg = some TD ∧ (strings_Split r '.').length = 2 ∧
    lookupIn TD ((strings_Split r '.').getD 0 []) ((strings_Split r '.').getD 1 []) = some d

/-- A record that already has a summary and a response stored under 200. -/
def sampleOperation : Operation :=
  { NewOperation with
    Summary := "s".toList
    Responses := mapSet NewOperation.Responses 200 (primitiveResponse [] []) }

/-- The records reachable from `start` by any sequence of `ParseComment` calls. -/
inductive Reachable (U : Libraries) (start : Operation) : Operation → Prop where
  | start : Reachable U start start
  | step {operation : Operation} (line : Str) :
      Reachable U start operation → Reachable U start (ParseComment U operation line).op

/-- A record with the parser context `userParser` attached and nothing parsed yet. -/
def userOperation : Operation := { NewOperation with parser := some userParser }

/-- Two effects write no common field of the record (the parser context apart). -/
def Separate (e1 e2 : Effect) : Prop :=
  (e1.route = none ∨ e2.route = none) ∧ (e1.summary = none ∨ e2.summary = none) ∧
  (e1.description = none ∨ e2.description = none) ∧ (e1.consumes = [] ∨ e2.consumes = []) ∧
  (e1.produces = [] ∨ e2.produces = []) ∧ (e1.parameters = [] ∨ e2.parameters = []) ∧
  (e1.response = none ∨ e2.response = none)

/-- A parser context whose registry holds a type stored under the names `model`
and `%zz`, defined as `7`, and whose `registerTypes` is still empty. -/
def escapeParser : Parser where
  TypeDefinitions := fun ns =>
    if ns = "model".toList then some (fun t => if t = "%zz".toList then some 7 else none)
    else none
  registerTypes := fun _ => none

/-- A record with the parser context `escapeParser` attached and nothing parsed yet. -/
def escapeOperation : Operation := { NewOperation with parser := some escapeParser }

/-! ## What a match of a pattern consumes and captures -/

/-- `Spans r caps a caps1`: the pattern `r` can consume exactly the text `a`,
turning the capture groups `caps` into `caps1` (no account of preference among
alternatives is taken). -/
def Spans : RE → List Str → Str → List Str → Prop
  | RE.chr c, caps, a, caps1 => a = [c] ∧ caps1 = caps
  | RE.plus p, caps, a, caps1 => IsRun p a ∧ caps1 = caps
  | RE.star p, caps, a, caps1 => (∀ c ∈ a, p c = true) ∧ caps1 = caps
  | RE.group n r, caps, a, caps1 => ∃ caps0, Spans r caps a caps0 ∧ caps1 = caps0.set n a
  | RE.seq r s, caps, a, caps1 =>
    ∃ a1 a2 capsm, a = a1 ++ a2 ∧ Spans r caps a1 capsm ∧ Spans s capsm a2 caps1
  | RE.opt r, caps, a, caps1 => Spans r caps a caps1 ∨ (a = [] ∧ caps1 = caps)

/-- The text after the maximal run of the class `p` at the head of `s`; `none`
when `s` does not start with a code point of `p`. -/
def afterRun (p : Char → Bool) (s : Str) : Option Str :=
  match s with
  | [] => none
  | c :: cs => if p c then some (cs.dropWhile p) else none

/-- The head of `s` starts what the response pattern needs: a run of digits, a
run of white space, a run over `[\w{}]`, a run of white space, and then a code
point of `[\w\-./]`. -/
def responseShapeAt (s : Str) : Bool :=
  match (((afterRun isDigit s).bind (afterRun isReSpace)).bind (afterRun isKindChar)).bind
      (afterRun isReSpace) with
  | some (c :: _) => isRefChar c
  | _ => false

/-- Some position of the line starts what the response pattern needs. -/
def hasResponseShape : Str → Bool
  | [] => false
  | c :: cs => responseShapeAt (c :: cs) || hasResponseShape cs

/-- No position inside the prefix `pre` of `pre ++ s` starts what the response
pattern needs. -/
def noShapeBefore : Str → Str → Bool
  | [], _ => true
  | c :: p, s => !responseShapeAt (c :: (p ++ s)) && noShapeBefore p s

/-- The records reachable from `start` by a sequence of `ParseComment` calls none
of which aborts. -/
inductive ReachableNoAbort (U : Libraries) (start : Operation) : Operation → Prop where
  | start : ReachableNoAbort U start start
  | step {operation : Operation} (line : Str) :
      ReachableNoAbort U start operation →
      (∀ m, (ParseComment U operation line).status ≠ Status.panic m) →
      ReachableNoAbort U start (ParseComment U operation line).op

/-- The reference library creates a reference from `#/definitions/` followed by
code points of `[\w\-./]`, the strings `ParseResponseComment` hands to it. -/
def AcceptsRefChars (U : Libraries) : Prop :=
  ∀ s : Str, (∀ c ∈ s, isRefChar c = true) →
    ∃ ref, U.MustCreateRef ("#/definitions/".toList ++ s) = Except.ok ref

/-! ## Lemmas and theorems -/

theorem stopsAt_nil (p : Char → Bool) : StopsAt p [] := by
  intro c hc
  simp at hc

theorem stopsAt_cons {p : Char → Bool} {c : Char} (ys : Str) (h : p c = false) :
    StopsAt p (c :: ys) := by
  intro d hd
  simp at hd
  subst hd
  exact h

theorem stopsAt_append {p q : Char → Bool} {b : Str} (ys : Str) (hb : b ≠ [])
    (hq : ∀ c ∈ b, q c = true) (hpq : ∀ c, q c = true → p c = false) :
    StopsAt p (b ++ ys) := by
  cases b with
  | nil => exact absurd rfl hb
  | cons c cs => exact stopsAt_cons _ (hpq c (hq c (List.mem_cons_self _ _)))

theorem starLoop_commit (p : Char → Bool) (k : Str → Option (List Str)) (v : List Str) :
    ∀ (a ys : Str), (∀ c ∈ a, p c = true) → StopsAt p ys → k ys = some v →
      starLoop p k (a ++ ys) = some v := by
  intro a
  induction a with
  | nil =>
    intro ys _ hs hk
    cases ys with
    | nil => simpa [starLoop] using hk
    | cons y ys =>
      have hy : p y = false := hs y (by simp)
      simp [starLoop, hy, hk]
  | cons x a ih =>
    intro ys ha hs hk
    have hx : p x = true := ha x (List.mem_cons_self _ _)
    have hrec := ih ys (fun c hc => ha c (List.mem_cons_of_mem _ hc)) hs hk
    simp [starLoop, hx, hrec]

theorem commits_chr (c : Char) (caps : List Str) (ys : Str) :
    Commits (RE.chr c) caps [c] ys caps := by
  intro k v hk
  simp [matchRE, hk]

theorem commits_plus {p : Char → Bool} (caps : List Str) {a : Str} (ys : Str)
    (hne : a ≠ []) (ha : ∀ c ∈ a, p c = true) (hs : StopsAt p ys) :
    Commits (RE.plus p) caps a ys caps := by
  intro k v hk
  cases a with
  | nil => exact absurd rfl hne
  | cons x a =>
    have hx : p x = true := ha x (List.mem_cons_self _ _)
    have h := starLoop_commit p (k caps) v a ys
      (fun c hc => ha c (List.mem_cons_of_mem _ hc)) hs hk
    simp [matchRE, hx, h]

theorem commits_star {p : Char → Bool} (caps : List Str) {a : Str} (ys : Str)
    (ha : ∀ c ∈ a, p c = true) (hs : StopsAt p ys) :
    Commits (RE.star p) caps a ys caps := by
  intro k v hk
  simpa [matchRE] using starLoop_commit p (k caps) v a ys ha hs hk

theorem take_append_sub (a ys : Str) : (a ++ ys).take ((a ++ ys).length - ys.length) = a := by
  simp

theorem commits_group {r : RE} {caps caps1 : List Str} {a ys : Str} (n : Nat)
    (h : Commits r caps a ys caps1) :
    Commits (RE.group n r) caps a ys (caps1.set n a) := by
  intro k v hk
  simp only [matchRE]
  apply h
  rw [take_append_sub]
  exact hk

theorem commits_seq {r s : RE} {caps caps1 caps2 : List Str} {a b ys : Str}
    (h1 : Commits r caps a (b ++ ys) caps1) (h2 : Commits s caps1 b ys caps2) :
    Commits (RE.seq r s) caps (a ++ b) ys caps2 := by
  intro k v hk
  simp only [matchRE, List.append_assoc]
  apply h1
  exact h2 k v hk

theorem commits_opt {r : RE} {caps caps1 : List Str} {a ys : Str}
    (h : Commits r caps a ys caps1) : Commits (RE.opt r) caps a ys caps1 := by
  intro k v hk
  simp [matchRE, h k v hk]

theorem searchFrom_of_matchAt {re : RE} {s : Str} {m : List Str} (h : matchAt re s = some m) :
    searchFrom re s = some m := by
  cases s with
  | nil => simpa [searchFrom] using h
  | cons c cs => simp [searchFrom, h]

theorem find_of_commits {re : RE} {a ys : Str} {caps1 : List Str}
    (h : Commits re (List.replicate (re.numSubexp + 1) []) a ys caps1) :
    FindStringSubmatch re (a ++ ys) = caps1.set 0 a := by
  have hm : matchAt re (a ++ ys) = some (caps1.set 0 a) := by
    unfold matchAt
    apply h
    rw [take_append_sub]
  simp [FindStringSubmatch, searchFrom_of_matchAt hm]

/-! ## Facts on the character classes -/

theorem char_eq_of_toNat {c : Char} {n : Nat} (h : c.toNat = n) : c = Char.ofNat n := by
  rw [← h, Char.ofNat_toNat]

theorem reSpace_cases {c : Char} (h : isReSpace c = true) :
    c = Char.ofNat 9 ∨ c = Char.ofNat 10 ∨ c = Char.ofNat 12 ∨ c = Char.ofNat 13 ∨
      c = Char.ofNat 32 := by
  simp only [isReSpace, Bool.or_eq_true, beq_iff_eq] at h
  rcases h with (((h | h) | h) | h) | h
  · exact Or.inl (char_eq_of_toNat h)
  · exact Or.inr (Or.inl (char_eq_of_toNat h))
  · exact Or.inr (Or.inr (Or.inl (char_eq_of_toNat h)))
  · exact Or.inr (Or.inr (Or.inr (Or.inl (char_eq_of_toNat h))))
  · exact Or.inr (Or.inr (Or.inr (Or.inr (char_eq_of_toNat h))))

/-- A property of code points that holds on the five members of `\s`. -/
theorem reSpace_elim (q : Char → Bool) (hq : ∀ c ∈ [Char.ofNat 9, Char.ofNat 10, Char.ofNat 12,
    Char.ofNat 13, Char.ofNat 32], q c = false) : ∀ c, isReSpace c = true → q c = false := by
  intro c h
  rcases reSpace_cases h with h | h | h | h | h <;> subst h <;> exact hq _ (by simp)

theorem name_of_reSpace : ∀ c, isReSpace c = true → isNameChar c = false :=
  reSpace_elim _ (by decide)

theorem word_of_reSpace : ∀ c, isReSpace c = true → isWord c = false :=
  reSpace_elim _ (by decide)

theorem type_of_reSpace : ∀ c, isReSpace c = true → isTypeChar c = false :=
  reSpace_elim _ (by decide)

theorem digit_of_reSpace : ∀ c, isReSpace c = true → isDigit c = false :=
  reSpace_elim _ (by decide)

theorem kind_of_reSpace : ∀ c, isReSpace c = true → isKindChar c = false :=
  reSpace_elim _ (by decide)

theorem ref_of_reSpace : ∀ c, isReSpace c = true → isRefChar c = false :=
  reSpace_elim _ (by decide)

theorem reSpace_of {q : Char → Bool} (hq : ∀ c, isReSpace c = true → q c = false) :
    ∀ c, q c = true → isReSpace c = false := by
  intro c h
  cases hs : isReSpace c with
  | false => rfl
  | true => rw [hq c hs] at h; exact absurd h (by simp)

theorem type_of_not_reSpace : ∀ c, isReSpace c = false → isTypeChar c = true := by
  intro c h
  simp [isTypeChar, h]

theorem notQuote_iff (c : Char) : isNotQuote c = true ↔ c ≠ '"' := by
  simp [isNotQuote]

theorem notLBracket_iff (c : Char) : isNotLBracket c = true ↔ c ≠ '[' := by
  simp [isNotLBracket]

theorem notRBracket_iff (c : Char) : isNotRBracket c = true ↔ c ≠ ']' := by
  simp [isNotRBracket]

theorem all_of_not_mem {q : Char → Bool} {d : Char} (hq : ∀ c, q c = true ↔ c ≠ d) {l : Str}
    (h : d ∉ l) : ∀ c ∈ l, q c = true := by
  intro c hc
  rw [hq]
  rintro rfl
  exact h hc

/-! ## The router pattern on a well-formed line -/

theorem routerRE_find (p s m t : Str) (hp : p ≠ []) (hpc : ∀ c ∈ p, isPathChar c = true)
    (hs : s ≠ []) (hsb : '[' ∉ s) (hs0 : ∀ c ∈ s.head?, isPathChar c = false)
    (hm : m ≠ []) (hmb : ']' ∉ m) :
    FindStringSubmatch routerRE (p ++ s ++ '[' :: m ++ ']' :: t) =
      [p ++ s ++ '[' :: m, p, m] := by
  have h4 : Commits (RE.group 2 (RE.plus isNotRBracket)) ((List.replicate 3 ([] : Str)).set 1 p)
      m (']' :: t) _ :=
    commits_group 2 (commits_plus _ _ hm (all_of_not_mem notRBracket_iff hmb)
      (stopsAt_cons _ (by decide)))
  have h3 : Commits (RE.chr '[') ((List.replicate 3 ([] : Str)).set 1 p) ['[']
      (m ++ ']' :: t) _ := commits_chr _ _ _
  have h34 := commits_seq h3 h4
  have h2 : Commits (RE.plus isNotLBracket) ((List.replicate 3 ([] : Str)).set 1 p) s
      ((['['] ++ m) ++ ']' :: t) _ :=
    commits_plus _ _ hs (all_of_not_mem notLBracket_iff hsb) (stopsAt_cons _ (by decide))
  have h234 := commits_seq h2 h34
  have h1 : Commits (RE.group 1 (RE.plus isPathChar)) (List.replicate 3 []) p
      ((s ++ (['['] ++ m)) ++ ']' :: t) _ :=
    commits_group 1 (commits_plus _ _ hp hpc (by
      intro c hc
      cases s with
      | nil => exact absurd rfl hs
      | cons x xs => exact hs0 c (by simpa using hc)))
  have h := @find_of_commits routerRE _ _ _ (commits_seq h1 h234)
  simpa using h

/-- C1: on a line `p ++ s ++ "[" ++ m ++ "]"` with `p` a non-empty run of path
characters, `s` a non-empty separator without `[` that starts outside the path
alphabet, and `m` a non-empty method without `]`, `ParseRouterComment` returns no
error, sets `Path` to `p` and `HttpMethod` to the upper-cased `m`, and changes
nothing else; with `m` one of `get`, `Get`, `GET` the method stored is `GET`. -/
theorem ParseRouterComment_wellformed (U : Libraries) (operation : Operation) (p s m : Str)
    (hp : p ≠ []) (hpc : ∀ c ∈ p, isPathChar c = true)
    (hs : s ≠ []) (hsb : '[' ∉ s) (hs0 : ∀ c ∈ s.head?, isPathChar c = false)
    (hm : m ≠ []) (hmb : ']' ∉ m) :
    ParseRouterComment U operation (p ++ s ++ "[".toList ++ m ++ "]".toList) =
        ⟨{ operation with Path := p, HttpMethod := strings_ToUpper U m }, Status.ok⟩ ∧
      (m ∈ ["get".toList, "Get".toList, "GET".toList] →
        (ParseRouterComment sampleLibraries operation
          (p ++ s ++ "[".toList ++ m ++ "]".toList)).op.HttpMethod = "GET".toList) := by
  have hfind := routerRE_find p s m [] hp hpc hs hsb hs0 hm hmb
  have hline : p ++ s ++ "[".toList ++ m ++ "]".toList = p ++ s ++ '[' :: m ++ ']' :: [] := by
    simp
  have key : ∀ V : Libraries,
      ParseRouterComment V operation (p ++ s ++ "[".toList ++ m ++ "]".toList) =
        ⟨{ operation with Path := p, HttpMethod := strings_ToUpper V m }, Status.ok⟩ := by
    intro V
    rw [hline]
    simp only [ParseRouterComment, hfind]
    simp
  refine ⟨key U, ?_⟩
  intro hmem
  rw [key sampleLibraries]
  simp only [List.mem_cons, List.mem_singleton, List.not_mem_nil, or_false] at hmem
  have hup : strings_ToUpper sampleLibraries m = "GET".toList := by
    rcases hmem with h | h | h <;> subst h <;> decide
  exact hup

/-- Witness for C1: the line `/pets/{id} [delete]` gives path `/pets/{id}` and
method `DELETE`. -/
theorem ParseRouterComment_wellformed_witness :
    (ParseRouterComment sampleLibraries NewOperation "/pets/{id} [delete]".toList).op.Path =
        "/pets/{id}".toList ∧
      (ParseRouterComment sampleLibraries NewOperation "/pets/{id} [delete]".toList).op.HttpMethod =
        "DELETE".toList ∧
      (ParseRouterComment sampleLibraries NewOperation "/pets/{id} [delete]".toList).status =
        Status.ok := by
  have h := (ParseRouterComment_wellformed sampleLibraries NewOperation "/pets/{id}".toList
    " ".toList "delete".toList (by decide) (by decide) (by decide) (by decide) (by decide)
    (by decide) (by decide)).1
  have hl : "/pets/{id}".toList ++ " ".toList ++ "[".toList ++ "delete".toList ++ "]".toList =
      "/pets/{id} [delete]".toList := by decide
  rw [hl] at h
  rw [h]
  exact ⟨rfl, by decide, rfl⟩

/-! ## The parameter pattern on a well-formed line -/

theorem stopsAt_run {p q : Char → Bool} {b : Str} (ys : Str) (hb : IsRun q b)
    (hpq : ∀ c, q c = true → p c = false) : StopsAt p (b ++ ys) :=
  stopsAt_append ys hb.1 hb.2 hpq

theorem stopsAt_run_append {p q : Char → Bool} {b : Str} (x ys : Str) (hb : IsRun q b)
    (hpq : ∀ c, q c = true → p c = false) : StopsAt p (b ++ x ++ ys) := by
  rw [List.append_assoc]
  exact stopsAt_run _ hb hpq

theorem commits_run {p : Char → Bool} (caps : List Str) {a : Str} (ys : Str)
    (ha : IsRun p a) (hs : StopsAt p ys) : Commits (RE.plus p) caps a ys caps :=
  commits_plus caps ys ha.1 ha.2 hs

theorem isRun_type {ty : Str} (h : IsRun (fun c => !isReSpace c) ty) : IsRun isTypeChar ty :=
  ⟨h.1, fun c hc => type_of_not_reSpace c (by simpa using h.2 c hc)⟩

theorem paramRE_find (name ws1 loc ws2 ty ws3 req ws4 desc t : Str)
    (h : ParamFields name ws1 loc ws2 ty ws3 req ws4 desc) :
    FindStringSubmatch paramRE (paramLine name ws1 loc ws2 ty ws3 req ws4 desc ++ t) =
      [paramLine name ws1 loc ws2 ty ws3 req ws4 desc, name, loc, ty, req, desc] := by
  obtain ⟨hname, hws1, hloc, hws2, hty, hws3, hreq, hws4, hdesc⟩ := h
  have hty1 := isRun_type hty
  have hnotsp : ∀ c, (fun c => !isReSpace c) c = true → isReSpace c = false := by
    intro c hc
    simpa using hc
  have c11 : Commits (RE.chr '"') ((((((List.replicate 6 ([] : Str)).set 1 name).set 2 loc).set 3
      ty).set 4 req).set 5 desc) ['"'] t _ := commits_chr _ _ _
  have c10 := commits_seq (commits_group 5 (commits_run
    (((((List.replicate 6 ([] : Str)).set 1 name).set 2 loc).set 3 ty).set 4 req)
    (['"'] ++ t) hdesc (stopsAt_cons _ (by decide)))) c11
  have c9 := commits_seq (commits_chr '"' _ _) c10
  have c8 := commits_seq (commits_run _ _ hws4 (stopsAt_cons _ (by decide))) c9
  have c7 := commits_seq (commits_group 4 (commits_run _ _ hreq
    (stopsAt_run_append _ _ hws4 word_of_reSpace))) c8
  have c6 := commits_seq (commits_run _ _ hws3
    (stopsAt_run_append _ _ hreq (reSpace_of word_of_reSpace))) c7
  have c5 := commits_seq (commits_group 3 (commits_run _ _ hty1
    (stopsAt_run_append _ _ hws3 type_of_reSpace))) c6
  have c4 := commits_seq (commits_run _ _ hws2
    (stopsAt_run_append _ _ hty hnotsp)) c5
  have c3 := commits_seq (commits_group 2 (commits_run _ _ hloc
    (stopsAt_run_append _ _ hws2 word_of_reSpace))) c4
  have c2 := commits_seq (commits_run _ _ hws1
    (stopsAt_run_append _ _ hloc (reSpace_of word_of_reSpace))) c3
  have c1 := commits_seq (commits_group 1 (commits_run (List.replicate 6 ([] : Str)) _ hname
    (stopsAt_run_append _ _ hws1 name_of_reSpace))) c2
  have h := @find_of_commits paramRE _ _ _ c1
  simpa [paramLine] using h

/-- C2: on a well-formed five-field parameter line whose location is `query` or
`path`, `ParseParamComment` returns no error and appends exactly one parameter
with the name, location, literal type token and description of the line,
required exactly when the lower-cased required token is `true` or `required`;
nothing else of the record changes, whatever the parser context is (`nil`
included), so no registry is consulted and `registerTypes` is untouched. -/
theorem ParseParamComment_query_path (U : Libraries) (operation : Operation)
    (name ws1 loc ws2 ty ws3 req ws4 desc : Str)
    (h : ParamFields name ws1 loc ws2 ty ws3 req ws4 desc)
    (hloc : loc = "query".toList ∨ loc = "path".toList) :
    ParseParamComment U operation (paramLine name ws1 loc ws2 ty ws3 req ws4 desc) =
      ⟨{ operation with
          Parameters := operation.Parameters ++
            [{ Name := name, Description := desc,
               Required := decide (strings_ToLower U req = "true".toList ∨
                 strings_ToLower U req = "required".toList),
               In := loc, Schema := none, Type_ := ty }] },
        Status.ok⟩ := by
  have hfind := paramRE_find name ws1 loc ws2 ty ws3 req ws4 desc [] h
  rw [List.append_nil] at hfind
  simp only [ParseParamComment, hfind]
  rcases hloc with h1 | h1 <;> subst h1 <;> simp [appendParam, createParameter] <;>
    rw [Bool.eq_iff_iff] <;> simp

/-- Witness for C2: the line `id path int true "user id"` on the fresh operation
(no parser context) appends the parameter named `id`, in `path`, of type `int`,
required, described by `user id`. -/
theorem ParseParamComment_query_path_witness :
    ParseParamComment sampleLibraries NewOperation "id path int true \"user id\"".toList =
      ⟨{ NewOperation with
          Parameters := [{ Name := "id".toList, Description := "user id".toList, Required := true,
                           In := "path".toList, Schema := none, Type_ := "int".toList }] },
        Status.ok⟩ := by
  have h := ParseParamComment_query_path sampleLibraries NewOperation "id".toList " ".toList
    "path".toList " ".toList "int".toList " ".toList "true".toList " ".toList "user id".toList
    (by decide) (Or.inr rfl)
  have hl : paramLine "id".toList " ".toList "path".toList " ".toList "int".toList " ".toList
      "true".toList " ".toList "user id".toList = "id path int true \"user id\"".toList := by
    decide
  have hr : decide (strings_ToLower sampleLibraries "true".toList = "true".toList ∨
      strings_ToLower sampleLibraries "true".toList = "required".toList) = true := by decide
  rw [hl, hr] at h
  exact h

/-! ## Media types -/

theorem mediaOf_none (a : Str)
    (h1 : ¬(a = "json".toList ∨ a = "application/json".toList))
    (h2 : ¬(a = "xml".toList ∨ a = "text/xml".toList))
    (h3 : ¬(a = "plain".toList ∨ a = "text/plain".toList))
    (h4 : ¬(a = "html".toList ∨ a = "text/html".toList))
    (h5 : ¬(a = "mpfd".toList ∨ a = "multipart/form-data".toList)) : mediaOf a = none := by
  have hnone : mediaTable.find? (fun e => decide (e.1 = a)) = none := by
    simp only [not_or] at h1 h2 h3 h4 h5
    rw [List.find?_eq_none]
    intro e he
    simp only [mediaTable, List.mem_cons, List.mem_singleton, List.not_mem_nil, or_false] at he
    rcases he with h | h | h | h | h | h | h | h | h | h <;> subst h <;>
      simp only [decide_eq_true_eq] <;> intro hh <;>
      first
        | exact h1.1 hh.symm | exact h1.2 hh.symm | exact h2.1 hh.symm | exact h2.2 hh.symm
        | exact h3.1 hh.symm | exact h3.2 hh.symm | exact h4.1 hh.symm | exact h4.2 hh.symm
        | exact h5.1 hh.symm | exact h5.2 hh.symm
  simp [mediaOf, hnone]

theorem acceptStep_eq (operation : Operation) (a : Str) :
    acceptStep operation a =
      { operation with Consumes := operation.Consumes ++ (mediaOf a).toList } := by
  unfold acceptStep
  split_ifs with h1 h2 h3 h4 h5
  · rcases h1 with h | h <;> subst h <;> rfl
  · rcases h2 with h | h <;> subst h <;> rfl
  · rcases h3 with h | h <;> subst h <;> rfl
  · rcases h4 with h | h <;> subst h <;> rfl
  · rcases h5 with h | h <;> subst h <;> rfl
  · rw [mediaOf_none a h1 h2 h3 h4 h5]
    simp

theorem produceStep_eq (operation : Operation) (a : Str) :
    produceStep operation a =
      { operation with Produces := operation.Produces ++ (mediaOf a).toList } := by
  unfold produceStep
  split_ifs with h1 h2 h3 h4 h5
  · rcases h1 with h | h <;> subst h <;> rfl
  · rcases h2 with h | h <;> subst h <;> rfl
  · rcases h3 with h | h <;> subst h <;> rfl
  · rcases h4 with h | h <;> subst h <;> rfl
  · rcases h5 with h | h <;> subst h <;> rfl
  · rw [mediaOf_none a h1 h2 h3 h4 h5]
    simp

theorem foldl_acceptStep (toks : List Str) : ∀ operation : Operation,
    toks.foldl acceptStep operation =
      { operation with Consumes := operation.Consumes ++ toks.filterMap mediaOf } := by
  induction toks with
  | nil => intro operation; simp
  | cons a toks ih =>
    intro operation
    rw [List.foldl_cons, ih, acceptStep_eq]
    cases h : mediaOf a <;> simp [List.filterMap_cons, h]

theorem foldl_produceStep (toks : List Str) : ∀ operation : Operation,
    toks.foldl produceStep operation =
      { operation with Produces := operation.Produces ++ toks.filterMap mediaOf } := by
  induction toks with
  | nil => intro operation; simp
  | cons a toks ih =>
    intro operation
    rw [List.foldl_cons, ih, produceStep_eq]
    cases h : mediaOf a <;> simp [List.filterMap_cons, h]

/-- C4: for every line and every prior record, `ParseAcceptComment` returns no
error and leaves the record unchanged except that `Consumes` is its prior value
followed by the table images of the comma-separated tokens of the line, in
order, duplicates kept, tokens outside the table dropped; `ParseProduceComment`
does the same to `Produces` with the same appended list; and
`json,xml,bogus,html` on an empty `Consumes` gives
`application/json`, `text/xml`, `text/html`. -/
theorem ParseAccept_ParseProduce_table (operation : Operation) (line : Str) :
    ParseAcceptComment operation line =
        ⟨{ operation with Consumes := operation.Consumes ++ mediaTypesOf line }, Status.ok⟩ ∧
      ParseProduceComment operation line =
        ⟨{ operation with Produces := operation.Produces ++ mediaTypesOf line }, Status.ok⟩ ∧
      (ParseAcceptComment NewOperation "json,xml,bogus,html".toList).op.Consumes =
        ["application/json".toList, "text/xml".toList, "text/html".toList] := by
  refine ⟨?_, ?_, by decide⟩
  · simp only [ParseAcceptComment, foldl_acceptStep, mediaTypesOf]
  · simp only [ParseProduceComment, foldl_produceStep, mediaTypesOf]

/-! ## The response pattern on a well-formed line -/

theorem stopsAt_dropWhile (p : Char → Bool) (l : Str) : StopsAt p (l.dropWhile p) := by
  induction l with
  | nil => exact stopsAt_nil p
  | cons x xs ih =>
    by_cases hx : p x = true
    · simpa [List.dropWhile_cons, hx] using ih
    · have hx1 : p x = false := by simpa using hx
      rw [List.dropWhile_cons, hx1]
      exact stopsAt_cons _ hx1

theorem all_takeWhile (p : Char → Bool) (l : Str) : ∀ c ∈ l.takeWhile p, p c = true :=
  fun _ hc => List.mem_takeWhile_imp hc

theorem responseRE_find (code ws1 kind ws2 ref rest : Str)
    (h : ResponseFields code ws1 kind ws2 ref rest) :
    FindStringSubmatch responseRE (responseLine code ws1 kind ws2 ref rest) =
      [code ++ (ws1 ++ (kind ++ (ws2 ++ (ref ++ (rest.takeWhile isNotQuote ++ quotedTail rest))))),
        code, kind, ref, quotedTail rest] := by
  obtain ⟨hcode, hws1, hkind, hws2, href, hrest⟩ := h
  have hsplit : rest = rest.takeWhile isNotQuote ++ quotedTail rest ++
      (rest.dropWhile isNotQuote).dropWhile isDot := by
    simp [quotedTail, List.takeWhile_append_dropWhile]
  have c7 : Commits (RE.opt (RE.group 4 (RE.star isDot)))
      ((((List.replicate 5 ([] : Str)).set 1 code).set 2 kind).set 3 ref)
      (quotedTail rest) ((rest.dropWhile isNotQuote).dropWhile isDot) _ :=
    commits_opt (commits_group 4 (commits_star _ _ (all_takeWhile _ _) (stopsAt_dropWhile _ _)))
  have c6 := commits_seq (commits_star
    ((((List.replicate 5 ([] : Str)).set 1 code).set 2 kind).set 3 ref)
    (quotedTail rest ++ (rest.dropWhile isNotQuote).dropWhile isDot)
    (all_takeWhile isNotQuote rest) (by
      have := stopsAt_dropWhile isNotQuote rest
      simpa [quotedTail, List.takeWhile_append_dropWhile] using this)) c7
  have c5 := commits_seq (commits_group 3 (commits_run _ _ href (by
    rw [← hsplit]
    exact hrest))) c6
  have c4 := commits_seq (commits_run _ _ hws2
    (stopsAt_run_append _ _ href (reSpace_of ref_of_reSpace))) c5
  have c3 := commits_seq (commits_group 2 (commits_run _ _ hkind
    (stopsAt_run_append _ _ hws2 kind_of_reSpace))) c4
  have c2 := commits_seq (commits_run _ _ hws1
    (stopsAt_run_append _ _ hkind (reSpace_of kind_of_reSpace))) c3
  have c1 := commits_seq (commits_group 1 (commits_run (List.replicate 5 ([] : Str)) _ hcode
    (stopsAt_run_append _ _ hws1 digit_of_reSpace))) c2
  have hf := @find_of_commits responseRE _ _ _ c1
  have hline : responseLine code ws1 kind ws2 ref rest =
      code ++ (ws1 ++ (kind ++ (ws2 ++ (ref ++ (rest.takeWhile isNotQuote ++ quotedTail rest))))) ++
        (rest.dropWhile isNotQuote).dropWhile isDot := by
    conv_lhs => rw [hsplit]
    simp [responseLine]
  rw [hline, hf]
  simp

/-! ## `strings.Split`, `strings.Trim`, `strconv.Atoi` -/

theorem strings_Split_ne_nil (s : Str) (sep : Char) : strings_Split s sep ≠ [] := by
  cases s with
  | nil => simp [strings_Split]
  | cons c cs =>
    unfold strings_Split
    split_ifs
    · simp
    · cases strings_Split cs sep <;> simp

theorem strings_Split_of_not_mem {s : Str} {sep : Char} (h : sep ∉ s) :
    strings_Split s sep = [s] := by
  induction s with
  | nil => rfl
  | cons c cs ih =>
    have hc : c ≠ sep := fun e => h (e ▸ List.mem_cons_self _ _)
    have hcs : sep ∉ cs := fun e => h (List.mem_cons_of_mem _ e)
    simp [strings_Split, hc, ih hcs]

theorem strings_Split_append {a : Str} (b : Str) {sep : Char} (h : sep ∉ a) :
    strings_Split (a ++ sep :: b) sep = a :: strings_Split b sep := by
  induction a with
  | nil => simp [strings_Split]
  | cons c cs ih =>
    have hc : c ≠ sep := fun e => h (e ▸ List.mem_cons_self _ _)
    have hcs : sep ∉ cs := fun e => h (List.mem_cons_of_mem _ e)
    simp [strings_Split, hc, ih hcs]

theorem strings_Split_two {ns T : Str} (hns : '.' ∉ ns) (hT : '.' ∉ T) :
    strings_Split (ns ++ '.' :: T) '.' = [ns, T] := by
  rw [strings_Split_append T hns, strings_Split_of_not_mem hT]

theorem strings_Split_length (s : Str) (sep : Char) :
    (strings_Split s sep).length = s.count sep + 1 := by
  induction s with
  | nil => rfl
  | cons c cs ih =>
    unfold strings_Split
    by_cases hc : c = sep
    · subst hc
      simp [ih]
    · have hne := strings_Split_ne_nil cs sep
      cases hsp : strings_Split cs sep with
      | nil => exact absurd hsp hne
      | cons x xs =>
        rw [hsp] at ih
        simp [hc, List.count_cons] at ih ⊢
        exact ih

theorem dropWhile_append_of_all {p : Char → Bool} {a : Str} (b : Str)
    (ha : ∀ c ∈ a, p c = true) : (a ++ b).dropWhile p = b.dropWhile p := by
  induction a with
  | nil => rfl
  | cons x xs ih =>
    have hx : p x = true := ha x (List.mem_cons_self _ _)
    simp [List.dropWhile_cons, hx, ih (fun c hc => ha c (List.mem_cons_of_mem _ hc))]

theorem takeWhile_of_all {p : Char → Bool} {a : Str} (ha : ∀ c ∈ a, p c = true) :
    a.takeWhile p = a := by
  induction a with
  | nil => rfl
  | cons x xs ih =>
    have hx : p x = true := ha x (List.mem_cons_self _ _)
    simp [List.takeWhile_cons, hx, ih (fun c hc => ha c (List.mem_cons_of_mem _ hc))]

/-- Trimming the quotes of a quoted string without inner quotes gives its content. -/
theorem strings_Trim_quoted {desc : Str} (h : '"' ∉ desc) :
    strings_Trim ('"' :: (desc ++ ['"'])) ['"'] = desc := by
  have hq : ∀ c ∈ desc, c ≠ '"' := fun c hc e => h (e ▸ hc)
  cases desc with
  | nil => simp [strings_Trim, strings_TrimLeft, strings_TrimRight]
  | cons d ds =>
    have hd := hq d (List.mem_cons_self _ _)
    have hl : strings_TrimLeft ('"' :: (d :: ds ++ ['"'])) ['"'] = d :: ds ++ ['"'] := by
      simp [strings_TrimLeft, List.dropWhile_cons, hd]
    rw [strings_Trim, hl, strings_TrimRight]
    have hlast : (d :: ds).reverse ≠ [] := by simp
    cases hr : (d :: ds).reverse with
    | nil => exact absurd hr hlast
    | cons z zs =>
      have hz : z ∈ d :: ds := by
        have : z ∈ (d :: ds).reverse := by rw [hr]; exact List.mem_cons_self _ _
        exact List.mem_reverse.mp this
      have hzq := hq z hz
      have hrev : (d :: ds ++ ['"']).reverse = '"' :: z :: zs := by
        rw [List.reverse_append, hr]
        rfl
      rw [hrev]
      have hdw : List.dropWhile (fun c => ['"'].contains c) ('"' :: z :: zs) = z :: zs := by
        simp [List.dropWhile_cons, hzq]
      rw [hdw, ← hr, List.reverse_reverse]

theorem strconv_Atoi_digits {code : Str} (h : IsRun isDigit code) :
    strconv_Atoi code =
      if digitsValue code < 2 ^ 63 then some (digitsValue code : Int) else none := by
  obtain ⟨hne, hall⟩ := h
  cases code with
  | nil => exact absurd rfl hne
  | cons c cs =>
    have hc : isDigit c = true := hall c (List.mem_cons_self _ _)
    have h1 : c ≠ '-' := by
      rintro rfl
      revert hc
      decide
    have h2 : c ≠ '+' := by
      rintro rfl
      revert hc
      decide
    have hall1 : (c :: cs).all isDigit = true := by
      rw [List.all_eq_true]
      exact hall
    simp only [strconv_Atoi, List.head?_cons, Option.some.injEq, h1, h2, or_self, if_false,
      hall1, intSize]
    simp [h1]

/-! ## Response lines -/

theorem quotedTail_quotedRest {sep desc : Str} (hsep : '"' ∉ sep)
    (hnl : ∀ c ∈ desc, isDot c = true) :
    quotedTail (quotedRest sep desc) = '"' :: (desc ++ ['"']) := by
  unfold quotedTail quotedRest
  rw [dropWhile_append_of_all _ (all_of_not_mem notQuote_iff hsep)]
  have h1 : List.dropWhile isNotQuote ('"' :: (desc ++ ['"'])) = '"' :: (desc ++ ['"']) := by
    rw [List.dropWhile_cons]
    rfl
  rw [h1]
  apply takeWhile_of_all
  intro c hc
  simp only [List.mem_cons, List.mem_append, List.mem_singleton, List.not_mem_nil,
    or_false] at hc
  rcases hc with h | h | h
  · subst h; decide
  · exact hnl c h
  · subst h; decide

theorem stopsAt_quotedRest {sep : Str} (desc : Str) (h : ∀ c ∈ sep.head?, isRefChar c = false) :
    ∀ c ∈ (quotedRest sep desc).head?, isRefChar c = false := by
  unfold quotedRest
  cases sep with
  | nil =>
    intro c hc
    simp at hc
    subst hc
    decide
  | cons x xs => simpa using h

theorem isRun_ref {ns T : Str} (hns : ∀ c ∈ ns, isRefChar c = true)
    (hT : ∀ c ∈ T, isRefChar c = true) : IsRun isRefChar (ns ++ '.' :: T) := by
  refine ⟨by simp, ?_⟩
  intro c hc
  simp only [List.mem_append, List.mem_cons] at hc
  rcases hc with h | h | h
  · exact hns c h
  · subst h; decide
  · exact hT c h

theorem ParseResponseComment_line_gen (operation : Operation) (code ws1 kind ws2 ref rest : Str)
    (h : ResponseFields code ws1 kind ws2 ref rest) :
    ParseResponseComment operation (responseLine code ws1 kind ws2 ref rest) =
      if digitsValue code < 2 ^ (intSize - 1) then responseOutcome operation code kind ref rest
      else ⟨operation, Status.error "Success http code must be int".toList⟩ := by
  have hfind := responseRE_find code ws1 kind ws2 ref rest h
  have hatoi := strconv_Atoi_digits h.1
  simp only [ParseResponseComment, hfind]
  by_cases hfit : digitsValue code < 2 ^ 63
  · have hfit1 : digitsValue code < 2 ^ (intSize - 1) := hfit
    rw [if_pos hfit] at hatoi
    rw [if_pos hfit1]
    simp [hatoi, responseOutcome]
  · have hfit1 : ¬ digitsValue code < 2 ^ (intSize - 1) := hfit
    rw [if_neg hfit] at hatoi
    rw [if_neg hfit1]
    simp [hatoi]

theorem ParseResponseComment_line (operation : Operation) (code ws1 kind ws2 ref rest : Str)
    (h : ResponseFields code ws1 kind ws2 ref rest)
    (hfit : digitsValue code < 2 ^ (intSize - 1)) :
    ParseResponseComment operation (responseLine code ws1 kind ws2 ref rest) =
      responseOutcome operation code kind ref rest := by
  rw [ParseResponseComment_line_gen operation code ws1 kind ws2 ref rest h, if_pos hfit]

/-- C3: on a line `<code> {object} <ns.T> "<desc>"` (or `{array}`), with the code a
run of digits that fits an `int`, `ns` and `T` dot-free runs of reference
characters with `TypeDefinitions[ns][T]` present in the attached registry, and
the quoted description (no quote, no newline inside) ending the line,
`ParseResponseComment` returns no error, stores under the code a response with
that description whose schema has type `object` and reference
`#/definitions/ns.T` (for `{array}`: type `array` and an items schema with that
reference), and sets `registerTypes[ns.T]` to the definition. -/
theorem ParseResponseComment_object_array (operation : Operation) (P : Parser)
    (code ws1 ws2 ns T sep desc : Str) (d : TypeSpec)
    (hP : operation.parser = some P)
    (hcode : IsRun isDigit code) (hfit : digitsValue code < 2 ^ (intSize - 1))
    (hws1 : IsRun isReSpace ws1) (hws2 : IsRun isReSpace ws2)
    (hns : ∀ c ∈ ns, isRefChar c = true ∧ c ≠ '.')
    (hT : ∀ c ∈ T, isRefChar c = true ∧ c ≠ '.')
    (hsep : '"' ∉ sep ∧ ∀ c ∈ sep.head?, isRefChar c = false)
    (hdesc : '"' ∉ desc ∧ '\n' ∉ desc)
    (hdef : lookupType P ns T = some d) :
    ParseResponseComment operation
        (responseLine code ws1 "{object}".toList ws2 (ns ++ '.' :: T) (quotedRest sep desc)) =
      ⟨{ operation with
          parser := some { P with registerTypes := mapSet P.registerTypes (ns ++ '.' :: T) d },
          Responses := mapSet operation.Responses (digitsValue code)
            { Description := desc,
              Schema := some { Type_ := ["object".toList],
                               Ref := some ("#/definitions/".toList ++ (ns ++ '.' :: T)),
                               Items := none } } },
        Status.ok⟩ ∧
    ParseResponseComment operation
        (responseLine code ws1 "{array}".toList ws2 (ns ++ '.' :: T) (quotedRest sep desc)) =
      ⟨{ operation with
          parser := some { P with registerTypes := mapSet P.registerTypes (ns ++ '.' :: T) d },
          Responses := mapSet operation.Responses (digitsValue code)
            { Description := desc,
              Schema := some { Type_ := ["array".toList], Ref := none,
                               Items := some ⟨[], some ("#/definitions/".toList ++
                                 (ns ++ '.' :: T))⟩ } } },
        Status.ok⟩ := by
  have href : IsRun isRefChar (ns ++ '.' :: T) :=
    isRun_ref (fun c hc => (hns c hc).1) (fun c hc => (hT c hc).1)
  have hrest := stopsAt_quotedRest desc hsep.2
  have hsplit : strings_Split (ns ++ '.' :: T) '.' = [ns, T] :=
    strings_Split_two (fun hm => (hns _ hm).2 rfl) (fun hm => (hT _ hm).2 rfl)
  have hnl : ∀ c ∈ desc, isDot c = true := by
    intro c hc
    have hne : c ≠ '\n' := fun e => hdesc.2 (e ▸ hc)
    have : c.toNat ≠ 10 := fun e => hne (char_eq_of_toNat e)
    simp [isDot, this]
  have htail := quotedTail_quotedRest hsep.1 hnl
  have htrim := strings_Trim_quoted hdesc.1
  have hko : strings_Trim "{object}".toList ['{', '}'] = "object".toList := by decide
  have hka : strings_Trim "{array}".toList ['{', '}'] = "array".toList := by decide
  have hso : ∀ r : Str, responseSchema "object".toList r =
      { Type_ := ["object".toList], Ref := some ("#/definitions/".toList ++ r),
        Items := none } := by
    intro r
    simp [responseSchema]
  have hsa : ∀ r : Str, responseSchema "array".toList r =
      { Type_ := ["array".toList], Ref := none,
        Items := some { Type_ := [], Ref := some ("#/definitions/".toList ++ r) } } := by
    intro r
    simp [responseSchema]
  constructor
  · rw [ParseResponseComment_line operation code ws1 _ ws2 _ _
      ⟨hcode, hws1, by decide, hws2, href, hrest⟩ hfit]
    simp only [responseOutcome, hP, hsplit, htail, htrim, hko, storeResponse, hso]
    simp [hdef]
  · rw [ParseResponseComment_line operation code ws1 _ ws2 _ _
      ⟨hcode, hws1, by decide, hws2, href, hrest⟩ hfit]
    simp only [responseOutcome, hP, hsplit, htail, htrim, hka, storeResponse, hsa]
    simp [hdef]

/-- Witness for C3: `200 {object} model.User "ok"` with `model.User` in the
registry stores under 200 the description `ok` and the schema reference
`#/definitions/model.User`, and registers `model.User`. -/
theorem ParseResponseComment_object_array_witness :
    (ParseResponseComment { NewOperation with parser := some userParser }
        "200 {object} model.User \"ok\"".toList).status = Status.ok ∧
      (ParseResponseComment { NewOperation with parser := some userParser }
        "200 {object} model.User \"ok\"".toList).op.Responses 200 =
        some { Description := "ok".toList,
               Schema := some { Type_ := ["object".toList],
                                Ref := some "#/definitions/model.User".toList,
                                Items := none } } ∧
      ((ParseResponseComment { NewOperation with parser := some userParser }
        "200 {object} model.User \"ok\"".toList).op.parser.bind
          (fun Q => Q.registerTypes "model.User".toList)) = some 7 := by
  have h := (ParseResponseComment_object_array { NewOperation with parser := some userParser }
    userParser "200".toList " ".toList " ".toList "model".toList "User".toList " ".toList
    "ok".toList 7 rfl (by decide) (by decide) (by decide) (by decide) (by decide) (by decide)
    (by decide) (by decide) (by decide)).1
  have hl : responseLine "200".toList " ".toList "{object}".toList " ".toList
      ("model".toList ++ '.' :: "User".toList) (quotedRest " ".toList "ok".toList) =
      "200 {object} model.User \"ok\"".toList := by decide
  rw [hl] at h
  rw [h]
  refine ⟨rfl, ?_, ?_⟩
  · have hv : ((digitsValue "200".toList : Nat) : Int) = 200 := by decide
    simp only [hv, mapSet]
    decide
  · simp only [Option.bind, mapSet]
    decide

/-! ## Body parameters -/

theorem required_eq (U : Libraries) (req : Str) :
    (strings_ToLower U req == "true".toList || strings_ToLower U req == "required".toList) =
      isRequired U req := by
  unfold isRequired
  rw [Bool.eq_iff_iff]
  simp

/-- What `ParseParamComment` does on a well-formed line whose location is `body`. -/
theorem ParseParamComment_body_line (U : Libraries) (operation : Operation)
    (name ws1 ws2 ty ws3 req ws4 desc : Str)
    (h : ParamFields name ws1 "body".toList ws2 ty ws3 req ws4 desc) :
    ParseParamComment U operation (paramLine name ws1 "body".toList ws2 ty ws3 req ws4 desc) =
      if (strings_Split ty '.').length = 2 then
        match operation.parser with
        | none => ⟨operation, Status.panic nilDeref⟩
        | some P =>
          match lookupType P ((strings_Split ty '.').getD 0 [])
              ((strings_Split ty '.').getD 1 []) with
          | some typeSpec =>
            match U.MustCreateRef ("#/definitions/".toList ++ ty) with
            | Except.error msg =>
              ⟨{ operation with
                  parser := some { P with registerTypes := mapSet P.registerTypes ty typeSpec } },
                Status.panic msg⟩
            | Except.ok ref =>
              appendParam
                { operation with
                  parser := some { P with registerTypes := mapSet P.registerTypes ty typeSpec } }
                (bodyParameter name desc (isRequired U req) (some ref))
          | none =>
            ⟨operation, Status.error ("Can not find ref type:\"".toList ++ ty ++ "\".".toList)⟩
      else appendParam operation (bodyParameter name desc (isRequired U req) none) := by
  have hfind := paramRE_find name ws1 "body".toList ws2 ty ws3 req ws4 desc [] h
  rw [List.append_nil] at hfind
  simp only [ParseParamComment, hfind]
  simp only [List.length_cons, List.length_nil, List.getD_cons_succ, List.getD_cons_zero,
    required_eq]
  by_cases hlen : ((strings_Split ty '.').length == 2) = true
  · have hlen2 : (strings_Split ty '.').length = 2 := by simpa using hlen
    simp only [hlen, hlen2, if_true]
    cases operation.parser with
    | none => simp
    | some P =>
      simp only []
      cases lookupType P ((strings_Split ty '.').getD 0 []) ((strings_Split ty '.').getD 1 []) with
      | none => simp
      | some d =>
        simp only []
        cases U.MustCreateRef ("#/definitions/".toList ++ ty) with
        | error msg => simp
        | ok ref => simp [createParameter, bodyParameter]
  · have hlen2 : ¬ (strings_Split ty '.').length = 2 := by simpa using hlen
    simp only [hlen, hlen2, if_false, Bool.false_eq_true]
    simp [createParameter, bodyParameter]

/-- C5: on a well-formed five-field line with location `body` whose type token is
`ns.T` (exactly one dot) with `TypeDefinitions[ns][T]` absent from the registry
of the attached parser context, `ParseParamComment` returns the error
`Can not find ref type:"ns.T".` and leaves the whole record, hence `Parameters`
and `registerTypes`, unchanged. -/
theorem ParseParamComment_body_unresolved (U : Libraries) (operation : Operation) (P : Parser)
    (name ws1 ws2 ns T ws3 req ws4 desc : Str)
    (h : ParamFields name ws1 "body".toList ws2 (ns ++ '.' :: T) ws3 req ws4 desc)
    (hP : operation.parser = some P) (hns : '.' ∉ ns) (hT : '.' ∉ T)
    (habs : lookupType P ns T = none) :
    ParseParamComment U operation
        (paramLine name ws1 "body".toList ws2 (ns ++ '.' :: T) ws3 req ws4 desc) =
      ⟨operation,
        Status.error ("Can not find ref type:\"".toList ++ (ns ++ '.' :: T) ++ "\".".toList)⟩ := by
  rw [ParseParamComment_body_line U operation name ws1 ws2 _ ws3 req ws4 desc h,
    strings_Split_two hns hT]
  simp [hP, habs]

/-- Witness for C5: `u body model.Missing true "x"` against a registry that only
holds `model.User`. -/
theorem ParseParamComment_body_unresolved_witness :
    ParseParamComment sampleLibraries { NewOperation with parser := some userParser }
        "u body model.Missing true \"x\"".toList =
      ⟨{ NewOperation with parser := some userParser },
        Status.error "Can not find ref type:\"model.Missing\".".toList⟩ := by
  have h := ParseParamComment_body_unresolved sampleLibraries
    { NewOperation with parser := some userParser } userParser "u".toList " ".toList " ".toList
    "model".toList "Missing".toList " ".toList "true".toList " ".toList "x".toList
    (by decide) rfl (by decide) (by decide) (by decide)
  exact h

/-- C6 (as stated) fails: with a reference library that, as `jsonreference` does,
refuses `#/definitions/model.%zz`, the well-formed body line
`u body model.%zz true "x"`, whose type token is present in the registry, makes
`ParseParamComment` panic: no parameter is appended and no reference is set,
while `registerTypes` has already been written. -/
theorem ParseParamComment_body_counterexample :
    ParamFields "u".toList " ".toList "body".toList " ".toList "model.%zz".toList " ".toList
        "true".toList " ".toList "x".toList ∧
      lookupType escapeParser "model".toList "%zz".toList = some 7 ∧
      (ParseParamComment sampleLibraries escapeOperation
        "u body model.%zz true \"x\"".toList).status =
          Status.panic "invalid URL escape".toList ∧
      (ParseParamComment sampleLibraries escapeOperation
        "u body model.%zz true \"x\"".toList).op.Parameters = [] ∧
      ((ParseParamComment sampleLibraries escapeOperation
        "u body model.%zz true \"x\"".toList).op.parser.bind
          (fun Q => Q.registerTypes "model.%zz".toList)) = some 7 := by
  decide

/-- C6 (amended): on a well-formed five-field line with location `body`: whenever
a parameter is appended it is the only one appended, its location is `body` and
its schema type is `object`, whatever the type token; if the type token is
`ns.T` with `TypeDefinitions[ns][T]` present and the reference library creates a
reference from `#/definitions/ns.T`, then `registerTypes[ns.T]` is set to what
the registry holds and the appended parameter carries the reference the library
created, and if the library refuses that string the call aborts with the
message of the library and appends no parameter; if the type token has no dot
the parameter is appended without reference and the parser context (which may be
`nil`) is left as it was. -/
theorem ParseParamComment_body (U : Libraries) (operation : Operation)
    (name ws1 ws2 ty ws3 req ws4 desc : Str)
    (h : ParamFields name ws1 "body".toList ws2 ty ws3 req ws4 desc) :
    ((ParseParamComment U operation
          (paramLine name ws1 "body".toList ws2 ty ws3 req ws4 desc)).status = Status.ok →
        ∃ ref, (ParseParamComment U operation
            (paramLine name ws1 "body".toList ws2 ty ws3 req ws4 desc)).op.Parameters =
          operation.Parameters ++ [bodyParameter name desc (isRequired U req) ref]) ∧
    (∀ (P : Parser) (ns T : Str) (d : TypeSpec), operation.parser = some P →
        ty = ns ++ '.' :: T → '.' ∉ ns → '.' ∉ T → lookupType P ns T = some d →
        (∀ ref : Str,
          U.MustCreateRef ("#/definitions/".toList ++ ns ++ ".".toList ++ T) = Except.ok ref →
          ParseParamComment U operation
              (paramLine name ws1 "body".toList ws2 ty ws3 req ws4 desc) =
            ⟨{ operation with
                parser := some { P with registerTypes := mapSet P.registerTypes ty d },
                Parameters := operation.Parameters ++
                  [bodyParameter name desc (isRequired U req) (some ref)] },
              Status.ok⟩) ∧
        (∀ msg : Str,
          U.MustCreateRef ("#/definitions/".toList ++ ns ++ ".".toList ++ T) = Except.error msg →
          (ParseParamComment U operation
              (paramLine name ws1 "body".toList ws2 ty ws3 req ws4 desc)).status =
            Status.panic msg ∧
          (ParseParamComment U operation
              (paramLine name ws1 "body".toList ws2 ty ws3 req ws4 desc)).op.Parameters =
            operation.Parameters)) ∧
    ('.' ∉ ty →
        ParseParamComment U operation
            (paramLine name ws1 "body".toList ws2 ty ws3 req ws4 desc) =
          ⟨{ operation with
              Parameters := operation.Parameters ++
                [bodyParameter name desc (isRequired U req) none] },
            Status.ok⟩) := by
  rw [ParseParamComment_body_line U operation name ws1 ws2 ty ws3 req ws4 desc h]
  refine ⟨?_, ?_, ?_⟩
  · intro hok
    split_ifs at hok ⊢ with hlen
    · cases hp : operation.parser with
      | none => simp [hp] at hok
      | some P =>
        simp only [hp] at hok ⊢
        generalize lookupType P ((strings_Split ty '.').getD 0 [])
            ((strings_Split ty '.').getD 1 []) = r at hok ⊢
        cases r with
        | none => simp at hok
        | some d =>
          simp only [] at hok ⊢
          generalize U.MustCreateRef ("#/definitions/".toList ++ ty) = c at hok ⊢
          cases c with
          | error msg => simp at hok
          | ok ref => exact ⟨some ref, rfl⟩
    · exact ⟨none, rfl⟩
  · intro P ns T d hP hty hns hT hdef
    subst hty
    have e : "#/definitions/".toList ++ (ns ++ '.' :: T) =
        "#/definitions/".toList ++ ns ++ ".".toList ++ T := by simp
    rw [strings_Split_two hns hT]
    constructor
    · intro ref hlib
      rw [← e] at hlib
      simp only [List.length_cons, List.length_nil, List.getD_cons_zero, List.getD_cons_succ,
        hP, hdef, hlib, appendParam]
      simp
    · intro msg hlib
      rw [← e] at hlib
      simp only [List.length_cons, List.length_nil, List.getD_cons_zero, List.getD_cons_succ,
        hP, hdef, hlib]
      simp
  · intro hdot
    rw [strings_Split_of_not_mem hdot]
    simp [appendParam]

/-- Witness for C6 (amended): `u body model.User true "x"` with `model.User` in
the registry registers `model.User` and appends a body parameter referring to
`#/definitions/model.User`. -/
theorem ParseParamComment_body_witness :
    ParseParamComment sampleLibraries { NewOperation with parser := some userParser }
        "u body model.User true \"x\"".toList =
      ⟨{ NewOperation with
          parser := some { userParser with
            registerTypes := mapSet userParser.registerTypes "model.User".toList 7 },
          Parameters := [bodyParameter "u".toList "x".toList true
            (some "#/definitions/model.User".toList)] },
        Status.ok⟩ := by
  have h := ((ParseParamComment_body sampleLibraries
    { NewOperation with parser := some userParser }
    "u".toList " ".toList " ".toList "model.User".toList " ".toList "true".toList " ".toList
    "x".toList (by decide)).2.1 userParser "model".toList "User".toList 7
    rfl (by decide) (by decide) (by decide) (by decide)).1
    "#/definitions/model.User".toList rfl
  exact h

/-! ## The description of a response -/

/-- C7: on `200 {object} model.User "ok" trailing` the call succeeds and stores
the description `ok" trailing`, with the closing quote and the text after it,
while the first quoted substring of the text after the reference token is `ok`;
the same happens on `note: 200 {string} x "d" tail`, which stores `d" tail`.
`ParseParamComment`, on a parameter line of the same kind,
`id path int true "user id" trailing`, stores the quoted content `user id`. -/
theorem ParseResponseComment_description_trailing_text :
    ResponseFields "200".toList " ".toList "{object}".toList " ".toList "model.User".toList
        " \"ok\" trailing".toList ∧
      (ParseResponseComment NewOperation
        "200 {object} model.User \"ok\" trailing".toList).status = Status.ok ∧
      ((ParseResponseComment NewOperation
        "200 {object} model.User \"ok\" trailing".toList).op.Responses 200).map
          (fun r => r.Description) = some "ok\" trailing".toList ∧
      firstQuoted " \"ok\" trailing".toList = "ok".toList ∧
      ((ParseResponseComment NewOperation
        "200 {object} model.User \"ok\" trailing".toList).op.Responses 200).map
          (fun r => r.Description) ≠ some (firstQuoted " \"ok\" trailing".toList) ∧
      ((ParseResponseComment NewOperation
        "note: 200 {string} x \"d\" tail".toList).op.Responses 200).map
          (fun r => r.Description) = some "d\" tail".toList ∧
      (ParseParamComment sampleLibraries NewOperation
        "id path int true \"user id\" trailing".toList).status = Status.ok ∧
      (ParseParamComment sampleLibraries NewOperation
        "id path int true \"user id\" trailing".toList).op.Parameters.map
          (fun q => q.Description) = ["user id".toList] := by
  decide

/-! ## Every match spans its text -/

theorem starLoop_sound (p : Char → Bool) (k : Str → Option (List Str)) (v : List Str) :
    ∀ xs : Str, starLoop p k xs = some v →
      ∃ a ys, xs = a ++ ys ∧ (∀ c ∈ a, p c = true) ∧ k ys = some v := by
  intro xs
  induction xs with
  | nil =>
    intro h
    exact ⟨[], [], rfl, by simp, by simpa [starLoop] using h⟩
  | cons c cs ih =>
    intro h
    by_cases hc : p c = true
    · simp only [starLoop, hc, if_true] at h
      cases h1 : starLoop p k cs with
      | some w =>
        rw [h1] at h
        have hw : w = v := by simpa [Option.orElse] using h
        subst hw
        obtain ⟨a, ys, hx, ha, hk⟩ := ih h1
        refine ⟨c :: a, ys, by rw [hx]; rfl, ?_, hk⟩
        intro d hd
        rcases List.mem_cons.mp hd with e | e
        · rw [e]; exact hc
        · exact ha d e
      | none =>
        rw [h1] at h
        exact ⟨[], c :: cs, rfl, by simp, by simpa [Option.orElse] using h⟩
    · have hc1 : p c = false := by simpa using hc
      simp only [starLoop, hc1, Bool.false_eq_true, if_false] at h
      exact ⟨[], c :: cs, rfl, by simp, h⟩

theorem matchRE_sound (r : RE) :
    ∀ (caps : List Str) (xs : Str) (k : List Str → Str → Option (List Str)) (v : List Str),
      matchRE r caps xs k = some v →
        ∃ a ys caps1, xs = a ++ ys ∧ Spans r caps a caps1 ∧ k caps1 ys = some v := by
  induction r with
  | chr c =>
    intro caps xs k v h
    cases xs with
    | nil => simp [matchRE] at h
    | cons x rest =>
      simp only [matchRE] at h
      by_cases hx : x = c
      · rw [if_pos hx] at h
        exact ⟨[c], rest, caps, by rw [hx]; rfl, ⟨rfl, rfl⟩, h⟩
      · rw [if_neg hx] at h
        exact absurd h (by simp)
  | plus p =>
    intro caps xs k v h
    cases xs with
    | nil => simp [matchRE] at h
    | cons x rest =>
      simp only [matchRE] at h
      by_cases hx : p x = true
      · rw [if_pos hx] at h
        obtain ⟨a, ys, hxs, ha, hk⟩ := starLoop_sound p (k caps) v rest h
        refine ⟨x :: a, ys, caps, by rw [hxs]; rfl, ⟨⟨by simp, ?_⟩, rfl⟩, hk⟩
        intro d hd
        rcases List.mem_cons.mp hd with e | e
        · rw [e]; exact hx
        · exact ha d e
      · rw [if_neg hx] at h
        exact absurd h (by simp)
  | star p =>
    intro caps xs k v h
    simp only [matchRE] at h
    obtain ⟨a, ys, hxs, ha, hk⟩ := starLoop_sound p (k caps) v xs h
    exact ⟨a, ys, caps, hxs, ⟨ha, rfl⟩, hk⟩
  | group n r ih =>
    intro caps xs k v h
    simp only [matchRE] at h
    obtain ⟨a, ys, caps1, hxs, hsp, hk⟩ := ih caps xs _ v h
    refine ⟨a, ys, caps1.set n a, hxs, ⟨caps1, hsp, rfl⟩, ?_⟩
    have ht : xs.take (xs.length - ys.length) = a := by
      rw [hxs]
      exact take_append_sub a ys
    rw [ht] at hk
    exact hk
  | seq r s ihr ihs =>
    intro caps xs k v h
    simp only [matchRE] at h
    obtain ⟨a, ys, caps1, hxs, hsp, hk⟩ := ihr caps xs _ v h
    obtain ⟨b, zs, caps2, hys, hsp2, hk2⟩ := ihs caps1 ys k v hk
    exact ⟨a ++ b, zs, caps2, by rw [hxs, hys, List.append_assoc], ⟨a, b, caps1, rfl, hsp, hsp2⟩,
      hk2⟩
  | opt r ih =>
    intro caps xs k v h
    simp only [matchRE] at h
    cases h1 : matchRE r caps xs k with
    | some w =>
      rw [h1] at h
      have hw : w = v := by simpa [Option.orElse] using h
      subst hw
      obtain ⟨a, ys, caps1, hxs, hsp, hk⟩ := ih caps xs k w h1
      exact ⟨a, ys, caps1, hxs, Or.inl hsp, hk⟩
    | none =>
      rw [h1] at h
      exact ⟨[], xs, caps, rfl, Or.inr ⟨rfl, rfl⟩, by simpa [Option.orElse] using h⟩

theorem matchAt_sound {re : RE} {xs : Str} {v : List Str} (h : matchAt re xs = some v) :
    ∃ a ys caps1, xs = a ++ ys ∧ Spans re (List.replicate (re.numSubexp + 1) []) a caps1 ∧
      v = caps1.set 0 a := by
  unfold matchAt at h
  obtain ⟨a, ys, caps1, hxs, hsp, hk⟩ := matchRE_sound re _ xs _ v h
  refine ⟨a, ys, caps1, hxs, hsp, ?_⟩
  have ht : xs.take (xs.length - ys.length) = a := by
    rw [hxs]
    exact take_append_sub a ys
  rw [ht] at hk
  exact (Option.some.inj hk).symm

theorem searchFrom_sound {re : RE} {v : List Str} :
    ∀ {xs : Str}, searchFrom re xs = some v →
      ∃ pre a ys caps1, xs = pre ++ (a ++ ys) ∧
        Spans re (List.replicate (re.numSubexp + 1) []) a caps1 ∧ v = caps1.set 0 a := by
  intro xs
  induction xs with
  | nil =>
    intro h
    obtain ⟨a, ys, caps1, hxs, hsp, hv⟩ := matchAt_sound (by simpa [searchFrom] using h)
    exact ⟨[], a, ys, caps1, hxs, hsp, hv⟩
  | cons c cs ih =>
    intro h
    simp only [searchFrom] at h
    cases h1 : matchAt re (c :: cs) with
    | some w =>
      rw [h1] at h
      have hw : w = v := by simpa [Option.orElse] using h
      subst hw
      obtain ⟨a, ys, caps1, hxs, hsp, hv⟩ := matchAt_sound h1
      exact ⟨[], a, ys, caps1, hxs, hsp, hv⟩
    | none =>
      rw [h1] at h
      have h2 : searchFrom re cs = some v := by simpa [Option.orElse] using h
      obtain ⟨pre, a, ys, caps1, hxs, hsp, hv⟩ := ih h2
      exact ⟨c :: pre, a, ys, caps1, by rw [hxs]; rfl, hsp, hv⟩

/-! ## Where the response pattern can match -/

theorem afterRun_run {p : Char → Bool} {a : Str} (b : Str) (ha : IsRun p a) (hb : StopsAt p b) :
    afterRun p (a ++ b) = some b := by
  obtain ⟨hne, hall⟩ := ha
  cases a with
  | nil => exact absurd rfl hne
  | cons x xs =>
    have hx : p x = true := hall x (List.mem_cons_self _ _)
    have hxs : ∀ c ∈ xs, p c = true := fun c hc => hall c (List.mem_cons_of_mem _ hc)
    have hd : (xs ++ b).dropWhile p = b := by
      rw [dropWhile_append_of_all b hxs]
      cases b with
      | nil => rfl
      | cons y ys =>
        have hy : p y = false := hb y (by simp)
        simp [List.dropWhile_cons, hy]
    simp only [List.cons_append, afterRun, hx, if_true, hd]

theorem afterRun_some {p : Char → Bool} {s t : Str} (h : afterRun p s = some t) :
    ∃ a, IsRun p a ∧ s = a ++ t ∧ StopsAt p t := by
  cases s with
  | nil => simp [afterRun] at h
  | cons c cs =>
    simp only [afterRun] at h
    by_cases hc : p c = true
    · rw [if_pos hc] at h
      have ht : cs.dropWhile p = t := Option.some.inj h
      subst ht
      refine ⟨c :: cs.takeWhile p, ⟨by simp, ?_⟩, ?_, stopsAt_dropWhile p cs⟩
      · intro d hd
        rcases List.mem_cons.mp hd with e | e
        · rw [e]; exact hc
        · exact all_takeWhile p cs d e
      · simp [List.takeWhile_append_dropWhile]
    · rw [if_neg hc] at h
      exact absurd h (by simp)

theorem spans_responseRE {caps caps1 : List Str} {a : Str} (h : Spans responseRE caps a caps1) :
    ∃ d w1 k w2 r q, IsRun isDigit d ∧ IsRun isReSpace w1 ∧ IsRun isKindChar k ∧
      IsRun isReSpace w2 ∧ IsRun isRefChar r ∧ a = d ++ (w1 ++ (k ++ (w2 ++ (r ++ q)))) ∧
      (caps1 = ((caps.set 1 d).set 2 k).set 3 r ∨
        ∃ t, caps1 = (((caps.set 1 d).set 2 k).set 3 r).set 4 t) := by
  simp only [responseRE, Spans] at h
  obtain ⟨a1, r1, c1, e1, ⟨c1a, ⟨hd, hc1a⟩, hc1⟩, a2, r2, c2, e2, ⟨hw1, hc2⟩, a3, r3, c3, e3,
    ⟨c3a, ⟨hk, hc3a⟩, hc3⟩, a4, r4, c4, e4, ⟨hw2, hc4⟩, a5, r5, c5, e5, ⟨c5a, ⟨hr, hc5a⟩, hc5⟩,
    a6, a7, c6, e6, ⟨_, hc6⟩, h7⟩ := h
  subst hc1a hc1 hc2 hc3a hc3 hc4 hc5a hc5 hc6
  refine ⟨a1, a2, a3, a4, a5, r5, hd, hw1, hk, hw2, hr, ?_, ?_⟩
  · rw [e1, e2, e3, e4, e5]
  · rcases h7 with ⟨c7, ⟨_, hc7a⟩, hc7⟩ | ⟨_, hc7⟩
    · right
      exact ⟨a7, by rw [hc7, hc7a]⟩
    · left
      exact hc7

theorem responseShapeAt_of_runs {d w1 k w2 r : Str} (q : Str) (hd : IsRun isDigit d)
    (hw1 : IsRun isReSpace w1) (hk : IsRun isKindChar k) (hw2 : IsRun isReSpace w2)
    (hr : IsRun isRefChar r) : responseShapeAt (d ++ (w1 ++ (k ++ (w2 ++ (r ++ q))))) = true := by
  unfold responseShapeAt
  rw [afterRun_run _ hd (stopsAt_run _ hw1 digit_of_reSpace), Option.some_bind,
    afterRun_run _ hw1 (stopsAt_run _ hk (reSpace_of kind_of_reSpace)), Option.some_bind,
    afterRun_run _ hk (stopsAt_run _ hw2 kind_of_reSpace), Option.some_bind,
    afterRun_run _ hw2 (stopsAt_run _ hr (reSpace_of ref_of_reSpace))]
  obtain ⟨hne, hall⟩ := hr
  cases r with
  | nil => exact absurd rfl hne
  | cons c cs => exact hall c (List.mem_cons_self _ _)

theorem responseShapeAt_of_matchAt {xs : Str} {v : List Str}
    (h : matchAt responseRE xs = some v) : responseShapeAt xs = true := by
  obtain ⟨a, ys, caps1, hxs, hsp, _⟩ := matchAt_sound h
  obtain ⟨d, w1, k, w2, r, q, hd, hw1, hk, hw2, hr, ha, _⟩ := spans_responseRE hsp
  have hx : xs = d ++ (w1 ++ (k ++ (w2 ++ (r ++ (q ++ ys))))) := by
    rw [hxs, ha]
    simp
  rw [hx]
  exact responseShapeAt_of_runs _ hd hw1 hk hw2 hr

theorem matchAt_responseRE_none {xs : Str} (h : responseShapeAt xs = false) :
    matchAt responseRE xs = none := by
  cases hm : matchAt responseRE xs with
  | none => rfl
  | some v =>
    rw [responseShapeAt_of_matchAt hm] at h
    exact absurd h (by simp)

theorem searchFrom_responseRE_none (xs : Str) (h : hasResponseShape xs = false) :
    searchFrom responseRE xs = none := by
  induction xs with
  | nil => simpa [searchFrom] using @matchAt_responseRE_none [] rfl
  | cons c cs ih =>
    simp only [hasResponseShape, Bool.or_eq_false_iff] at h
    simp [searchFrom, matchAt_responseRE_none h.1, ih h.2]

theorem searchFrom_responseRE_skip (pre s : Str) (h : noShapeBefore pre s = true) :
    searchFrom responseRE (pre ++ s) = searchFrom responseRE s := by
  induction pre with
  | nil => rfl
  | cons c p ih =>
    simp only [noShapeBefore, Bool.and_eq_true, Bool.not_eq_true'] at h
    rw [List.cons_append]
    simp only [searchFrom, matchAt_responseRE_none h.1]
    simpa [Option.orElse] using ih h.2

theorem responseShapeAt_fields {s : Str} (h : responseShapeAt s = true) :
    ∃ code ws1 kind ws2 ref rest, s = responseLine code ws1 kind ws2 ref rest ∧
      ResponseFields code ws1 kind ws2 ref rest := by
  unfold responseShapeAt at h
  cases h1 : afterRun isDigit s with
  | none => simp [h1] at h
  | some s1 =>
    cases h2 : afterRun isReSpace s1 with
    | none => simp [h1, h2] at h
    | some s2 =>
      cases h3 : afterRun isKindChar s2 with
      | none => simp [h1, h2, h3] at h
      | some s3 =>
        cases h4 : afterRun isReSpace s3 with
        | none => simp [h1, h2, h3, h4] at h
        | some s4 =>
          cases s4 with
          | nil => simp [h1, h2, h3, h4] at h
          | cons c t =>
            have hc : isRefChar c = true := by simpa [h1, h2, h3, h4] using h
            obtain ⟨code, hcode, e1, _⟩ := afterRun_some h1
            obtain ⟨ws1, hws1, e2, _⟩ := afterRun_some h2
            obtain ⟨kind, hkind, e3, _⟩ := afterRun_some h3
            obtain ⟨ws2, hws2, e4, _⟩ := afterRun_some h4
            refine ⟨code, ws1, kind, ws2, (c :: t).takeWhile isRefChar,
              (c :: t).dropWhile isRefChar, ?_, hcode, hws1, hkind, hws2, ⟨?_, ?_⟩, ?_⟩
            · unfold responseLine
              rw [List.takeWhile_append_dropWhile, e1, e2, e3, e4]
            · simp [List.takeWhile_cons, hc]
            · exact all_takeWhile isRefChar (c :: t)
            · exact stopsAt_dropWhile isRefChar (c :: t)

theorem hasResponseShape_first {line : Str} (h : hasResponseShape line = true) :
    ∃ pre code ws1 kind ws2 ref rest, line = pre ++ responseLine code ws1 kind ws2 ref rest ∧
      ResponseFields code ws1 kind ws2 ref rest ∧
      noShapeBefore pre (responseLine code ws1 kind ws2 ref rest) = true := by
  induction line with
  | nil => simp [hasResponseShape] at h
  | cons c cs ih =>
    by_cases hs : responseShapeAt (c :: cs) = true
    · obtain ⟨code, ws1, kind, ws2, ref, rest, hl, hf⟩ := responseShapeAt_fields hs
      exact ⟨[], code, ws1, kind, ws2, ref, rest, hl, hf, rfl⟩
    · have hs1 : responseShapeAt (c :: cs) = false := by simpa using hs
      simp only [hasResponseShape, hs1, Bool.false_or] at h
      obtain ⟨pre, code, ws1, kind, ws2, ref, rest, hl, hf, hn⟩ := ih h
      refine ⟨c :: pre, code, ws1, kind, ws2, ref, rest, by rw [hl]; rfl, hf, ?_⟩
      simp only [noShapeBefore, Bool.and_eq_true, Bool.not_eq_true']
      refine ⟨?_, hn⟩
      rw [← hl]
      exact hs1

theorem ParseResponseComment_of_find (operation : Operation) {l1 l2 : Str}
    (h : FindStringSubmatch responseRE l1 = FindStringSubmatch responseRE l2)
    (hlen : (FindStringSubmatch responseRE l2).length = 5) :
    ParseResponseComment operation l1 = ParseResponseComment operation l2 := by
  unfold ParseResponseComment
  rw [h]
  simp [hlen]

/-- C8 (as stated) fails: the first whitespace-delimited token of
`abc 200 {string} x` is `abc`, which is no decimal integer, yet the call returns
no error and stores a response under 200, a key that was empty before. -/
theorem ParseResponseComment_leading_token_counterexample :
    (strings_Fields "abc 200 {string} x".toList).head? = some "abc".toList ∧
      strconv_Atoi "abc".toList = none ∧
      (ParseResponseComment NewOperation "abc 200 {string} x".toList).status = Status.ok ∧
      NewOperation.Responses 200 = none ∧
      ((ParseResponseComment NewOperation "abc 200 {string} x".toList).op.Responses 200).isSome =
        true := by
  decide

/-- C8 (amended): `ParseResponseComment` looks for the first position of the line
at which a run of digits, white space, a run over `[\w{}]`, white space and a
code point of `[\w\-./]` follow one another, whatever text precedes it.  When the
line has no such position the call returns the error `Can not parse response
comment` and leaves the record, hence the `Responses` mapping, unchanged.  When
it has one, the line is some text, in which no such position lies, followed by a
well-formed response line; and on every line of that form the call returns
`Success http code must be int` with the record unchanged when the digits exceed
an `int`, and otherwise does what it does on the well-formed line alone. -/
theorem ParseResponseComment_first_shape (operation : Operation) (line : Str) :
    (hasResponseShape line = false →
      ParseResponseComment operation line =
        ⟨operation, Status.error
          ("Can not parse response comment \"".toList ++ line ++ "\", skipped.".toList)⟩) ∧
    (hasResponseShape line = true →
      ∃ pre code ws1 kind ws2 ref rest, line = pre ++ responseLine code ws1 kind ws2 ref rest ∧
        ResponseFields code ws1 kind ws2 ref rest ∧
        noShapeBefore pre (responseLine code ws1 kind ws2 ref rest) = true) ∧
    (∀ pre code ws1 kind ws2 ref rest : Str,
      line = pre ++ responseLine code ws1 kind ws2 ref rest →
      ResponseFields code ws1 kind ws2 ref rest →
      noShapeBefore pre (responseLine code ws1 kind ws2 ref rest) = true →
      ParseResponseComment operation line =
        if digitsValue code < 2 ^ (intSize - 1) then responseOutcome operation code kind ref rest
        else ⟨operation, Status.error "Success http code must be int".toList⟩) := by
  refine ⟨?_, hasResponseShape_first, ?_⟩
  · intro h
    have hfind : FindStringSubmatch responseRE line = [] := by
      simp [FindStringSubmatch, searchFrom_responseRE_none line h]
    simp [ParseResponseComment, hfind]
  · intro pre code ws1 kind ws2 ref rest hl hf hn
    have hfind : FindStringSubmatch responseRE line =
        FindStringSubmatch responseRE (responseLine code ws1 kind ws2 ref rest) := by
      unfold FindStringSubmatch
      rw [hl, searchFrom_responseRE_skip pre _ hn]
    have hlen : (FindStringSubmatch responseRE (responseLine code ws1 kind ws2 ref rest)).length
        = 5 := by
      rw [responseRE_find code ws1 kind ws2 ref rest hf]
      rfl
    rw [ParseResponseComment_of_find operation hfind hlen]
    exact ParseResponseComment_line_gen operation code ws1 kind ws2 ref rest hf

/-- Witness for C8 (amended): `abc 5 x` has no position where the pattern can
match and is refused with the record unchanged; `a1 b c 200 {string} x` is parsed
from the digit inside its leading token, as the line `1 b c 200 {string} x`;
`abc 200 {string} x` splits into a text and a well-formed response line. -/
theorem ParseResponseComment_first_shape_witness :
    ParseResponseComment NewOperation "abc 5 x".toList =
        ⟨NewOperation, Status.error
          "Can not parse response comment \"abc 5 x\", skipped.".toList⟩ ∧
      ParseResponseComment NewOperation "a1 b c 200 {string} x".toList =
        responseOutcome NewOperation "1".toList "b".toList "c".toList
          " 200 {string} x".toList ∧
      (∃ pre code ws1 kind ws2 ref rest,
        "abc 200 {string} x".toList = pre ++ responseLine code ws1 kind ws2 ref rest ∧
          ResponseFields code ws1 kind ws2 ref rest ∧
          noShapeBefore pre (responseLine code ws1 kind ws2 ref rest) = true) := by
  have h3 := (ParseResponseComment_first_shape NewOperation "abc 200 {string} x".toList).2.1
    (by decide)
  have h1 := (ParseResponseComment_first_shape NewOperation "abc 5 x".toList).1 (by decide)
  have h2 := (ParseResponseComment_first_shape NewOperation "a1 b c 200 {string} x".toList).2.2
    "a".toList "1".toList " ".toList "b".toList " ".toList "c".toList " 200 {string} x".toList
    (by decide) (by decide) (by decide)
  have hfit : digitsValue "1".toList < 2 ^ (intSize - 1) := by decide
  rw [if_pos hfit] at h2
  exact ⟨h1, h2, h3⟩

/-! ## Primitive schema kinds -/

theorem responseSchema_primitive {schemaType : Str} (refType : Str)
    (ho : schemaType ≠ "object".toList) (ha : schemaType ≠ "array".toList) :
    responseSchema schemaType refType = { Type_ := [schemaType], Ref := none, Items := none } := by
  unfold responseSchema
  simp only [if_neg ho, if_neg ha]

/-- C9 (as stated) fails: with a registry attached that does not hold
`model.Missing`, the line `200 {string} model.Missing "x"`, whose schema kind
`string` is neither `object` nor `array`, is rejected with an
unresolvable-reference error and nothing is stored. -/
theorem ParseResponseComment_primitive_counterexample :
    ResponseFields "200".toList " ".toList "{string}".toList " ".toList "model.Missing".toList
        " \"x\"".toList ∧
      strings_Trim "{string}".toList ['{', '}'] = "string".toList ∧
      (ParseResponseComment { NewOperation with parser := some userParser }
        "200 {string} model.Missing \"x\"".toList).status =
          Status.error "Can not find ref type:\"model.Missing\".".toList ∧
      (ParseResponseComment { NewOperation with parser := some userParser }
        "200 {string} model.Missing \"x\"".toList).op.Responses 200 = none := by
  decide

/-- C9 (amended): on a well-formed response line whose code fits an `int` and
whose schema kind is neither `object` nor `array`, with a registry attached, the
reference token is still resolved when it is a two-segment dotted reference:
if it has not exactly one dot, no lookup is made, the call succeeds, stores a
schema of the primitive kind without reference and leaves the parser context
unchanged; if it is `ns.T` and present, the call succeeds, stores the same
primitive schema and sets `registerTypes[ns.T]`; if it is `ns.T` and absent, the
call returns an unresolvable-reference error and changes nothing. -/
theorem ParseResponseComment_primitive (operation : Operation) (P : Parser)
    (code ws1 kind ws2 ref rest : Str) (h : ResponseFields code ws1 kind ws2 ref rest)
    (hfit : digitsValue code < 2 ^ (intSize - 1))
    (ho : strings_Trim kind ['{', '}'] ≠ "object".toList)
    (ha : strings_Trim kind ['{', '}'] ≠ "array".toList)
    (hP : operation.parser = some P) :
    (ref.count '.' ≠ 1 →
        ParseResponseComment operation (responseLine code ws1 kind ws2 ref rest) =
          ⟨{ operation with
              Responses := mapSet operation.Responses (digitsValue code)
                (primitiveResponse (strings_Trim (quotedTail rest) ['"'])
                  (strings_Trim kind ['{', '}'])) },
            Status.ok⟩) ∧
    (∀ (ns T : Str) (d : TypeSpec), ref = ns ++ '.' :: T → '.' ∉ ns → '.' ∉ T →
        lookupType P ns T = some d →
        ParseResponseComment operation (responseLine code ws1 kind ws2 ref rest) =
          ⟨{ operation with
              parser := some { P with registerTypes := mapSet P.registerTypes ref d },
              Responses := mapSet operation.Responses (digitsValue code)
                (primitiveResponse (strings_Trim (quotedTail rest) ['"'])
                  (strings_Trim kind ['{', '}'])) },
            Status.ok⟩) ∧
    (∀ ns T : Str, ref = ns ++ '.' :: T → '.' ∉ ns → '.' ∉ T → lookupType P ns T = none →
        ParseResponseComment operation (responseLine code ws1 kind ws2 ref rest) =
          ⟨operation, Status.error
            ("Can not find ref type:\"".toList ++ ref ++ "\".".toList)⟩) := by
  rw [ParseResponseComment_line operation code ws1 kind ws2 ref rest h hfit]
  have hs := responseSchema_primitive ref ho ha
  refine ⟨?_, ?_, ?_⟩
  · intro hcount
    have hlen : (strings_Split ref '.').length ≠ 2 := by
      rw [strings_Split_length]
      omega
    simp only [responseOutcome, hP, if_neg hlen, storeResponse, hs, primitiveResponse]
  · intro ns T d href hns hT hdef
    subst href
    simp only [responseOutcome, hP, strings_Split_two hns hT, storeResponse, hs,
      primitiveResponse]
    simp [hdef]
  · intro ns T href hns hT habs
    subst href
    simp only [responseOutcome, hP, strings_Split_two hns hT]
    simp [habs]

/-- Witness for C9 (amended): `200 {string} model.User "x"` with `model.User` in
the registry stores a `string` schema without reference and registers
`model.User`. -/
theorem ParseResponseComment_primitive_witness :
    ParseResponseComment { NewOperation with parser := some userParser }
        "200 {string} model.User \"x\"".toList =
      ⟨{ NewOperation with
          parser := some { userParser with
            registerTypes := mapSet userParser.registerTypes "model.User".toList 7 },
          Responses := mapSet NewOperation.Responses 200
            (primitiveResponse "x".toList "string".toList) },
        Status.ok⟩ := by
  have h := (ParseResponseComment_primitive { NewOperation with parser := some userParser }
    userParser "200".toList " ".toList "{string}".toList " ".toList "model.User".toList
    " \"x\"".toList (by decide) (by decide) (by decide) (by decide) rfl).2.1
    "model".toList "User".toList 7 (by decide) (by decide) (by decide) (by decide)
  have hl : responseLine "200".toList " ".toList "{string}".toList " ".toList
      "model.User".toList " \"x\"".toList = "200 {string} model.User \"x\"".toList := by
    decide
  have hv : ((digitsValue "200".toList : Nat) : Int) = 200 := by decide
  have ht : strings_Trim (quotedTail " \"x\"".toList) ['"'] = "x".toList := by decide
  have hk : strings_Trim "{string}".toList ['{', '}'] = "string".toList := by decide
  rw [hl, hv, ht, hk] at h
  exact h

/-! ## The dispatcher on lines that are no directive -/

theorem fieldsLoop_ne_nil_of_cur (s : Str) : ∀ cur : Str, cur ≠ [] → fieldsLoop s cur ≠ [] := by
  induction s with
  | nil =>
    intro cur hcur
    simp [fieldsLoop, hcur]
  | cons c cs ih =>
    intro cur hcur
    unfold fieldsLoop
    by_cases hc : unicode_IsSpace c = true
    · simp [hc, hcur]
    · simp only [hc]
      exact ih (c :: cur) (by simp)

theorem fieldsLoop_ne_nil (s : Str) : ∀ cur : Str, (∃ c ∈ s, unicode_IsSpace c = false) →
    fieldsLoop s cur ≠ [] := by
  induction s with
  | nil =>
    intro cur h
    obtain ⟨c, hc, _⟩ := h
    simp at hc
  | cons x xs ih =>
    intro cur h
    unfold fieldsLoop
    by_cases hx : unicode_IsSpace x = true
    · have hex : ∃ c ∈ xs, unicode_IsSpace c = false := by
        obtain ⟨c, hc, hcs⟩ := h
        rcases List.mem_cons.mp hc with e | e
        · subst e
          rw [hx] at hcs
          exact absurd hcs (by simp)
        · exact ⟨c, e, hcs⟩
      by_cases hcur : cur = []
      · simp only [hx, hcur, if_true]
        exact ih [] hex
      · simp [hx, hcur]
    · simp only [hx]
      exact fieldsLoop_ne_nil_of_cur xs (x :: cur) (by simp)

theorem strings_TrimSpace_has_nonspace (x : Str) (h : strings_TrimSpace x ≠ []) :
    ∃ c ∈ strings_TrimSpace x, unicode_IsSpace c = false := by
  unfold strings_TrimSpace at h ⊢
  cases hl : List.dropWhile unicode_IsSpace (List.dropWhile unicode_IsSpace x).reverse with
  | nil => simp [hl] at h
  | cons a l =>
    have hs := stopsAt_dropWhile unicode_IsSpace (List.dropWhile unicode_IsSpace x).reverse
    rw [hl] at hs
    exact ⟨a, by simp, hs a (by simp)⟩

theorem strings_Fields_trimmed_ne_nil (x : Str) (h : strings_TrimSpace x ≠ []) :
    strings_Fields (strings_TrimSpace x) ≠ [] :=
  fieldsLoop_ne_nil _ [] (strings_TrimSpace_has_nonspace x h)

/-- C10: on a raw comment line that is empty after stripping the comment marker
and the surrounding white space, or whose first white-space-delimited token,
lower-cased, is none of the nine directive keywords, `ParseComment` returns no
error and leaves the whole record, parser context included, unchanged. -/
theorem ParseComment_not_a_directive (U : Libraries) (operation : Operation) (comment : Str)
    (h : strippedLine comment = [] ∨
      ∀ attr ∈ (strings_Fields (strippedLine comment)).head?,
        strings_ToLower U attr ∉ directiveKeywords) :
    ParseComment U operation comment = ⟨operation, Status.ok⟩ := by
  unfold ParseComment
  unfold strippedLine at h
  by_cases hemp : strings_TrimSpace (strings_TrimLeft comment ['/', '/']) = []
  · simp [hemp]
  · have hkey := h.resolve_left hemp
    have hlen : ((strings_TrimSpace (strings_TrimLeft comment ['/', '/'])).length == 0) =
        false := by
      simpa using hemp
    have hne := strings_Fields_trimmed_ne_nil (strings_TrimLeft comment ['/', '/']) hemp
    simp only [hlen]
    cases hf : strings_Fields (strings_TrimSpace (strings_TrimLeft comment ['/', '/'])) with
    | nil => exact absurd hf hne
    | cons attr rest =>
      rw [hf] at hkey
      have hk : strings_ToLower U attr ∉ directiveKeywords := hkey attr (by simp)
      have k1 : strings_ToLower U attr ≠ "@router".toList := fun e => hk (by rw [e]; decide)
      have k2 : strings_ToLower U attr ≠ "@summary".toList := fun e => hk (by rw [e]; decide)
      have k3 : strings_ToLower U attr ≠ "@description".toList :=
        fun e => hk (by rw [e]; decide)
      have k4 : strings_ToLower U attr ≠ "@success".toList := fun e => hk (by rw [e]; decide)
      have k5 : strings_ToLower U attr ≠ "@failure".toList := fun e => hk (by rw [e]; decide)
      have k6 : strings_ToLower U attr ≠ "@param".toList := fun e => hk (by rw [e]; decide)
      have k7 : strings_ToLower U attr ≠ "@accept".toList := fun e => hk (by rw [e]; decide)
      have k8 : strings_ToLower U attr ≠ "@consume".toList := fun e => hk (by rw [e]; decide)
      have k9 : strings_ToLower U attr ≠ "@produce".toList := fun e => hk (by rw [e]; decide)
      simp only [if_neg k1, if_neg k2, if_neg k3, if_neg k6, if_neg k9, k4, k5, k7, k8,
        or_self, if_false, Bool.false_eq_true]

/-- Witness for C10: the prose line `// Returns the pet with the given id.` leaves
the fresh operation unchanged. -/
theorem ParseComment_not_a_directive_witness :
    ParseComment sampleLibraries NewOperation "// Returns the pet with the given id.".toList =
      ⟨NewOperation, Status.ok⟩ := by
  have h := ParseComment_not_a_directive sampleLibraries NewOperation
    "// Returns the pet with the given id.".toList (Or.inr (by decide))
  exact h

/-! ## The default method, unknown locations, unsupported locations -/

/-- C12: the record returned by `NewOperation` has the lower-case method `get`,
not `GET`; its path is empty, it has no parameters, no responses and no parser
context. -/
theorem NewOperation_method_lower_case :
    NewOperation.HttpMethod = "get".toList ∧ NewOperation.HttpMethod ≠ "GET".toList ∧
      strings_ToUpper sampleLibraries NewOperation.HttpMethod = "GET".toList ∧
      NewOperation.Path = [] ∧ NewOperation.Parameters = [] ∧
      (∀ c, NewOperation.Responses c = none) ∧
      (ParseRouterComment sampleLibraries NewOperation "/pets [get]".toList).op.HttpMethod =
        "GET".toList := by
  refine ⟨rfl, by decide, by decide, rfl, rfl, fun _ => rfl, by decide⟩

/-- C13: the parameter line `x header string true "d"`, whose location `header`
is none of `query`, `path`, `body`, is accepted without error, directly and
through the dispatcher, and appends the zero-value parameter, whose location is
the empty string. -/
theorem ParseParamComment_unknown_location :
    (ParseParamComment sampleLibraries NewOperation "x header string true \"d\"".toList).status =
        Status.ok ∧
      (ParseParamComment sampleLibraries NewOperation "x header string true \"d\"".toList).op.Parameters =
        [zeroParameter] ∧
      (ParseComment sampleLibraries NewOperation "// @Param x header string true \"d\"".toList).status =
        Status.ok ∧
      (ParseComment sampleLibraries NewOperation
        "// @Param x header string true \"d\"".toList).op.Parameters = [zeroParameter] ∧
      zeroParameter.In = [] ∧
      zeroParameter.In ∉ ["query".toList, "path".toList, "body".toList] := by
  decide

/-- C14: on a well-formed five-field parameter line whose location token is
exactly `Header` (or exactly `Form`), `ParseParamComment` panics with
`not supported Header paramType yet.` (`not supported Form paramType yet.`) and
the record, hence `Parameters`, is as before the call. -/
theorem ParseParamComment_Header_Form (U : Libraries) (operation : Operation)
    (name ws1 loc ws2 ty ws3 req ws4 desc : Str)
    (h : ParamFields name ws1 loc ws2 ty ws3 req ws4 desc) :
    (loc = "Header".toList →
        ParseParamComment U operation (paramLine name ws1 loc ws2 ty ws3 req ws4 desc) =
          ⟨operation, Status.panic "not supported Header paramType yet.".toList⟩) ∧
      (loc = "Form".toList →
        ParseParamComment U operation (paramLine name ws1 loc ws2 ty ws3 req ws4 desc) =
          ⟨operation, Status.panic "not supported Form paramType yet.".toList⟩) := by
  have hfind := paramRE_find name ws1 loc ws2 ty ws3 req ws4 desc [] h
  rw [List.append_nil] at hfind
  constructor
  · intro hloc
    subst hloc
    simp only [ParseParamComment, hfind]
    simp
  · intro hloc
    subst hloc
    simp only [ParseParamComment, hfind]
    simp

/-- Witness for C14: `q Header string true "d"` panics and leaves the fresh
operation as it was. -/
theorem ParseParamComment_Header_Form_witness :
    ParseParamComment sampleLibraries NewOperation "q Header string true \"d\"".toList =
      ⟨NewOperation, Status.panic "not supported Header paramType yet.".toList⟩ := by
  have h := (ParseParamComment_Header_Form sampleLibraries NewOperation "q".toList " ".toList
    "Header".toList " ".toList "string".toList " ".toList "true".toList " ".toList "d".toList
    (by decide)).1 rfl
  exact h

/-- C19: on `/pets/{id}[get]`, where `[` follows the path directly,
`ParseRouterComment` succeeds and stores the path `/pets/{id`: the code point
right after the stored path in the line is `}`, a path character, so the stored
path is not a maximal run. -/
theorem ParseRouterComment_truncated_path :
    (ParseRouterComment sampleLibraries NewOperation "/pets/{id}[get]".toList).status = Status.ok ∧
      (ParseRouterComment sampleLibraries NewOperation "/pets/{id}[get]".toList).op.Path =
        "/pets/\x7bid".toList ∧
      "/pets/{id}[get]".toList = "/pets/\x7bid".toList ++ '}' :: "[get]".toList ∧
      isPathChar '}' = true ∧
      (ParseRouterComment sampleLibraries NewOperation "/pets/{id}[get]".toList).op.HttpMethod =
        "GET".toList := by
  decide

/-- C20: on the record returned by `NewOperation` (no parser context) the line
`u body model.User true "x"`, whose location is neither `Header` nor `Form`,
makes `ParseParamComment` panic on the nil parser context, while the response
handler guards the same lookup and succeeds on `200 {object} model.User "ok"`. -/
theorem ParseParamComment_nil_parser_panics :
    NewOperation.parser.isNone = true ∧
      (ParseParamComment sampleLibraries NewOperation "u body model.User true \"x\"".toList).status =
        Status.panic nilDeref ∧
      (ParseParamComment sampleLibraries NewOperation
        "u body model.User true \"x\"".toList).op.Parameters = [] ∧
      (ParseResponseComment NewOperation "200 {object} model.User \"ok\"".toList).status =
        Status.ok := by
  decide

/-! ## The dispatcher as handler choice and handler run -/

theorem ParseComment_eq_run (U : Libraries) (operation : Operation) (comment : Str) :
    ParseComment U operation comment =
      match handlerOf U comment with
      | none => ⟨operation, Status.ok⟩
      | some h => runHandler U h operation (directiveRest comment) := by
  unfold ParseComment handlerOf directiveRest strippedLine
  by_cases hemp : strings_TrimSpace (strings_TrimLeft comment ['/', '/']) = []
  · simp [hemp, strings_Fields, fieldsLoop]
  · have hlen : ((strings_TrimSpace (strings_TrimLeft comment ['/', '/'])).length == 0) =
        false := by
      simpa using hemp
    have hne := strings_Fields_trimmed_ne_nil (strings_TrimLeft comment ['/', '/']) hemp
    simp only [hlen]
    cases hf : strings_Fields (strings_TrimSpace (strings_TrimLeft comment ['/', '/'])) with
    | nil => exact absurd hf hne
    | cons attr rest =>
      simp only [keyHandler]
      generalize strings_ToLower U attr = key
      by_cases h1 : key = "@router".toList
      · simp only [if_pos h1]
        rfl
      simp only [if_neg h1]
      by_cases h2 : key = "@summary".toList
      · simp only [if_pos h2]
        rfl
      simp only [if_neg h2]
      by_cases h3 : key = "@description".toList
      · simp only [if_pos h3]
        rfl
      simp only [if_neg h3]
      by_cases h4 : key = "@success".toList ∨ key = "@failure".toList
      · simp only [if_pos h4]
        rfl
      simp only [if_neg h4]
      by_cases h5 : key = "@param".toList
      · simp only [if_pos h5]
        rfl
      simp only [if_neg h5]
      by_cases h6 : key = "@accept".toList ∨ key = "@consume".toList
      · simp only [if_pos h6]
        rfl
      simp only [if_neg h6]
      by_cases h7 : key = "@produce".toList
      · simp only [if_pos h7]
        rfl
      simp only [if_neg h7]
      rfl

/-! ## Lines that start with a keyword token -/

theorem dropWhile_of_stopsAt {p : Char → Bool} {l : Str} (h : StopsAt p l) :
    l.dropWhile p = l := by
  cases l with
  | nil => rfl
  | cons x xs =>
    have hx : p x = false := h x (by simp)
    simp [List.dropWhile_cons, hx]

theorem dropWhile_append_stop {p : Char → Bool} (a : Str) {b : Str} (h : StopsAt p b) :
    (a ++ b).dropWhile p = a.dropWhile p ++ b := by
  induction a with
  | nil => simpa using dropWhile_of_stopsAt h
  | cons x xs ih =>
    by_cases hx : p x = true
    · simp [List.dropWhile_cons, hx, ih]
    · simp [List.dropWhile_cons, hx]

theorem stopsAt_of_all {p : Char → Bool} {l : Str} (h : ∀ c ∈ l, p c = false) : StopsAt p l := by
  intro c hc
  exact h c (List.mem_of_mem_head? hc)

theorem strings_TrimLeft_token {k : Str} (s : Str) (h : ∀ c ∈ k.head?, c ≠ '/') (hne : k ≠ []) :
    strings_TrimLeft (k ++ s) ['/', '/'] = k ++ s := by
  cases k with
  | nil => exact absurd rfl hne
  | cons x xs =>
    have hx : x ≠ '/' := h x (by simp)
    simp [strings_TrimLeft, List.dropWhile_cons, hx]

theorem strings_TrimSpace_token {k : Str} (s : Str) (hne : k ≠ [])
    (hk : ∀ c ∈ k, unicode_IsSpace c = false) :
    strings_TrimSpace (k ++ s) = k ++ (s.reverse.dropWhile unicode_IsSpace).reverse := by
  unfold strings_TrimSpace
  have h1 : (k ++ s).dropWhile unicode_IsSpace = k ++ s := by
    apply dropWhile_of_stopsAt
    cases k with
    | nil => exact absurd rfl hne
    | cons x xs => exact stopsAt_cons _ (hk x (List.mem_cons_self _ _))
  have h2 : StopsAt unicode_IsSpace k.reverse :=
    stopsAt_of_all (fun c hc => hk c (List.mem_reverse.mp hc))
  rw [h1, List.reverse_append, dropWhile_append_stop _ h2]
  simp

theorem fieldsLoop_token {k : Str} (t : Str) (hk : ∀ c ∈ k, unicode_IsSpace c = false) :
    ∀ cur : Str, fieldsLoop (k ++ t) cur = fieldsLoop t (k.reverse ++ cur) := by
  induction k with
  | nil => intro cur; rfl
  | cons x xs ih =>
    intro cur
    have hx : unicode_IsSpace x = false := hk x (List.mem_cons_self _ _)
    have hxs : ∀ c ∈ xs, unicode_IsSpace c = false :=
      fun c hc => hk c (List.mem_cons_of_mem _ hc)
    rw [List.cons_append, fieldsLoop]
    simp only [hx, Bool.false_eq_true, if_false]
    rw [ih hxs (x :: cur)]
    simp

theorem trimmed_tail_shape (c : Char) (r : Str) :
    ((c :: r).reverse.dropWhile unicode_IsSpace).reverse = [] ∨
      ∃ t, ((c :: r).reverse.dropWhile unicode_IsSpace).reverse = c :: t := by
  have hpre : ((c :: r).reverse.dropWhile unicode_IsSpace).reverse <+: c :: r := by
    rw [← List.reverse_reverse (c :: r), List.reverse_prefix, List.reverse_reverse]
    exact List.dropWhile_suffix _
  cases ht : ((c :: r).reverse.dropWhile unicode_IsSpace).reverse with
  | nil => exact Or.inl rfl
  | cons y ys =>
    rw [ht] at hpre
    obtain ⟨z, hz⟩ := hpre
    have hy : y = c := by
      injection hz with h1 _
    subst hy
    exact Or.inr ⟨ys, rfl⟩

theorem strings_Fields_token {k : Str} (c : Char) (r : Str) (hne : k ≠ [])
    (hk : ∀ x ∈ k, unicode_IsSpace x = false) (hc : unicode_IsSpace c = true) :
    ∃ fs, strings_Fields (k ++ ((c :: r).reverse.dropWhile unicode_IsSpace).reverse) =
      k :: fs := by
  unfold strings_Fields
  rw [fieldsLoop_token _ hk, List.append_nil]
  have hrev : k.reverse ≠ [] := by simpa using hne
  rcases trimmed_tail_shape c r with h | ⟨t, h⟩
  · rw [h]
    exact ⟨[], by simp [fieldsLoop, hrev]⟩
  · rw [h]
    exact ⟨fieldsLoop t [], by simp [fieldsLoop, hc, hrev]⟩

/-- On a line made of a keyword token, one white-space code point and a remainder,
the handler is decided by the lower-cased token and the text handed over does
not depend on the token. -/
theorem handlerOf_token (U : Libraries) {k : Str} (c : Char) (r : Str) (hne : k ≠ [])
    (hk : ∀ x ∈ k, unicode_IsSpace x = false) (hs : ∀ x ∈ k.head?, x ≠ '/')
    (hc : unicode_IsSpace c = true) :
    handlerOf U (k ++ c :: r) = keyHandler (strings_ToLower U k) ∧
      directiveRest (k ++ c :: r) =
        strings_TrimSpace ((c :: r).reverse.dropWhile unicode_IsSpace).reverse := by
  have hline : strippedLine (k ++ c :: r) =
      k ++ ((c :: r).reverse.dropWhile unicode_IsSpace).reverse := by
    unfold strippedLine
    rw [strings_TrimLeft_token _ hs hne, strings_TrimSpace_token _ hne hk]
  obtain ⟨fs, hfs⟩ := strings_Fields_token c r hne hk hc
  unfold handlerOf directiveRest
  rw [hline, hfs]
  simp

theorem ParseComment_token_congr (U : Libraries) (operation : Operation) {k1 k2 : Str}
    (r : Str) (h1 : k1 ≠ []) (h2 : k2 ≠ [])
    (hk1 : ∀ x ∈ k1, unicode_IsSpace x = false) (hk2 : ∀ x ∈ k2, unicode_IsSpace x = false)
    (hs1 : ∀ x ∈ k1.head?, x ≠ '/') (hs2 : ∀ x ∈ k2.head?, x ≠ '/')
    (hkey : keyHandler (strings_ToLower U k1) = keyHandler (strings_ToLower U k2)) :
    ParseComment U operation (k1 ++ " ".toList ++ r) =
      ParseComment U operation (k2 ++ " ".toList ++ r) := by
  have e1 : k1 ++ " ".toList ++ r = k1 ++ ' ' :: r := by simp
  have e2 : k2 ++ " ".toList ++ r = k2 ++ ' ' :: r := by simp
  have hsp : unicode_IsSpace ' ' = true := by decide
  obtain ⟨ha1, hb1⟩ := handlerOf_token U ' ' r h1 hk1 hs1 hsp
  obtain ⟨ha2, hb2⟩ := handlerOf_token U ' ' r h2 hk2 hs2 hsp
  rw [e1, e2, ParseComment_eq_run, ParseComment_eq_run, ha1, ha2, hb1, hb2, hkey]

theorem directiveKeywords_tokens : ∀ k ∈ directiveKeywords,
    k ≠ [] ∧ (∀ x ∈ k, unicode_IsSpace x = false) ∧ ∀ x ∈ k.head?, x ≠ '/' := by
  decide

/-- C11: for a case table that leaves the nine keywords as they are, every
recognised keyword `k`, every token `k1` that lower-cases to `k`, every
remainder `r` and every record, `ParseComment` on `k1 r` has the same result and
final record as on `k r`; `@failure r` behaves as `@success r` and `@consume r`
as `@accept r`. -/
theorem ParseComment_case_and_alias (U : Libraries)
    (hU : ∀ k ∈ directiveKeywords, strings_ToLower U k = k) (operation : Operation) (r : Str) :
    (∀ k ∈ directiveKeywords, ∀ k1 : Str, IsCaseVariant U k1 k →
        ParseComment U operation (k1 ++ " ".toList ++ r) =
          ParseComment U operation (k ++ " ".toList ++ r)) ∧
      ParseComment U operation ("@failure".toList ++ " ".toList ++ r) =
        ParseComment U operation ("@success".toList ++ " ".toList ++ r) ∧
      ParseComment U operation ("@consume".toList ++ " ".toList ++ r) =
        ParseComment U operation ("@accept".toList ++ " ".toList ++ r) := by
  refine ⟨?_, ?_, ?_⟩
  · intro k hk k1 hv
    obtain ⟨hlow, hsp, hsl⟩ := hv
    obtain ⟨t1, t2, t3⟩ := directiveKeywords_tokens k hk
    have hne1 : k1 ≠ [] := by
      rintro rfl
      exact t1 (by simpa [strings_ToLower] using hlow.symm)
    apply ParseComment_token_congr U operation r hne1 t1 hsp t2 hsl t3
    rw [hlow, hU k hk]
  · obtain ⟨t1, t2, t3⟩ := directiveKeywords_tokens "@failure".toList (by decide)
    obtain ⟨s1, s2, s3⟩ := directiveKeywords_tokens "@success".toList (by decide)
    apply ParseComment_token_congr U operation r t1 s1 t2 s2 t3 s3
    rw [hU _ (by decide), hU _ (by decide)]
    decide
  · obtain ⟨t1, t2, t3⟩ := directiveKeywords_tokens "@consume".toList (by decide)
    obtain ⟨s1, s2, s3⟩ := directiveKeywords_tokens "@accept".toList (by decide)
    apply ParseComment_token_congr U operation r t1 s1 t2 s2 t3 s3
    rw [hU _ (by decide), hU _ (by decide)]
    decide

/-- Witness for C11: with the ASCII case table, `@ROUTER /pets [get]` is handled
as `@router /pets [get]`. -/
theorem ParseComment_case_and_alias_witness :
    ParseComment sampleLibraries NewOperation "@ROUTER /pets [get]".toList =
      ParseComment sampleLibraries NewOperation "@router /pets [get]".toList := by
  have h := (ParseComment_case_and_alias sampleLibraries (by decide) NewOperation
    "/pets [get]".toList).1 "@router".toList (by decide) "@ROUTER".toList (by decide)
  exact h

/-! ## Each handler is its effect -/

theorem lookupType_eq (P : Parser) (a b : Str) :
    lookupType P a b = lookupIn P.TypeDefinitions a b := rfl

theorem applyEffect_neutral (st : Status) (operation : Operation) :
    applyEffect ⟨st, none, none, none, [], [], [], none, none⟩ operation = operation := by
  simp [applyEffect, setEntry, registerIn]

theorem ParseRouterComment_effect (U : Libraries) (operation : Operation) (l : Str) :
    ParseRouterComment U operation l =
      ⟨applyEffect (handlerEffect U (registryOf operation) Handler.router l) operation,
        (handlerEffect U (registryOf operation) Handler.router l).status⟩ := by
  unfold ParseRouterComment handlerEffect routerResult
  by_cases hlen : ((FindStringSubmatch routerRE l).length != 3) = true
  · simp only [hlen, if_true]
    rw [applyEffect_neutral]
  · simp only [hlen, Bool.false_eq_true, if_false]
    simp [applyEffect, setEntry, registerIn]

theorem ParseResponseComment_effect (U : Libraries) (operation : Operation) (l : Str) :
    ParseResponseComment operation l =
      ⟨applyEffect (handlerEffect U (registryOf operation) Handler.response l) operation,
        (handlerEffect U (registryOf operation) Handler.response l).status⟩ := by
  unfold ParseResponseComment handlerEffect responseResult
  by_cases hlen : ((FindStringSubmatch responseRE l).length != 5) = true
  · simp only [hlen, if_true]
    rw [applyEffect_neutral]
  · simp only [hlen, Bool.false_eq_true, if_false]
    cases hat : strconv_Atoi ((FindStringSubmatch responseRE l).getD 1 []) with
    | none =>
      simp only []
      rw [applyEffect_neutral]
    | some code =>
      cases hp : operation.parser with
      | none =>
        simp [registryOf, hp, storeResponse, applyEffect, setEntry, registerIn]
      | some P =>
        simp only [registryOf, hp, Option.map_some', lookupType_eq]
        by_cases hsp : ((strings_Split ((FindStringSubmatch responseRE l).getD 3 []) '.').length
            == 2) = true
        · simp only [hsp, if_true]
          cases hl : lookupIn P.TypeDefinitions
              ((strings_Split ((FindStringSubmatch responseRE l).getD 3 []) '.').getD 0 [])
              ((strings_Split ((FindStringSubmatch responseRE l).getD 3 []) '.').getD 1 []) with
          | none =>
            simp only []
            rw [applyEffect_neutral]
          | some d =>
            simp [storeResponse, applyEffect, setEntry, registerIn, hp]
        · simp only [hsp, Bool.false_eq_true, if_false]
          simp [storeResponse, applyEffect, setEntry, registerIn, hp]

theorem createParameter_body (description name : Str) (required : Bool) :
    createParameter "body".toList description name "object".toList required =
      bodyParameter name description required none := by
  simp [createParameter, bodyParameter]

theorem ParseParamComment_effect (U : Libraries) (operation : Operation) (l : Str) :
    ParseParamComment U operation l =
      ⟨applyEffect (handlerEffect U (registryOf operation) Handler.param l) operation,
        (handlerEffect U (registryOf operation) Handler.param l).status⟩ := by
  unfold ParseParamComment handlerEffect paramResult
  by_cases hlen : ((FindStringSubmatch paramRE l).length != 6) = true
  · simp only [hlen, if_true]
    rw [applyEffect_neutral]
  · simp only [hlen, Bool.false_eq_true, if_false, required_eq]
    by_cases hq : (FindStringSubmatch paramRE l).getD 2 [] = "query".toList ∨
        (FindStringSubmatch paramRE l).getD 2 [] = "path".toList
    · simp only [if_pos hq]
      simp [appendParam, applyEffect, setEntry, registerIn]
    · simp only [if_neg hq]
      by_cases hb : (FindStringSubmatch paramRE l).getD 2 [] = "body".toList
      · simp only [if_pos hb, hb, createParameter_body]
        by_cases hsp : ((strings_Split ((FindStringSubmatch paramRE l).getD 3 []) '.').length
            == 2) = true
        · simp only [hsp, if_true]
          cases hp : operation.parser with
          | none =>
            simp only [registryOf, hp, Option.map_none']
            rw [applyEffect_neutral]
          | some P =>
            simp only [registryOf, hp, Option.map_some', lookupType_eq]
            cases hl : lookupIn P.TypeDefinitions
                ((strings_Split ((FindStringSubmatch paramRE l).getD 3 []) '.').getD 0 [])
                ((strings_Split ((FindStringSubmatch paramRE l).getD 3 []) '.').getD 1 []) with
            | none =>
              simp only []
              rw [applyEffect_neutral]
            | some d =>
              simp only []
              cases hc : U.MustCreateRef
                  ("#/definitions/".toList ++ (FindStringSubmatch paramRE l).getD 3 []) with
              | error msg => simp [applyEffect, setEntry, registerIn, hp]
              | ok ref =>
                simp [bodyParameter, appendParam, applyEffect, setEntry, registerIn, hp]
        · simp only [hsp, Bool.false_eq_true, if_false]
          simp [appendParam, applyEffect, setEntry, registerIn]
      · simp only [if_neg hb]
        by_cases hH : (FindStringSubmatch paramRE l).getD 2 [] = "Header".toList
        · simp only [if_pos hH]
          rw [applyEffect_neutral]
        · simp only [if_neg hH]
          by_cases hF : (FindStringSubmatch paramRE l).getD 2 [] = "Form".toList
          · simp only [if_pos hF]
            rw [applyEffect_neutral]
          · simp only [if_neg hF]
            simp [appendParam, applyEffect, setEntry, registerIn]

theorem ParseAcceptComment_eq (operation : Operation) (line : Str) :
    ParseAcceptComment operation line =
      ⟨{ operation with Consumes := operation.Consumes ++ mediaTypesOf line }, Status.ok⟩ := by
  simp only [ParseAcceptComment, foldl_acceptStep, mediaTypesOf]

theorem ParseProduceComment_eq (operation : Operation) (line : Str) :
    ParseProduceComment operation line =
      ⟨{ operation with Produces := operation.Produces ++ mediaTypesOf line }, Status.ok⟩ := by
  simp only [ParseProduceComment, foldl_produceStep, mediaTypesOf]

/-- Every handler does to the record what its effect says; the effect reads the
record only through the registry of the parser context. -/
theorem runHandler_effect (U : Libraries) (h : Handler) (operation : Operation) (rest : Str) :
    runHandler U h operation rest =
      ⟨applyEffect (handlerEffect U (registryOf operation) h rest) operation,
        (handlerEffect U (registryOf operation) h rest).status⟩ := by
  cases h with
  | router => exact ParseRouterComment_effect U operation rest
  | summary => simp [runHandler, handlerEffect, applyEffect, setEntry, registerIn]
  | description => simp [runHandler, handlerEffect, applyEffect, setEntry, registerIn]
  | response => exact ParseResponseComment_effect U operation rest
  | param => exact ParseParamComment_effect U operation rest
  | accept =>
    simp only [runHandler, ParseAcceptComment_eq]
    simp [handlerEffect, applyEffect, setEntry, registerIn]
  | produce =>
    simp only [runHandler, ParseProduceComment_eq]
    simp [handlerEffect, applyEffect, setEntry, registerIn]

theorem ParseComment_effect (U : Libraries) (operation : Operation) (comment : Str) :
    ParseComment U operation comment =
      ⟨applyEffect (commentEffect U (registryOf operation) comment) operation,
        (commentEffect U (registryOf operation) comment).status⟩ := by
  rw [ParseComment_eq_run]
  unfold commentEffect
  cases handlerOf U comment with
  | none => simp only [applyEffect_neutral]
  | some h => exact runHandler_effect U h operation (directiveRest comment)

theorem registryOf_applyEffect (e : Effect) (operation : Operation) :
    registryOf (applyEffect e operation) = registryOf operation := by
  unfold registryOf applyEffect registerIn
  cases e.register with
  | none => rfl
  | some rd =>
    cases operation.parser with
    | none => rfl
    | some P => rfl

/-! ## A handler that returns an error changes nothing -/

theorem routerResult_not_ok (U : Libraries) (l : Str)
    (h : (routerResult U l).1 ≠ Status.ok) : (routerResult U l).2 = none := by
  unfold routerResult at h ⊢
  by_cases hlen : ((FindStringSubmatch routerRE l).length != 3) = true
  · simp only [hlen, if_true]
  · simp only [hlen, Bool.false_eq_true, if_false] at h
    exact absurd rfl h

theorem responseResult_not_ok (reg : Option TypeDefs) (l : Str)
    (h : (responseResult reg l).1 ≠ Status.ok) : (responseResult reg l).2 = (none, none) := by
  unfold responseResult at h ⊢
  by_cases hlen : ((FindStringSubmatch responseRE l).length != 5) = true
  · simp only [hlen, if_true]
  · simp only [hlen, Bool.false_eq_true, if_false] at h ⊢
    cases hat : strconv_Atoi ((FindStringSubmatch responseRE l).getD 1 []) with
    | none => rfl
    | some code =>
      simp only [hat] at h ⊢
      cases reg with
      | none => exact absurd rfl h
      | some TD =>
        simp only [] at h ⊢
        by_cases hsp : ((strings_Split ((FindStringSubmatch responseRE l).getD 3 []) '.').length
            == 2) = true
        · simp only [hsp, if_true] at h ⊢
          cases hl : lookupIn TD
              ((strings_Split ((FindStringSubmatch responseRE l).getD 3 []) '.').getD 0 [])
              ((strings_Split ((FindStringSubmatch responseRE l).getD 3 []) '.').getD 1 []) with
          | none => rfl
          | some d =>
            simp only [hl] at h
            exact absurd rfl h
        · simp only [hsp, Bool.false_eq_true, if_false] at h
          exact absurd rfl h

theorem paramResult_error (U : Libraries) (reg : Option TypeDefs) (l msg : Str)
    (h : (paramResult U reg l).1 = Status.error msg) : (paramResult U reg l).2 = ([], none) := by
  unfold paramResult at h ⊢
  by_cases hlen : ((FindStringSubmatch paramRE l).length != 6) = true
  · simp only [hlen, if_true]
  · simp only [hlen, Bool.false_eq_true, if_false] at h ⊢
    by_cases hq : (FindStringSubmatch paramRE l).getD 2 [] = "query".toList ∨
        (FindStringSubmatch paramRE l).getD 2 [] = "path".toList
    · simp only [if_pos hq] at h
      exact absurd h (by simp)
    · simp only [if_neg hq] at h ⊢
      by_cases hb : (FindStringSubmatch paramRE l).getD 2 [] = "body".toList
      · simp only [if_pos hb] at h ⊢
        by_cases hsp : ((strings_Split ((FindStringSubmatch paramRE l).getD 3 []) '.').length
            == 2) = true
        · simp only [hsp, if_true] at h ⊢
          cases reg with
          | none => rfl
          | some TD =>
            simp only [] at h ⊢
            cases hl : lookupIn TD
                ((strings_Split ((FindStringSubmatch paramRE l).getD 3 []) '.').getD 0 [])
                ((strings_Split ((FindStringSubmatch paramRE l).getD 3 []) '.').getD 1 []) with
            | none => rfl
            | some d =>
              simp only [hl] at h
              cases hc : U.MustCreateRef
                  ("#/definitions/".toList ++ (FindStringSubmatch paramRE l).getD 3 []) with
              | error m =>
                rw [hc] at h
                exact absurd h (by simp)
              | ok ref =>
                rw [hc] at h
                exact absurd h (by simp)
        · simp only [hsp, Bool.false_eq_true, if_false] at h
          exact absurd h (by simp)
      · simp only [if_neg hb] at h ⊢
        by_cases hH : (FindStringSubmatch paramRE l).getD 2 [] = "Header".toList
        · simp only [if_pos hH]
        · simp only [if_neg hH] at h ⊢
          by_cases hF : (FindStringSubmatch paramRE l).getD 2 [] = "Form".toList
          · simp only [if_pos hF]
          · simp only [if_neg hF] at h
            exact absurd h (by simp)

theorem handlerEffect_error (U : Libraries) (reg : Option TypeDefs) (h : Handler) (rest : Str)
    (operation : Operation) (msg : Str)
    (hst : (handlerEffect U reg h rest).status = Status.error msg) :
    applyEffect (handlerEffect U reg h rest) operation = operation := by
  have hne : Status.error msg ≠ Status.ok := by simp
  cases h with
  | router =>
    have h2 := routerResult_not_ok U rest (by
      show (handlerEffect U reg Handler.router rest).status ≠ Status.ok
      rw [hst]; exact hne)
    simp only [handlerEffect, h2]
    exact applyEffect_neutral _ _
  | summary => exact absurd hst (by simp [handlerEffect])
  | description => exact absurd hst (by simp [handlerEffect])
  | response =>
    have h2 := responseResult_not_ok reg rest (by
      show (handlerEffect U reg Handler.response rest).status ≠ Status.ok
      rw [hst]; exact hne)
    simp only [handlerEffect, h2]
    exact applyEffect_neutral _ _
  | param =>
    have h2 := paramResult_error U reg rest msg hst
    simp only [handlerEffect, h2]
    exact applyEffect_neutral _ _
  | accept => exact absurd hst (by simp [handlerEffect])
  | produce => exact absurd hst (by simp [handlerEffect])

theorem runHandler_error (U : Libraries) (h : Handler) (operation : Operation) (rest msg : Str)
    (hst : (runHandler U h operation rest).status = Status.error msg) :
    (runHandler U h operation rest).op = operation := by
  rw [runHandler_effect] at hst ⊢
  exact handlerEffect_error U _ h rest operation msg hst

theorem ParseComment_error (U : Libraries) (operation : Operation) (comment msg : Str)
    (hst : (ParseComment U operation comment).status = Status.error msg) :
    (ParseComment U operation comment).op = operation := by
  rw [ParseComment_eq_run] at hst ⊢
  cases hh : handlerOf U comment with
  | none => rfl
  | some h =>
    rw [hh] at hst
    exact runHandler_error U h operation _ msg hst

/-- C15: whenever `ParseComment`, `ParseRouterComment`, `ParseParamComment` or
`ParseResponseComment` returns an error, the record after the call is the record
before the call: path, method, summary, description, consumes, produces,
parameters, responses and the parser context with its `registerTypes`. -/
theorem error_leaves_record_unchanged (U : Libraries) (operation : Operation) (line msg : Str) :
    ((ParseComment U operation line).status = Status.error msg →
        (ParseComment U operation line).op = operation) ∧
      ((ParseRouterComment U operation line).status = Status.error msg →
        (ParseRouterComment U operation line).op = operation) ∧
      ((ParseParamComment U operation line).status = Status.error msg →
        (ParseParamComment U operation line).op = operation) ∧
      ((ParseResponseComment operation line).status = Status.error msg →
        (ParseResponseComment operation line).op = operation) := by
  refine ⟨?_, ?_, ?_, ?_⟩
  · intro h
    exact ParseComment_error U operation line msg h
  · intro h
    exact runHandler_error U Handler.router operation line msg h
  · intro h
    exact runHandler_error U Handler.param operation line msg h
  · intro h
    exact runHandler_error U Handler.response operation line msg h

/-- Witness for C15: `@Success abc` is an error and leaves a record that already
has a summary as it was. -/
theorem error_leaves_record_unchanged_witness :
    (ParseComment sampleLibraries { NewOperation with Summary := "s".toList }
        "// @Success abc".toList).status =
        Status.error "Can not parse response comment \"abc\", skipped.".toList ∧
      (ParseComment sampleLibraries { NewOperation with Summary := "s".toList }
        "// @Success abc".toList).op = { NewOperation with Summary := "s".toList } := by
  have hst : (ParseComment sampleLibraries { NewOperation with Summary := "s".toList }
      "// @Success abc".toList).status =
      Status.error "Can not parse response comment \"abc\", skipped.".toList := by decide
  exact ⟨hst, (error_leaves_record_unchanged sampleLibraries { NewOperation with Summary := "s".toList }
    "// @Success abc".toList "Can not parse response comment \"abc\", skipped.".toList).1 hst⟩

/-! ## What a successful response directive changes -/

theorem responseResult_ok (reg : Option TypeDefs) (l : Str)
    (h : (responseResult reg l).1 = Status.ok) :
    ∃ c, strconv_Atoi ((FindStringSubmatch responseRE l).getD 1 []) = some c ∧
      (responseResult reg l).2.1 =
        some (c, { Description := strings_Trim ((FindStringSubmatch responseRE l).getD 4 []) ['"'],
                   Schema := some (responseSchema
                     (strings_Trim ((FindStringSubmatch responseRE l).getD 2 []) ['{', '}'])
                     ((FindStringSubmatch responseRE l).getD 3 [])) }) := by
  unfold responseResult at h ⊢
  by_cases hlen : ((FindStringSubmatch responseRE l).length != 5) = true
  · simp only [hlen, if_true] at h
    exact absurd h (by simp)
  · simp only [hlen, Bool.false_eq_true, if_false] at h ⊢
    cases hat : strconv_Atoi ((FindStringSubmatch responseRE l).getD 1 []) with
    | none =>
      simp only [hat] at h
      exact absurd h (by simp)
    | some code =>
      refine ⟨code, rfl, ?_⟩
      simp only [hat] at h ⊢
      cases reg with
      | none => rfl
      | some TD =>
        simp only [] at h ⊢
        by_cases hsp : ((strings_Split ((FindStringSubmatch responseRE l).getD 3 []) '.').length
            == 2) = true
        · simp only [hsp, if_true] at h ⊢
          cases hl : lookupIn TD
              ((strings_Split ((FindStringSubmatch responseRE l).getD 3 []) '.').getD 0 [])
              ((strings_Split ((FindStringSubmatch responseRE l).getD 3 []) '.').getD 1 []) with
          | none =>
            simp only [hl] at h
            exact absurd h (by simp)
          | some d => rfl
        · simp only [hsp, Bool.false_eq_true, if_false]

/-- C16: when `ParseResponseComment` succeeds, the status code `c` it read is the
integer value of the first group of the match, `Responses[c]` is the response
built from the line (whatever was stored there before), `Responses[k]` is
unchanged for every other `k`, and path, method, summary, description, consumes,
produces and parameters are unchanged. -/
theorem ParseResponseComment_frame (operation : Operation) (line : Str)
    (hok : (ParseResponseComment operation line).status = Status.ok) :
    ∃ c, strconv_Atoi ((FindStringSubmatch responseRE line).getD 1 []) = some c ∧
      (ParseResponseComment operation line).op.Responses c =
        some { Description := strings_Trim ((FindStringSubmatch responseRE line).getD 4 []) ['"'],
               Schema := some (responseSchema
                 (strings_Trim ((FindStringSubmatch responseRE line).getD 2 []) ['{', '}'])
                 ((FindStringSubmatch responseRE line).getD 3 [])) } ∧
      (∀ k, k ≠ c → (ParseResponseComment operation line).op.Responses k =
        operation.Responses k) ∧
      (ParseResponseComment operation line).op.Path = operation.Path ∧
      (ParseResponseComment operation line).op.HttpMethod = operation.HttpMethod ∧
      (ParseResponseComment operation line).op.Summary = operation.Summary ∧
      (ParseResponseComment operation line).op.Description = operation.Description ∧
      (ParseResponseComment operation line).op.Consumes = operation.Consumes ∧
      (ParseResponseComment operation line).op.Produces = operation.Produces ∧
      (ParseResponseComment operation line).op.Parameters = operation.Parameters := by
  rw [ParseResponseComment_effect sampleLibraries operation line] at hok ⊢
  obtain ⟨c, hc, hresp⟩ := responseResult_ok (registryOf operation) line hok
  refine ⟨c, hc, ?_, ?_, ?_⟩
  · simp [applyEffect, handlerEffect, hresp, setEntry, mapSet]
  · intro k hk
    simp [applyEffect, handlerEffect, hresp, setEntry, mapSet, hk]
  · simp [applyEffect, handlerEffect]

/-- Witness for C16: on a record that already holds a response under 200 and a
summary, `200 {string} x "ok"` succeeds, replaces the response under 200 and
keeps the summary. -/
theorem ParseResponseComment_frame_witness :
    ((ParseResponseComment
        sampleOperation
        "200 {string} x \"ok\"".toList).op.Responses 200).map (fun r => r.Description) =
        some "ok".toList ∧
      (ParseResponseComment
        sampleOperation
        "200 {string} x \"ok\"".toList).op.Summary = "s".toList := by
  obtain ⟨c, hc, hr, _, _, _, hs, _⟩ := ParseResponseComment_frame
    sampleOperation
    "200 {string} x \"ok\"".toList (by decide)
  have hc200 : c = 200 := by
    have h2 : strconv_Atoi ((FindStringSubmatch responseRE "200 {string} x \"ok\"".toList).getD
        1 []) = some 200 := by decide
    rw [h2] at hc
    exact (Option.some.inj hc).symm
  subst hc200
  refine ⟨?_, hs⟩
  rw [hr]
  decide

/-! ## Registered types come from the registry -/

theorem responseResult_registered (reg : Option TypeDefs) (l : Str) (r : Str) (d : TypeSpec)
    (h : (responseResult reg l).2.2 = some (r, d)) : Registered reg r d := by
  unfold responseResult at h
  by_cases hlen : ((FindStringSubmatch responseRE l).length != 5) = true
  · simp only [hlen, if_true] at h
    exact absurd h (by simp)
  · simp only [hlen, Bool.false_eq_true, if_false] at h
    cases hat : strconv_Atoi ((FindStringSubmatch responseRE l).getD 1 []) with
    | none =>
      simp only [hat] at h
      exact absurd h (by simp)
    | some code =>
      simp only [hat] at h
      cases reg with
      | none => exact absurd h (by simp)
      | some TD =>
        simp only [] at h
        by_cases hsp : ((strings_Split ((FindStringSubmatch responseRE l).getD 3 []) '.').length
            == 2) = true
        · simp only [hsp, if_true] at h
          cases hl : lookupIn TD
              ((strings_Split ((FindStringSubmatch responseRE l).getD 3 []) '.').getD 0 [])
              ((strings_Split ((FindStringSubmatch responseRE l).getD 3 []) '.').getD 1 []) with
          | none =>
            simp only [hl] at h
            exact absurd h (by simp)
          | some d1 =>
            simp only [hl, Option.some.injEq, Prod.mk.injEq] at h
            obtain ⟨h1, h2⟩ := h
            subst h1 h2
            exact ⟨TD, rfl, by simpa using hsp, hl⟩
        · simp only [hsp, Bool.false_eq_true, if_false] at h
          exact absurd h (by simp)

theorem paramResult_registered (U : Libraries) (reg : Option TypeDefs) (l : Str) (r : Str)
    (d : TypeSpec) (h : (paramResult U reg l).2.2 = some (r, d)) : Registered reg r d := by
  unfold paramResult at h
  by_cases hlen : ((FindStringSubmatch paramRE l).length != 6) = true
  · simp only [hlen, if_true] at h
    exact absurd h (by simp)
  · simp only [hlen, Bool.false_eq_true, if_false] at h
    by_cases hq : (FindStringSubmatch paramRE l).getD 2 [] = "query".toList ∨
        (FindStringSubmatch paramRE l).getD 2 [] = "path".toList
    · simp only [if_pos hq] at h
      exact absurd h (by simp)
    · simp only [if_neg hq] at h
      by_cases hb : (FindStringSubmatch paramRE l).getD 2 [] = "body".toList
      · simp only [if_pos hb] at h
        by_cases hsp : ((strings_Split ((FindStringSubmatch paramRE l).getD 3 []) '.').length
            == 2) = true
        · simp only [hsp, if_true] at h
          cases reg with
          | none => exact absurd h (by simp)
          | some TD =>
            simp only [] at h
            cases hl : lookupIn TD
                ((strings_Split ((FindStringSubmatch paramRE l).getD 3 []) '.').getD 0 [])
                ((strings_Split ((FindStringSubmatch paramRE l).getD 3 []) '.').getD 1 []) with
            | none =>
              simp only [hl] at h
              exact absurd h (by simp)
            | some d1 =>
              simp only [hl] at h
              have h0 : some ((FindStringSubmatch paramRE l).getD 3 [], d1) = some (r, d) := by
                cases hc : U.MustCreateRef
                    ("#/definitions/".toList ++ (FindStringSubmatch paramRE l).getD 3 []) with
                | error m =>
                  rw [hc] at h
                  exact h
                | ok ref =>
                  rw [hc] at h
                  exact h
              simp only [Option.some.injEq, Prod.mk.injEq] at h0
              obtain ⟨h1, h2⟩ := h0
              subst h1 h2
              exact ⟨TD, rfl, by simpa using hsp, hl⟩
        · simp only [hsp, Bool.false_eq_true, if_false] at h
          exact absurd h (by simp)
      · simp only [if_neg hb] at h
        by_cases hH : (FindStringSubmatch paramRE l).getD 2 [] = "Header".toList
        · simp only [if_pos hH] at h
          exact absurd h (by simp)
        · simp only [if_neg hH] at h
          by_cases hF : (FindStringSubmatch paramRE l).getD 2 [] = "Form".toList
          · simp only [if_pos hF] at h
            exact absurd h (by simp)
          · simp only [if_neg hF] at h
            exact absurd h (by simp)

theorem handlerEffect_registered (U : Libraries) (reg : Option TypeDefs) (h : Handler)
    (rest : Str) (r : Str) (d : TypeSpec)
    (hreg : (handlerEffect U reg h rest).register = some (r, d)) : Registered reg r d := by
  cases h with
  | router => exact absurd hreg (by simp [handlerEffect])
  | summary => exact absurd hreg (by simp [handlerEffect])
  | description => exact absurd hreg (by simp [handlerEffect])
  | response => exact responseResult_registered reg rest r d hreg
  | param => exact paramResult_registered U reg rest r d hreg
  | accept => exact absurd hreg (by simp [handlerEffect])
  | produce => exact absurd hreg (by simp [handlerEffect])

theorem commentEffect_registered (U : Libraries) (reg : Option TypeDefs) (comment : Str)
    (r : Str) (d : TypeSpec) (hreg : (commentEffect U reg comment).register = some (r, d)) :
    Registered reg r d := by
  unfold commentEffect at hreg
  cases hh : handlerOf U comment with
  | none =>
    rw [hh] at hreg
    exact absurd hreg (by simp)
  | some h =>
    rw [hh] at hreg
    exact handlerEffect_registered U reg h _ r d hreg

theorem mapSet_same {κ β : Type} [DecidableEq κ] {m : κ → Option β} {k : κ} {v : β}
    (h : m k = some v) : mapSet m k v = m := by
  funext x
  unfold mapSet
  by_cases hx : x = k
  · rw [if_pos hx, hx, h]
  · rw [if_neg hx]

theorem mapSet_idem {κ β : Type} [DecidableEq κ] (m : κ → Option β) (k : κ) (v : β) :
    mapSet (mapSet m k v) k v = mapSet m k v :=
  mapSet_same (by simp [mapSet])

/-- Along any sequence of `ParseComment` calls from a record with a parser context
whose `registerTypes` is empty, the parser context stays attached, its registry
is never written, and every entry of `registerTypes` is what the registry holds
for that reference. -/
theorem reachable_registry (U : Libraries) (start : Operation) (P0 : Parser)
    (hstart : start.parser = some P0) (hempty : ∀ r, P0.registerTypes r = none)
    (operation : Operation) (hr : Reachable U start operation) :
    ∃ P, operation.parser = some P ∧ P.TypeDefinitions = P0.TypeDefinitions ∧
      ∀ r d, P.registerTypes r = some d → Registered (some P0.TypeDefinitions) r d := by
  induction hr with
  | start =>
    refine ⟨P0, hstart, rfl, ?_⟩
    intro r d h
    rw [hempty r] at h
    exact absurd h (by simp)
  | @step op line _ ih =>
    obtain ⟨P, hP, hTD, hinv⟩ := ih
    rw [ParseComment_effect]
    have hreg : registryOf op = some P0.TypeDefinitions := by
      simp [registryOf, hP, hTD]
    rw [hreg]
    cases he : (commentEffect U (some P0.TypeDefinitions) line).register with
    | none =>
      refine ⟨P, ?_, hTD, hinv⟩
      simp [applyEffect, registerIn, he, hP]
    | some rd =>
      obtain ⟨r, d⟩ := rd
      have hR := commentEffect_registered U _ line r d he
      refine ⟨{ P with registerTypes := mapSet P.registerTypes r d }, ?_, hTD, ?_⟩
      · simp [applyEffect, registerIn, he, hP]
      · intro r1 d1 h1
        simp only [mapSet] at h1
        by_cases hx : r1 = r
        · rw [if_pos hx] at h1
          have hd : d = d1 := Option.some.inj h1
          rw [hx, ← hd]
          exact hR
        · rw [if_neg hx] at h1
          exact hinv r1 d1 h1

/-! ## Registering again -/

theorem setEntry_idem {κ β : Type} [DecidableEq κ] (m : κ → Option β) (e : Option (κ × β)) :
    setEntry (setEntry m e) e = setEntry m e := by
  cases e with
  | none => rfl
  | some kv => exact mapSet_idem m kv.1 kv.2

theorem registerIn_idem (p : Option Parser) (e : Option (Str × TypeSpec)) :
    registerIn (registerIn p e) e = registerIn p e := by
  cases e with
  | none => rfl
  | some rd =>
    cases p with
    | none => rfl
    | some P =>
      simp only [registerIn, Option.map_some', mapSet_idem]

theorem ParseResponseComment_twice (operation : Operation) (line : Str) :
    ParseResponseComment (ParseResponseComment operation line).op line =
      ParseResponseComment operation line := by
  rw [ParseResponseComment_effect sampleLibraries operation line]
  rw [ParseResponseComment_effect sampleLibraries (applyEffect _ operation) line]
  rw [registryOf_applyEffect]
  simp [applyEffect, handlerEffect, setEntry_idem, registerIn_idem]

/-! ## Registered references in a run without abort -/

theorem find_responseRE_ref (l : Str) :
    ∀ c ∈ (FindStringSubmatch responseRE l).getD 3 [], isRefChar c = true := by
  unfold FindStringSubmatch
  cases hs : searchFrom responseRE l with
  | none => simp
  | some v =>
    obtain ⟨pre, a, ys, caps1, _, hsp, hv⟩ := searchFrom_sound hs
    obtain ⟨d, w1, k, w2, r, q, _, _, _, _, hr, _, hcaps⟩ := spans_responseRE hsp
    have hn : responseRE.numSubexp + 1 = 5 := rfl
    rw [hn] at hcaps
    have hg : v.getD 3 [] = r := by
      rcases hcaps with h | ⟨t, h⟩
      · rw [hv, h]
        simp [List.replicate]
      · rw [hv, h]
        simp [List.replicate]
    simp only [hg]
    exact hr.2

theorem responseResult_register_ref (reg : Option TypeDefs) (l : Str) (r : Str) (d : TypeSpec)
    (h : (responseResult reg l).2.2 = some (r, d)) : ∀ c ∈ r, isRefChar c = true := by
  unfold responseResult at h
  by_cases hlen : ((FindStringSubmatch responseRE l).length != 5) = true
  · simp only [hlen, if_true] at h
    exact absurd h (by simp)
  · simp only [hlen, Bool.false_eq_true, if_false] at h
    cases hat : strconv_Atoi ((FindStringSubmatch responseRE l).getD 1 []) with
    | none =>
      simp only [hat] at h
      exact absurd h (by simp)
    | some code =>
      simp only [hat] at h
      cases reg with
      | none => exact absurd h (by simp)
      | some TD =>
        simp only [] at h
        by_cases hsp : ((strings_Split ((FindStringSubmatch responseRE l).getD 3 []) '.').length
            == 2) = true
        · simp only [hsp, if_true] at h
          cases hl : lookupIn TD
              ((strings_Split ((FindStringSubmatch responseRE l).getD 3 []) '.').getD 0 [])
              ((strings_Split ((FindStringSubmatch responseRE l).getD 3 []) '.').getD 1 []) with
          | none =>
            simp only [hl] at h
            exact absurd h (by simp)
          | some d1 =>
            simp only [hl, Option.some.injEq, Prod.mk.injEq] at h
            rw [← h.1]
            exact find_responseRE_ref l
        · simp only [hsp, Bool.false_eq_true, if_false] at h
          exact absurd h (by simp)

theorem paramResult_register_accepted (U : Libraries) (reg : Option TypeDefs) (l : Str) (r : Str)
    (d : TypeSpec) (h : (paramResult U reg l).2.2 = some (r, d))
    (hna : ∀ m, (paramResult U reg l).1 ≠ Status.panic m) :
    ∃ ref, U.MustCreateRef ("#/definitions/".toList ++ r) = Except.ok ref := by
  unfold paramResult at h hna
  by_cases hlen : ((FindStringSubmatch paramRE l).length != 6) = true
  · simp only [hlen, if_true] at h
    exact absurd h (by simp)
  · simp only [hlen, Bool.false_eq_true, if_false] at h hna
    by_cases hq : (FindStringSubmatch paramRE l).getD 2 [] = "query".toList ∨
        (FindStringSubmatch paramRE l).getD 2 [] = "path".toList
    · simp only [if_pos hq] at h
      exact absurd h (by simp)
    · simp only [if_neg hq] at h hna
      by_cases hb : (FindStringSubmatch paramRE l).getD 2 [] = "body".toList
      · simp only [if_pos hb] at h hna
        by_cases hsp : ((strings_Split ((FindStringSubmatch paramRE l).getD 3 []) '.').length
            == 2) = true
        · simp only [hsp, if_true] at h hna
          cases reg with
          | none => exact absurd h (by simp)
          | some TD =>
            simp only [] at h hna
            cases hl : lookupIn TD
                ((strings_Split ((FindStringSubmatch paramRE l).getD 3 []) '.').getD 0 [])
                ((strings_Split ((FindStringSubmatch paramRE l).getD 3 []) '.').getD 1 []) with
            | none =>
              simp only [hl] at h
              exact absurd h (by simp)
            | some d1 =>
              simp only [hl] at h hna
              cases hc : U.MustCreateRef
                  ("#/definitions/".toList ++ (FindStringSubmatch paramRE l).getD 3 []) with
              | error m =>
                rw [hc] at hna
                exact absurd rfl (hna m)
              | ok ref =>
                rw [hc] at h
                simp only [Option.some.injEq, Prod.mk.injEq] at h
                rw [← h.1]
                exact ⟨ref, hc⟩
        · simp only [hsp, Bool.false_eq_true, if_false] at h
          exact absurd h (by simp)
      · simp only [if_neg hb] at h
        by_cases hH : (FindStringSubmatch paramRE l).getD 2 [] = "Header".toList
        · simp only [if_pos hH] at h
          exact absurd h (by simp)
        · simp only [if_neg hH] at h
          by_cases hF : (FindStringSubmatch paramRE l).getD 2 [] = "Form".toList
          · simp only [if_pos hF] at h
            exact absurd h (by simp)
          · simp only [if_neg hF] at h
            exact absurd h (by simp)

theorem commentEffect_register_accepted (U : Libraries) (hlib : AcceptsRefChars U)
    (reg : Option TypeDefs) (comment : Str) (r : Str) (d : TypeSpec)
    (hreg : (commentEffect U reg comment).register = some (r, d))
    (hna : ∀ m, (commentEffect U reg comment).status ≠ Status.panic m) :
    ∃ ref, U.MustCreateRef ("#/definitions/".toList ++ r) = Except.ok ref := by
  unfold commentEffect at hreg hna
  cases hh : handlerOf U comment with
  | none =>
    rw [hh] at hreg
    exact absurd hreg (by simp)
  | some h =>
    rw [hh] at hreg hna
    cases h with
    | router => exact absurd hreg (by simp [handlerEffect])
    | summary => exact absurd hreg (by simp [handlerEffect])
    | description => exact absurd hreg (by simp [handlerEffect])
    | response => exact hlib r (responseResult_register_ref reg _ r d hreg)
    | param => exact paramResult_register_accepted U reg _ r d hreg hna
    | accept => exact absurd hreg (by simp [handlerEffect])
    | produce => exact absurd hreg (by simp [handlerEffect])

theorem reachableNoAbort_reachable {U : Libraries} {start operation : Operation}
    (h : ReachableNoAbort U start operation) : Reachable U start operation := by
  induction h with
  | start => exact Reachable.start
  | step line _ _ ih => exact Reachable.step line ih

/-- Along any sequence of `ParseComment` calls without abort, from a record with a
parser context whose `registerTypes` is empty, the reference library creates a
reference for every entry of `registerTypes`. -/
theorem reachableNoAbort_accepted (U : Libraries) (hlib : AcceptsRefChars U)
    (start : Operation) (P0 : Parser)
    (hstart : start.parser = some P0) (hempty : ∀ r, P0.registerTypes r = none)
    (operation : Operation) (hr : ReachableNoAbort U start operation) :
    ∃ P, operation.parser = some P ∧
      ∀ r d, P.registerTypes r = some d →
        ∃ ref, U.MustCreateRef ("#/definitions/".toList ++ r) = Except.ok ref := by
  induction hr with
  | start =>
    refine ⟨P0, hstart, ?_⟩
    intro r d h
    rw [hempty r] at h
    exact absurd h (by simp)
  | @step op line _ hna ih =>
    obtain ⟨P, hP, hinv⟩ := ih
    rw [ParseComment_effect] at hna ⊢
    cases he : (commentEffect U (registryOf op) line).register with
    | none =>
      refine ⟨P, ?_, hinv⟩
      simp [applyEffect, registerIn, he, hP]
    | some rd =>
      obtain ⟨r, d⟩ := rd
      have hacc := commentEffect_register_accepted U hlib _ line r d he hna
      refine ⟨{ P with registerTypes := mapSet P.registerTypes r d }, ?_, ?_⟩
      · simp [applyEffect, registerIn, he, hP]
      · intro r1 d1 h1
        simp only [mapSet] at h1
        by_cases hx : r1 = r
        · rw [hx]
          exact hacc
        · rw [if_neg hx] at h1
          exact hinv r1 d1 h1

theorem hasBadEscape_of_not_mem {s : Str} (h : '%' ∉ s) : hasBadEscape s = false := by
  induction s with
  | nil => rfl
  | cons c cs ih =>
    have hc : c ≠ '%' := fun e => h (e ▸ List.mem_cons_self _ _)
    have hcs : '%' ∉ cs := fun e => h (List.mem_cons_of_mem _ e)
    unfold hasBadEscape
    rw [if_neg hc]
    exact ih hcs

/-- The sample library creates a reference for every string of `[\w\-./]`. -/
theorem sampleLibraries_accepts : AcceptsRefChars sampleLibraries := by
  intro s hs
  have hno : '%' ∉ "#/definitions/".toList ++ s := by
    intro hm
    rcases List.mem_append.mp hm with h | h
    · revert h
      decide
    · have := hs _ h
      revert this
      decide
  exact ⟨"#/definitions/".toList ++ s, by
    show (if hasBadEscape ("#/definitions/".toList ++ s) = true then _ else _) = _
    rw [hasBadEscape_of_not_mem hno]
    rfl⟩

/-- C17: in every record reachable by `ParseComment` calls from a record whose
parser context has an empty `registerTypes`, for every reference `r` present in
`registerTypes`: a well-formed body parameter line with type token `r` leaves the
parser context, hence `registerTypes`, exactly as it was, and it succeeds
whenever the reference library creates a reference from `#/definitions/r`, which
it does in every run without abort when it accepts the strings of `[\w\-./]`; a
well-formed response line with reference `r` whose code fits an `int` succeeds
and leaves the parser context as it was; and for every record, parsing the same
response line twice gives the same result and the same record as parsing it
once. -/
theorem registration_idempotent (U : Libraries) (start : Operation) (P0 : Parser)
    (hstart : start.parser = some P0) (hempty : ∀ r, P0.registerTypes r = none)
    (operation : Operation) (hr : Reachable U start operation) :
    (∀ (P : Parser) (r : Str) (d : TypeSpec), operation.parser = some P →
        P.registerTypes r = some d →
        (∀ name ws1 ws2 ws3 req ws4 desc : Str,
          ParamFields name ws1 "body".toList ws2 r ws3 req ws4 desc →
          (ParseParamComment U operation
            (paramLine name ws1 "body".toList ws2 r ws3 req ws4 desc)).op.parser =
              operation.parser ∧
          ((AcceptsRefChars U ∧ ReachableNoAbort U start operation) ∨
              (∃ ref, U.MustCreateRef ("#/definitions/".toList ++ r) = Except.ok ref) →
            (ParseParamComment U operation
              (paramLine name ws1 "body".toList ws2 r ws3 req ws4 desc)).status = Status.ok)) ∧
        (∀ code ws1 kind ws2 rest : Str, ResponseFields code ws1 kind ws2 r rest →
          digitsValue code < 2 ^ (intSize - 1) →
          (ParseResponseComment operation
            (responseLine code ws1 kind ws2 r rest)).status = Status.ok ∧
          (ParseResponseComment operation
            (responseLine code ws1 kind ws2 r rest)).op.parser = operation.parser)) ∧
      (∀ (anyOperation : Operation) (line : Str),
        ParseResponseComment (ParseResponseComment anyOperation line).op line =
          ParseResponseComment anyOperation line) := by
  refine ⟨?_, ParseResponseComment_twice⟩
  intro P r d hP hrd
  obtain ⟨P1, hP1, hTD, hinv⟩ := reachable_registry U start P0 hstart hempty operation hr
  have hPP : P1 = P := Option.some.inj (hP1.symm.trans hP)
  subst hPP
  obtain ⟨TD, hTD0, hlen, hlook⟩ := hinv r d hrd
  have hTDeq : TD = P1.TypeDefinitions := by
    rw [hTD]
    exact (Option.some.inj hTD0).symm
  subst hTDeq
  have hsame : ({ P1 with registerTypes := mapSet P1.registerTypes r d } : Parser) = P1 := by
    rw [mapSet_same hrd]
  constructor
  · intro name ws1 ws2 ws3 req ws4 desc hf
    rw [ParseParamComment_body_line U operation name ws1 ws2 r ws3 req ws4 desc hf]
    simp only [if_pos hlen, hP, lookupType_eq, hlook, appendParam, hsame]
    constructor
    · cases U.MustCreateRef ("#/definitions/".toList ++ r) with
      | error msg => rfl
      | ok ref => rfl
    · intro hacc
      have hex : ∃ ref, U.MustCreateRef ("#/definitions/".toList ++ r) = Except.ok ref := by
        rcases hacc with ⟨hlib, hna⟩ | hex
        · obtain ⟨P2, hP2, hinv2⟩ :=
            reachableNoAbort_accepted U hlib start P0 hstart hempty operation hna
          have hPP2 : P2 = P1 := Option.some.inj (hP2.symm.trans hP)
          subst hPP2
          exact hinv2 r d hrd
        · exact hex
      obtain ⟨ref, href⟩ := hex
      rw [href]
  · intro code ws1 kind ws2 rest hf hfit
    rw [ParseResponseComment_line operation code ws1 kind ws2 r rest hf hfit]
    simp only [responseOutcome, if_pos hlen, hP, lookupType_eq, hlook, storeResponse, hsame]
    exact ⟨trivial, trivial⟩

/-- Witness for C17: after `@Success 200 {object} model.User "ok"` has registered
`model.User`, in a run without abort, the body parameter line
`u body model.User true "x"` succeeds and leaves the parser context as it was. -/
theorem registration_idempotent_witness :
    (ParseParamComment sampleLibraries
        (ParseComment sampleLibraries userOperation
          "// @Success 200 {object} model.User \"ok\"".toList).op
        "u body model.User true \"x\"".toList).op.parser =
        (ParseComment sampleLibraries userOperation
          "// @Success 200 {object} model.User \"ok\"".toList).op.parser ∧
      (ParseParamComment sampleLibraries
        (ParseComment sampleLibraries userOperation
          "// @Success 200 {object} model.User \"ok\"".toList).op
        "u body model.User true \"x\"".toList).status = Status.ok := by
  have hst : (ParseComment sampleLibraries userOperation
      "// @Success 200 {object} model.User \"ok\"".toList).status = Status.ok := by decide
  have h := ((registration_idempotent sampleLibraries userOperation userParser rfl (fun _ => rfl)
    (ParseComment sampleLibraries userOperation
      "// @Success 200 {object} model.User \"ok\"".toList).op
    (Reachable.step _ Reachable.start)).1
    { userParser with registerTypes := mapSet userParser.registerTypes "model.User".toList 7 }
    "model.User".toList 7 rfl (by decide)).1
    "u".toList " ".toList " ".toList " ".toList "true".toList " ".toList "x".toList (by decide)
  exact ⟨h.1, h.2 (Or.inl ⟨sampleLibraries_accepts,
    ReachableNoAbort.step _ ReachableNoAbort.start (by intro m; rw [hst]; simp)⟩)⟩

/-! ## Handlers of different kinds commute -/

theorem mapSet_comm {κ β : Type} [DecidableEq κ] (m : κ → Option β) (k1 k2 : κ) (v1 v2 : β)
    (h : k1 = k2 → v1 = v2) :
    mapSet (mapSet m k1 v1) k2 v2 = mapSet (mapSet m k2 v2) k1 v1 := by
  funext x
  unfold mapSet
  by_cases h2 : x = k2
  · by_cases h1 : x = k1
    · have hv : v1 = v2 := h (h1.symm.trans h2)
      rw [if_pos h2, if_pos h1, hv]
    · rw [if_pos h2, if_neg h1, if_pos h2]
  · by_cases h1 : x = k1
    · rw [if_neg h2, if_pos h1, if_pos h1]
    · rw [if_neg h2, if_neg h1, if_neg h1, if_neg h2]

theorem registerIn_comm (p : Option Parser) (x y : Option (Str × TypeSpec))
    (h : ∀ r d1 d2, x = some (r, d1) → y = some (r, d2) → d1 = d2) :
    registerIn (registerIn p y) x = registerIn (registerIn p x) y := by
  cases x with
  | none => rfl
  | some a =>
    cases y with
    | none => rfl
    | some b =>
      cases p with
      | none => rfl
      | some P =>
        obtain ⟨r1, d1⟩ := a
        obtain ⟨r2, d2⟩ := b
        have hc : r2 = r1 → d2 = d1 := by
          intro e
          subst e
          exact (h r2 d1 d2 rfl rfl).symm
        simp only [registerIn, Option.map_some', mapSet_comm P.registerTypes r2 r1 d2 d1 hc]

theorem applyEffect_comm (e1 e2 : Effect) (operation : Operation) (hsep : Separate e1 e2)
    (hreg : ∀ r d1 d2, e1.register = some (r, d1) → e2.register = some (r, d2) → d1 = d2) :
    applyEffect e1 (applyEffect e2 operation) = applyEffect e2 (applyEffect e1 operation) := by
  obtain ⟨h1, h2, h3, h4, h5, h6, h7⟩ := hsep
  simp only [applyEffect, Operation.mk.injEq]
  refine ⟨?_, ?_, ?_, ?_, ?_, ?_, ?_, ?_, ?_⟩
  · rcases h1 with h | h <;> simp [h]
  · rcases h1 with h | h <;> simp [h]
  · rcases h2 with h | h <;> simp [h]
  · rcases h3 with h | h <;> simp [h]
  · rcases h4 with h | h <;> simp [h]
  · rcases h5 with h | h <;> simp [h]
  · rcases h6 with h | h <;> simp [h]
  · rcases h7 with h | h <;> simp [h, setEntry]
  · exact registerIn_comm _ _ _ hreg

theorem handlerEffect_separate (U : Libraries) (reg : Option TypeDefs) (ha hb : Handler)
    (ra rb : Str) (hne : ha ≠ hb) :
    Separate (handlerEffect U reg ha ra) (handlerEffect U reg hb rb) := by
  cases ha <;> cases hb <;>
    first
      | exact absurd rfl hne
      | (refine ⟨?_, ?_, ?_, ?_, ?_, ?_, ?_⟩ <;> first | exact Or.inl rfl | exact Or.inr rfl)

theorem registered_unique {reg : Option TypeDefs} {r : Str} {d1 d2 : TypeSpec}
    (h1 : Registered reg r d1) (h2 : Registered reg r d2) : d1 = d2 := by
  obtain ⟨TD1, e1, _, l1⟩ := h1
  obtain ⟨TD2, e2, _, l2⟩ := h2
  have hTD : TD1 = TD2 := Option.some.inj (e1.symm.trans e2)
  subst hTD
  exact Option.some.inj (l1.symm.trans l2)

/-- C18: for two comment lines routed to different handlers, neither of which
panics on the record, applying `a` then `b` gives the same final record, parser
context included, as applying `b` then `a`, and each line ends the same way
(success or the same error) whether it is applied first or second. -/
theorem ParseComment_different_handlers_commute (U : Libraries) (operation : Operation)
    (a b : Str) (ha hb : Handler)
    (hA : handlerOf U a = some ha) (hB : handlerOf U b = some hb) (hne : ha ≠ hb)
    (_hpa : ∀ m, (ParseComment U operation a).status ≠ Status.panic m)
    (_hpb : ∀ m, (ParseComment U operation b).status ≠ Status.panic m) :
    (ParseComment U (ParseComment U operation a).op b).op =
        (ParseComment U (ParseComment U operation b).op a).op ∧
      (ParseComment U (ParseComment U operation a).op b).status =
        (ParseComment U operation b).status ∧
      (ParseComment U (ParseComment U operation b).op a).status =
        (ParseComment U operation a).status := by
  have ea := ParseComment_effect U operation a
  have eb := ParseComment_effect U operation b
  have eab := ParseComment_effect U (ParseComment U operation a).op b
  have eba := ParseComment_effect U (ParseComment U operation b).op a
  have ra : registryOf (ParseComment U operation a).op = registryOf operation := by
    rw [ea]
    exact registryOf_applyEffect _ _
  have rb : registryOf (ParseComment U operation b).op = registryOf operation := by
    rw [eb]
    exact registryOf_applyEffect _ _
  rw [ra] at eab
  rw [rb] at eba
  refine ⟨?_, ?_, ?_⟩
  · rw [eab, eba]
    show applyEffect _ (ParseComment U operation a).op = applyEffect _ (ParseComment U operation b).op
    rw [ea, eb]
    show applyEffect (commentEffect U (registryOf operation) b)
        (applyEffect (commentEffect U (registryOf operation) a) operation) =
      applyEffect (commentEffect U (registryOf operation) a)
        (applyEffect (commentEffect U (registryOf operation) b) operation)
    apply applyEffect_comm
    · simp only [commentEffect, hA, hB]
      exact handlerEffect_separate U _ hb ha _ _ (Ne.symm hne)
    · intro r d1 d2 h1 h2
      exact registered_unique (commentEffect_registered U _ b r d1 h1)
        (commentEffect_registered U _ a r d2 h2)
  · rw [eab, eb]
  · rw [eba, ea]

/-- Witness for C18: a summary line and a parameter line on the fresh operation,
in either order. -/
theorem ParseComment_different_handlers_commute_witness :
    (ParseComment sampleLibraries (ParseComment sampleLibraries NewOperation "// @Summary hi".toList).op
        "// @Param id path int true \"user id\"".toList).op =
      (ParseComment sampleLibraries
        (ParseComment sampleLibraries NewOperation "// @Param id path int true \"user id\"".toList).op
        "// @Summary hi".toList).op := by
  have hs : (ParseComment sampleLibraries NewOperation "// @Summary hi".toList).status = Status.ok := by
    decide
  have hp : (ParseComment sampleLibraries NewOperation
      "// @Param id path int true \"user id\"".toList).status = Status.ok := by
    decide
  have h := (ParseComment_different_handlers_commute sampleLibraries NewOperation
    "// @Summary hi".toList "// @Param id path int true \"user id\"".toList
    Handler.summary Handler.param (by decide) (by decide) (by decide)
    (by intro m; rw [hs]; simp) (by intro m; rw [hp]; simp)).1
  exact h

end Swag
